import Mathlib

/-!
# Verification of the mcpack data-pack model (`mcpack/datapack.py`)

This file gives a shallow embedding of the `mcpack` library: an in-memory
object graph (`DataPack` / `Namespace` / the ten namespace item kinds) and its
type-directed dump/load protocol against a directory tree.

The filesystem is modelled explicitly as an association list from paths
(lists of segments) to file contents; directories are implicit (a directory
"exists" exactly when some entry lies strictly below it, matching the fact
that the Python code only ever creates directories as parents of files, plus
the always-written `pack.mcmeta`).  JSON text serialization is treated
abstractly: a JSON file stores the JSON value itself, since
`json.loads (json.dumps v) = v` for every value the library produces, while
key order of Python dicts (insertion order) is modelled by ordered fields
inside `Json.objCons` chains.  Likewise the gzip-framed NBT file of a
`Structure` stores the structure's field record itself.

Python `dict`s are modelled as association lists with Python's update
semantics (`pyInsert`): assignment to an existing key replaces in place,
assignment to a fresh key appends.  Python item paths such as
`"thing/subfolder"` are modelled pre-split on `'/'` as `List String`
(splitting on `'/'` is a bijection between strings and nonempty lists of
slash-free segments, so dictionary identity is preserved).
-/

set_option linter.unusedVariables false

/-! ## JSON values (abstract model of `json.dumps` / `json.loads`)

Arrays and objects are encoded as cons chains (`arrNil`/`arrCons`,
`objNil`/`objCons`) rather than nested `List`s, so that equality is
derivable; `objOfFields` converts an ordered field list into a chain and
`jFields` converts back. -/

/-- A JSON value.  Object fields form an ordered chain, mirroring Python
dict insertion order, which `json.dumps` preserves. -/
inductive Json where
  | null : Json
  | bool (b : Bool) : Json
  | num (n : Int) : Json
  | str (s : String) : Json
  | arrNil : Json
  | arrCons (head tail : Json) : Json
  | objNil : Json
  | objCons (key : String) (value tail : Json) : Json
deriving DecidableEq, Repr

/-- `value is None` test used by `JsonItem.dump`'s comprehension filter. -/
def Json.isNull : Json → Bool
  | .null => true
  | _ => false

/-- Build a JSON object from an ordered field list. -/
def objOfFields : List (String × Json) → Json
  | [] => .objNil
  | (k, v) :: rest => .objCons k v (objOfFields rest)

/-- Recover the ordered field list of a JSON object (`none` if the value is
not an object). -/
def jFields : Json → Option (List (String × Json))
  | .objNil => some []
  | .objCons k v t => (jFields t).map (fun rest => (k, v) :: rest)
  | _ => none

/-- Lookup of a key in an ordered field list (first occurrence;
`json.loads` never yields duplicate keys). -/
def jLookup (kvs : List (String × Json)) (k : String) : Option Json :=
  (kvs.find? (fun kv => kv.1 = k)).map (·.2)

/-! ## NBT values and the `Structure` schema

`StructureSchema` (datapack.py lines 151-173) is a strict nbtlib schema.
Generic compound/list payloads (palette states, block nbt, entities) are
modelled by the `Nbt` type, with lists and compounds encoded as cons chains
for the same derivability reason as `Json`. -/

/-- A binary tagged-compound ("NBT") value. `dblBits` carries the raw bit
pattern of a Double so no floating-point arithmetic is modelled. -/
inductive Nbt where
  | intT (i : Int) : Nbt
  | dblT (bits : Int) : Nbt
  | strT (s : String) : Nbt
  | listNil : Nbt
  | listCons (head tail : Nbt) : Nbt
  | compNil : Nbt
  | compCons (key : String) (value tail : Nbt) : Nbt
deriving DecidableEq, Repr

/-- `DATA_VERSION` (datapack.py line 49). -/
def DATA_VERSION : Int := 1519

/-! ## Namespace item kinds -/

/-- `Advancement` (JSON item, folder `advancements`).  Field values are kept
as raw `Json` because Python dataclasses do not enforce the annotations;
`Json.null` plays the role of Python `None`. -/
structure Advancement where
  display : Json := .null
  parent : Json := .null
  criteria : Json := .objNil
  requirements : Json := .null
  rewards : Json := .null
deriving DecidableEq, Repr

/-- `Function` (text item, folder `functions`, extension `.mcfunction`). -/
structure Function where
  body : String := ""
deriving DecidableEq, Repr

/-- `LootTable` (JSON item, folder `loot_tables`). -/
structure LootTable where
  pools : Json := .arrNil
  type : Json := .str "generic"
  functions : Json := .null
deriving DecidableEq, Repr

/-- `Recipe` (JSON item, folder `recipes`). -/
structure Recipe where
  type : Json := .str "crafting_shaped"
  group : Json := .null
  pattern : Json := .arrNil
  key : Json := .objNil
  ingredient : Json := .null
  ingredients : Json := .null
  result : Json := .objNil
  experience : Json := .null
  cookingtime : Json := .null
  count : Json := .null
deriving DecidableEq, Repr

/-- `Structure` (binary NBT item, folder `structures`, extension `.nbt`).
The constructor defaults mirror `Structure.__init__` (lines 195-204). -/
structure Structure where
  dataVersion : Int := DATA_VERSION
  author : String := ""
  size : List Int := [0, 0, 0]
  palette : Nbt := .listNil
  palettes : Nbt := .listNil
  blocks : Nbt := .listNil
  entities : Nbt := .listNil
deriving DecidableEq, Repr

/-- `TagItem` (JSON item): shared shape of the five tag classes
(`BlockTag`, `ItemTag`, `FluidTag`, `FunctionTag`, `EntityTypeTag`), which
differ only in their storage folder. -/
structure TagItem where
  values : Json := .arrNil
  replace : Json := .bool false
deriving DecidableEq, Repr

/-! ## File contents

A file's on-disk bytes are modelled per format: raw text for `Function`
bodies, a JSON value for `JsonItem`s and `pack.mcmeta`, and a gzip-framed
NBT tree (carrying exactly the structure's fields, as written by
`Structure.dump`) for `Structure`s. -/

/-- Contents of one file. -/
inductive FileData where
  | text (s : String) : FileData
  | json (j : Json) : FileData
  | nbt (s : Structure) : FileData
deriving DecidableEq, Repr

/-! ## Item codecs: `encode` is each kind's `dump` payload, `decode` its
`load`.  Decoding is `Option`-valued: `none` models the Python call raising
(JSON parse/`TypeError` failures, or reading the wrong file format). -/

/-- `asdict(self).items()` of an `Advancement`, in field declaration order. -/
def Advancement.fieldList (a : Advancement) : List (String × Json) :=
  [("display", a.display), ("parent", a.parent), ("criteria", a.criteria),
   ("requirements", a.requirements), ("rewards", a.rewards)]

/-- `LootTable` fields in declaration order. -/
def LootTable.fieldList (l : LootTable) : List (String × Json) :=
  [("pools", l.pools), ("type", l.type), ("functions", l.functions)]

/-- `Recipe` fields in declaration order. -/
def Recipe.fieldList (r : Recipe) : List (String × Json) :=
  [("type", r.type), ("group", r.group), ("pattern", r.pattern),
   ("key", r.key), ("ingredient", r.ingredient),
   ("ingredients", r.ingredients), ("result", r.result),
   ("experience", r.experience), ("cookingtime", r.cookingtime),
   ("count", r.count)]

/-- `TagItem` fields in declaration order. -/
def TagItem.fieldList (t : TagItem) : List (String × Json) :=
  [("values", t.values), ("replace", t.replace)]

/-- `JsonItem.dump` (lines 78-80): write the fields whose value is not
`None`, in declaration order, as a JSON object. -/
def jsonItemDump (fields : List (String × Json)) : FileData :=
  .json (objOfFields (fields.filter (fun kv => !kv.2.isNull)))

/-- `cls(**json.loads(...))` key check: constructing with an unknown keyword
raises `TypeError`, so decoding requires every present key to be declared. -/
def jsonItemFields (declared : List String) : FileData → Option (List (String × Json))
  | .json j =>
    match jFields j with
    | some kvs => if (kvs.map Prod.fst).all (fun k => declared.contains k) then some kvs else none
    | none => none
  | _ => none

def Advancement.encode (a : Advancement) : FileData := jsonItemDump a.fieldList

def Advancement.decode (fd : FileData) : Option Advancement :=
  (jsonItemFields ["display", "parent", "criteria", "requirements", "rewards"] fd).map
    fun kvs =>
      { display := (jLookup kvs "display").getD .null,
        parent := (jLookup kvs "parent").getD .null,
        criteria := (jLookup kvs "criteria").getD .objNil,
        requirements := (jLookup kvs "requirements").getD .null,
        rewards := (jLookup kvs "rewards").getD .null }

/-- `Function.dump` (lines 114-115): the literal body text. -/
def Function.encode (f : Function) : FileData := .text f.body

/-- `Function.load` (lines 117-119). -/
def Function.decode : FileData → Option Function
  | .text s => some ⟨s⟩
  | _ => none

def LootTable.encode (l : LootTable) : FileData := jsonItemDump l.fieldList

def LootTable.decode (fd : FileData) : Option LootTable :=
  (jsonItemFields ["pools", "type", "functions"] fd).map
    fun kvs =>
      { pools := (jLookup kvs "pools").getD .arrNil,
        type := (jLookup kvs "type").getD (.str "generic"),
        functions := (jLookup kvs "functions").getD .null }

def Recipe.encode (r : Recipe) : FileData := jsonItemDump r.fieldList

def Recipe.decode (fd : FileData) : Option Recipe :=
  (jsonItemFields ["type", "group", "pattern", "key", "ingredient",
                   "ingredients", "result", "experience", "cookingtime",
                   "count"] fd).map
    fun kvs =>
      { type := (jLookup kvs "type").getD (.str "crafting_shaped"),
        group := (jLookup kvs "group").getD .null,
        pattern := (jLookup kvs "pattern").getD .arrNil,
        key := (jLookup kvs "key").getD .objNil,
        ingredient := (jLookup kvs "ingredient").getD .null,
        ingredients := (jLookup kvs "ingredients").getD .null,
        result := (jLookup kvs "result").getD .objNil,
        experience := (jLookup kvs "experience").getD .null,
        cookingtime := (jLookup kvs "cookingtime").getD .null,
        count := (jLookup kvs "count").getD .null }

def TagItem.encode (t : TagItem) : FileData := jsonItemDump t.fieldList

def TagItem.decode (fd : FileData) : Option TagItem :=
  (jsonItemFields ["values", "replace"] fd).map
    fun kvs =>
      { values := (jLookup kvs "values").getD .arrNil,
        replace := (jLookup kvs "replace").getD (.bool false) }

/-- `Structure.dump` (lines 206-207): save the structure's own compound,
gzipped, rooted at an empty-named entry. -/
def Structure.encode (s : Structure) : FileData := .nbt s

/-- `Structure.load` (lines 209-211) together with `Structure.__init__`
(lines 195-204): `cls(nbt.load(path).root)` populates every field from the
file's root compound, after which `self.data_version = data_version`
overwrites `DataVersion` with the **default** `DATA_VERSION`, since `load`
passes no `data_version` keyword. -/
def Structure.decode : FileData → Option Structure
  | .nbt s => some { s with dataVersion := DATA_VERSION }
  | _ => none

/-! ## Python dictionaries -/

/-- Python dict lookup (`d.get(k)`): keys built by `pyInsert` are unique, so
the first match is the binding. -/
def alookup {κ α : Type _} [DecidableEq κ] (d : List (κ × α)) (k : κ) : Option α :=
  (d.find? (fun kv => kv.1 = k)).map (·.2)

/-- Python dict assignment `d[k] = v`: replace in place when the key exists,
otherwise append (insertion order). -/
def pyInsert {κ α : Type _} [DecidableEq κ] (d : List (κ × α)) (k : κ) (v : α) : List (κ × α) :=
  if d.any (fun kv => kv.1 = k) then
    d.map (fun kv => if kv.1 = k then (k, v) else kv)
  else
    d ++ [(k, v)]

/-! ## Strings as paths: `str.partition(':')`, `'/'`-splitting, and
`pathlib` name handling (`suffix`/`stem` split on the last dot). -/

/-- `key.partition(':')` restricted to what `DataPack.__setitem__` consumes:
the text before the first colon and the (possibly empty) text after it.  A
key with no colon yields an empty remainder, just as Python's
`('key', '', '')` does, and the code treats the two cases identically via
`if item_path:`. -/
def partitionColon : List Char → List Char × List Char
  | [] => ([], [])
  | c :: rest =>
    if c = ':' then ([], rest)
    else
      let p := partitionColon rest
      (c :: p.1, p.2)

/-- Split a character list on `'/'` (Python `str.split('/')` semantics:
always at least one piece, empty pieces preserved). -/
def splitSlashChars : List Char → List (List Char)
  | [] => [[]]
  | c :: rest =>
    if c = '/' then [] :: splitSlashChars rest
    else
      match splitSlashChars rest with
      | [] => [[c]]
      | s :: r => (c :: s) :: r

/-- An item path string, pre-split into its `'/'`-separated segments. -/
def splitSlash (s : String) : List String :=
  (splitSlashChars s.data).map (fun cs => ⟨cs⟩)

/-- `ext.isSuffixOf s`: does filename `s` match the glob `'*' + ext`? -/
def strEndsWith (s ext : String) : Bool := ext.data.isSuffixOf s.data

/-- `pathlib.PurePath.stem` on one filename: drop the part from the last
dot on, unless the last dot is the first character or there is no character
after it (CPython's `0 < i < len(name) - 1` guard). -/
def pyStemChars (s : List Char) : List Char :=
  let r := s.reverse
  let suf := r.takeWhile (fun c => c ≠ '.')
  if suf.length = r.length then s
  else if suf.length = 0 then s
  else if suf.length = r.length - 1 then s
  else (r.drop (suf.length + 1)).reverse

def pyStem (s : String) : String := ⟨pyStemChars s.data⟩

/-! ## The filesystem -/

/-- A path: the list of segments below the working root. -/
abbrev FilePath' := List String

/-- A filesystem: the association list of its files.  Directories are
implicit: a directory exists exactly when an entry lies strictly below it. -/
abbrev FS := List (FilePath' × FileData)

/-- `p.is_dir()`: some entry lies strictly below `p`. -/
def FS.isDir (fs : FS) (p : FilePath') : Bool :=
  fs.any (fun e => p.isPrefixOf e.1 && decide (p.length < e.1.length))

/-- `p.is_file()`-style check used to model `mkdir` failing on an existing
non-directory entry. -/
def FS.isFile (fs : FS) (p : FilePath') : Bool :=
  fs.any (fun e => e.1 = p)

/-- `path.write_text` / `write_json` / `nbt.File.save`: create or overwrite
the file at `p` (parent directories, created with `mkdir(parents=True,
exist_ok=True)`, are implicit). -/
def FS.writeF (fs : FS) (p : FilePath') (d : FileData) : FS :=
  if fs.any (fun e => e.1 = p) then
    fs.map (fun e => if e.1 = p then (p, d) else e)
  else
    fs ++ [(p, d)]

/-- `path.read_*`: the file stored at exactly `p`. -/
def FS.lookup (fs : FS) (p : FilePath') : Option FileData :=
  (fs.find? (fun e => e.1 = p)).map (·.2)

/-- `shutil.rmtree(p)`: remove every entry at or strictly below `p`. -/
def FS.rmtree (fs : FS) (p : FilePath') : FS :=
  fs.filter (fun e => !p.isPrefixOf e.1)

/-! ## Namespaces -/

/-- One namespace item, tagged by kind (Python routes on `type(value)`;
the five tag classes are distinct types sharing the `TagItem` shape). -/
inductive Item where
  | advancement (a : Advancement)
  | function (f : Function)
  | lootTable (l : LootTable)
  | recipe (r : Recipe)
  | structureItem (s : Structure)
  | blockTag (t : TagItem)
  | itemTag (t : TagItem)
  | fluidTag (t : TagItem)
  | functionTag (t : TagItem)
  | entityTypeTag (t : TagItem)
deriving DecidableEq, Repr

/-- `Namespace` (lines 252-265): for every registered kind, a dict from
relative item path (pre-split segments) to item. -/
structure Namespace where
  advancements : List (List String × Advancement) := []
  functions : List (List String × Function) := []
  loot_tables : List (List String × LootTable) := []
  recipes : List (List String × Recipe) := []
  structures : List (List String × Structure) := []
  block_tags : List (List String × TagItem) := []
  item_tags : List (List String × TagItem) := []
  fluid_tags : List (List String × TagItem) := []
  function_tags : List (List String × TagItem) := []
  entity_type_tags : List (List String × TagItem) := []
deriving DecidableEq, Repr

/-- `Namespace.__setitem__` (lines 271-272): route the value into the dict
for its exact type, keyed by the path. -/
def Namespace.setItem (ns : Namespace) (path : List String) : Item → Namespace
  | .advancement a => { ns with advancements := pyInsert ns.advancements path a }
  | .function f => { ns with functions := pyInsert ns.functions path f }
  | .lootTable l => { ns with loot_tables := pyInsert ns.loot_tables path l }
  | .recipe r => { ns with recipes := pyInsert ns.recipes path r }
  | .structureItem s => { ns with structures := pyInsert ns.structures path s }
  | .blockTag t => { ns with block_tags := pyInsert ns.block_tags path t }
  | .itemTag t => { ns with item_tags := pyInsert ns.item_tags path t }
  | .fluidTag t => { ns with fluid_tags := pyInsert ns.fluid_tags path t }
  | .functionTag t => { ns with function_tags := pyInsert ns.function_tags path t }
  | .entityTypeTag t => { ns with entity_type_tags := pyInsert ns.entity_type_tags path t }

/-- A namespace with no items in any kind's dict. -/
def Namespace.isEmptyNS (ns : Namespace) : Bool :=
  ns.advancements.isEmpty && ns.functions.isEmpty && ns.loot_tables.isEmpty &&
  ns.recipes.isEmpty && ns.structures.isEmpty && ns.block_tags.isEmpty &&
  ns.item_tags.isEmpty && ns.fluid_tags.isEmpty && ns.function_tags.isEmpty &&
  ns.entity_type_tags.isEmpty

/-- `base_path / (name + extension)` with `pathlib` semantics: the key is
split on `'/'` (already done in the model), empty intermediate segments
collapse, and the extension is appended to the last segment. -/
def itemFileSegs (nm : List String) (ext : String) : FilePath' :=
  match nm with
  | [] => [ext]
  | a :: tl => ((a :: tl).dropLast.filter (fun s => s ≠ "")) ++
      [(a :: tl).getLastD "" ++ ext]

/-- The inner loop of `Namespace.dump` (lines 274-281) for one kind: write
every item of the dict below `base ++ folder`. -/
def dumpKind {α : Type _} (fs : FS) (base folder : FilePath') (ext : String)
    (enc : α → FileData) (items : List (List String × α)) : FS :=
  items.foldl
    (fun acc kv => acc.writeF ((base ++ folder) ++ itemFileSegs kv.1 ext) (enc kv.2)) fs

/-- `Namespace.dump` (lines 274-281): kinds in `_type_items` (= field
declaration) order, each into its registered folder with its extension. -/
def Namespace.dump (ns : Namespace) (base : FilePath') (fs : FS) : FS :=
  let fs := dumpKind fs base ["advancements"] ".json" Advancement.encode ns.advancements
  let fs := dumpKind fs base ["functions"] ".mcfunction" Function.encode ns.functions
  let fs := dumpKind fs base ["loot_tables"] ".json" LootTable.encode ns.loot_tables
  let fs := dumpKind fs base ["recipes"] ".json" Recipe.encode ns.recipes
  let fs := dumpKind fs base ["structures"] ".nbt" Structure.encode ns.structures
  let fs := dumpKind fs base ["tags", "blocks"] ".json" TagItem.encode ns.block_tags
  let fs := dumpKind fs base ["tags", "items"] ".json" TagItem.encode ns.item_tags
  let fs := dumpKind fs base ["tags", "fluids"] ".json" TagItem.encode ns.fluid_tags
  let fs := dumpKind fs base ["tags", "functions"] ".json" TagItem.encode ns.function_tags
  let fs := dumpKind fs base ["tags", "entity_types"] ".json" TagItem.encode ns.entity_type_tags
  fs

/-- `base_path.rglob('*' + extension)`: the files strictly below `dir`
whose final segment ends with `ext`, in filesystem order. -/
def matchedFiles (fs : FS) (dir : FilePath') (ext : String) : FS :=
  fs.filter (fun e =>
    dir.isPrefixOf e.1 && decide (dir.length < e.1.length) &&
    strEndsWith (e.1.getLastD "") ext)

/-- `'/'.join(item_path.parts[depth:-1] + (item_path.stem,))`
(line 294): the intermediate directory segments plus the stem. -/
def reconstructName (dir p : FilePath') : List String :=
  (p.drop dir.length).dropLast ++ [pyStem (p.getLastD "")]

/-- The inner loop of `Namespace.load` (lines 287-295) for one kind:
decode every matching file into a dict keyed by reconstructed name
(`none` models a decoding call raising).  When the kind's folder does not
exist (`is_dir()` false) there are no matching files and the result is the
empty dict. -/
def loadKind {α : Type _} (fs : FS) (dir : FilePath') (ext : String)
    (dec : FileData → Option α) : Option (List (List String × α)) :=
  (matchedFiles fs dir ext).foldlM
    (fun acc e => (dec e.2).map (fun it => pyInsert acc (reconstructName dir e.1) it)) []

/-- `Namespace.load` (lines 283-297). -/
def Namespace.load (fs : FS) (base : FilePath') : Option Namespace := do
  let advancements ← loadKind fs (base ++ ["advancements"]) ".json" Advancement.decode
  let functions ← loadKind fs (base ++ ["functions"]) ".mcfunction" Function.decode
  let loot_tables ← loadKind fs (base ++ ["loot_tables"]) ".json" LootTable.decode
  let recipes ← loadKind fs (base ++ ["recipes"]) ".json" Recipe.decode
  let structures ← loadKind fs (base ++ ["structures"]) ".nbt" Structure.decode
  let block_tags ← loadKind fs (base ++ ["tags", "blocks"]) ".json" TagItem.decode
  let item_tags ← loadKind fs (base ++ ["tags", "items"]) ".json" TagItem.decode
  let fluid_tags ← loadKind fs (base ++ ["tags", "fluids"]) ".json" TagItem.decode
  let function_tags ← loadKind fs (base ++ ["tags", "functions"]) ".json" TagItem.decode
  let entity_type_tags ← loadKind fs (base ++ ["tags", "entity_types"]) ".json" TagItem.decode
  return { advancements, functions, loot_tables, recipes, structures,
           block_tags, item_tags, fluid_tags, function_tags, entity_type_tags }

/-! ## Data packs -/

/-- `DataPack` (lines 300-310): metadata plus the namespace dict. -/
structure DataPack where
  name : String
  description : String
  namespaces : List (String × Namespace) := []
  pack_format : Int := 1
deriving DecidableEq, Repr

/-- `DataPack.mcmeta` (lines 312-319). -/
def DataPack.mcmeta (p : DataPack) : Json :=
  .objCons "pack"
    (.objCons "pack_format" (.num p.pack_format)
      (.objCons "description" (.str p.description) .objNil))
    .objNil

/-- A value assigned into a pack: a namespace item or a whole namespace. -/
inductive PackValue where
  | item (v : Item)
  | ns (n : Namespace)

/-- `DataPack.__setitem__` (lines 324-329): split the key on the first
colon.  With a nonempty remainder, route into the (auto-created) namespace's
own `__setitem__`; otherwise the whole value replaces `namespaces[namespace]`
— the text *before* the first colon (`key.partition(':')` discards the colon
itself, so a key such as `"foo:"` stores under `"foo"`, not under the full
key).  `none` models the `KeyError` from routing a non-item value through
`Namespace.__setitem__` (its `_type_items` has no entry for `Namespace`);
an item stored in the no-colon branch is outside the typed model. -/
def DataPack.setItem (p : DataPack) (key : String) : PackValue → Option DataPack
  | .item v =>
    let q := partitionColon key.data
    if q.2.isEmpty then none
    else
      let nsName : String := ⟨q.1⟩
      let cur := (alookup p.namespaces nsName).getD {}
      some { p with namespaces :=
               pyInsert p.namespaces nsName (cur.setItem (splitSlash ⟨q.2⟩) v) }
  | .ns n =>
    let q := partitionColon key.data
    if q.2.isEmpty then
      some { p with namespaces := pyInsert p.namespaces (⟨q.1⟩ : String) n }
    else none

/-- The write phase of `DataPack.dump` (lines 341-346) once the output root
is known not to exist: write `pack.mcmeta`, then dump every namespace under
`data/<name>` in dict order. -/
def dumpFresh (p : DataPack) (out : FilePath') (fs : FS) : FS :=
  p.namespaces.foldl (fun acc kv => Namespace.dump kv.2 (out ++ ["data", kv.1]) acc)
    (FS.writeF fs (out ++ ["pack.mcmeta"]) (.json p.mcmeta))

/-- `DataPack.dump` (lines 331-346).  `.error` models `ValueError` for an
existing directory without `overwrite`, and `FileExistsError` from
`mkdir` when a plain file occupies the output root. -/
def DataPack.dump (p : DataPack) (dir : FilePath') (overwrite : Bool) (fs : FS) :
    Except String FS :=
  let out := dir ++ [p.name]
  if fs.isDir out then
    if overwrite then .ok (dumpFresh p out (fs.rmtree out))
    else .error "already exists"
  else if fs.isFile out then .error "file exists"
  else .ok (dumpFresh p out fs)

/-- Keep the first occurrence of each name (`iterdir` yields every directory
entry once; in the model several files can share a first segment). -/
def dedupF (l : List String) : List String :=
  l.foldl (fun acc x => if x ∈ acc then acc else acc ++ [x]) []

/-- The names of the immediate children of `dataDir` that exist in the
tree, in first-appearance order (`data_path.iterdir()`). -/
def nsNamesUnder (fs : FS) (dataDir : FilePath') : List String :=
  dedupF (fs.filterMap (fun e =>
    if dataDir.isPrefixOf e.1 then e.1[dataDir.length]? else none))

/-- `DataPack.load` (lines 348-360): parse `pack.mcmeta` (any failure to
read it, parse it, or find the required keys raises, yielding `none`), take
the pack name from the source directory's own name, then load one namespace
per child of `data/` through `DataPack.__setitem__`. -/
def DataPack.load (fs : FS) (src : FilePath') : Option DataPack :=
  match FS.lookup fs (src ++ ["pack.mcmeta"]) with
  | some (.json j) =>
    match jFields j with
    | some kvs =>
      match jLookup kvs "pack" with
      | some packVal =>
        match jFields packVal with
        | some pkvs =>
          match jLookup pkvs "description", jLookup pkvs "pack_format" with
          | some (.str desc), some (.num fmt) =>
            let base : DataPack :=
              { name := src.getLastD "", description := desc, pack_format := fmt }
            (nsNamesUnder fs (src ++ ["data"])).foldlM
              (fun acc n =>
                (Namespace.load fs (src ++ ["data", n])).bind
                  (fun ns => acc.setItem n (.ns ns)))
              base
          | _, _ => none
        | _ => none
      | none => none
    | none => none
  | _ => none

/-! ## Basic lemmas about the JSON object model -/

theorem jFields_objOfFields (L : List (String × Json)) :
    jFields (objOfFields L) = some L := by
  induction L with
  | nil => rfl
  | cons hd tl ih => cases hd; simp [objOfFields, jFields, ih]

/-- If every binding of `k` in `M` is null, `k` vanishes from the
null-filtered list. -/
theorem jLookup_filterNull_none (M : List (String × Json)) (k : String)
    (h : ∀ kv ∈ M, kv.1 = k → kv.2.isNull = true) :
    jLookup (M.filter (fun kv => !kv.2.isNull)) k = none := by
  induction M with
  | nil => rfl
  | cons hd tl ih =>
    have ih' := ih (fun kv hkv => h kv (List.mem_cons_of_mem _ hkv))
    by_cases hn : hd.2.isNull = true
    · simpa [List.filter_cons, hn] using ih'
    · have hk : ¬ hd.1 = k := fun hf => hn (h hd (List.mem_cons_self _ _) hf)
      simp only [List.filter_cons, hn]
      simp only [Bool.not_false, if_pos trivial] at *
      simp only [jLookup] at ih' ⊢
      rw [List.find?_cons_of_neg _ (by simpa using hk)]
      exact ih'

/-- Looking a field up in the null-filtered field list and defaulting
recovers the original value, provided the default agrees when the value is
null (optional fields default to null, and required fields are non-null in
valid items). -/
theorem jLookup_filterNull (L : List (String × Json)) (k : String) (v d : Json)
    (hall : ∀ kv ∈ L, kv.1 = k → kv.2 = v)
    (hmem : (k, v) ∈ L)
    (hnull : v.isNull = true → d = v) :
    (jLookup (L.filter (fun kv => !kv.2.isNull)) k).getD d = v := by
  induction L with
  | nil => simp at hmem
  | cons hd tl ih =>
    by_cases hk : hd.1 = k
    · have hv : hd.2 = v := hall hd (List.mem_cons_self _ _) hk
      by_cases hn : hd.2.isNull = true
      · simp only [List.filter_cons, hn]
        rw [if_neg (by simp)]
        rw [jLookup_filterNull_none tl k
          (fun kv hkv hkk => by rw [hall kv (List.mem_cons_of_mem _ hkv) hkk, ← hv]; exact hn)]
        simp [hnull (hv ▸ hn), hv]
      · simp only [List.filter_cons]
        rw [if_pos (by simp [hn])]
        simp only [jLookup]
        rw [List.find?_cons_of_pos _ (by simpa using hk)]
        simp [hv]
    · have hmem' : (k, v) ∈ tl := by
        rcases List.mem_cons.mp hmem with h | h
        · exact absurd (congrArg Prod.fst h).symm hk
        · exact h
      have ih' := ih (fun kv hkv => hall kv (List.mem_cons_of_mem _ hkv)) hmem'
      by_cases hn : hd.2.isNull = true
      · simpa [List.filter_cons, hn] using ih'
      · simp only [List.filter_cons]
        rw [if_pos (by simp [hn])]
        simp only [jLookup] at ih' ⊢
        rw [List.find?_cons_of_neg _ (by simpa using hk)]
        exact ih'

/-- Null-filtering leaves only declared keys in place. -/
theorem jsonItemFields_dump (decl : List String) (L : List (String × Json))
    (h : ∀ kv ∈ L, decl.contains kv.1 = true) :
    jsonItemFields decl (jsonItemDump L) = some (L.filter (fun kv => !kv.2.isNull)) := by
  simp only [jsonItemDump, jsonItemFields, jFields_objOfFields]
  rw [if_pos]
  simp only [List.all_eq_true, List.mem_map]
  rintro k ⟨kv, hkv, rfl⟩
  exact h kv (List.mem_of_mem_filter hkv)

theorem Json.eq_null_of_isNull {j : Json} (h : j.isNull = true) : j = .null := by
  cases j <;> simp [Json.isNull] at h ⊢

/-- An `Advancement` whose required `criteria` field is set (not `None`)
survives encode → decode unchanged. -/
theorem Advancement.decode_encode_adv (a : Advancement) (h : a.criteria.isNull = false) :
    Advancement.decode (Advancement.encode a) = some a := by
  cases a with
  | mk f1 f2 f3 f4 f5 =>
    simp only [Advancement.criteria] at h
    rw [Advancement.encode, Advancement.decode,
        jsonItemFields_dump _ _ (by
          intro kv hkv
          simp only [Advancement.fieldList, List.mem_cons, List.not_mem_nil,
            or_false] at hkv
          rcases hkv with rfl | rfl | rfl | rfl | rfl <;> rfl)]
    simp only [Option.map_some']
    refine congrArg some ?_
    simp only [Advancement.mk.injEq]
    refine ⟨?_, ?_, ?_, ?_, ?_⟩ <;>
      refine jLookup_filterNull _ _ _ _ ?_ ?_ ?_
    · intro kv hkv hk
      simp only [Advancement.fieldList, List.mem_cons, List.not_mem_nil,
        or_false] at hkv
      rcases hkv with rfl | rfl | rfl | rfl | rfl <;> simp_all
    · simp [Advancement.fieldList]
    · exact fun hn => (Json.eq_null_of_isNull hn).symm
    · intro kv hkv hk
      simp only [Advancement.fieldList, List.mem_cons, List.not_mem_nil,
        or_false] at hkv
      rcases hkv with rfl | rfl | rfl | rfl | rfl <;> simp_all
    · simp [Advancement.fieldList]
    · exact fun hn => (Json.eq_null_of_isNull hn).symm
    · intro kv hkv hk
      simp only [Advancement.fieldList, List.mem_cons, List.not_mem_nil,
        or_false] at hkv
      rcases hkv with rfl | rfl | rfl | rfl | rfl <;> simp_all
    · simp [Advancement.fieldList]
    · exact fun hn => absurd hn (by simp [h])
    · intro kv hkv hk
      simp only [Advancement.fieldList, List.mem_cons, List.not_mem_nil,
        or_false] at hkv
      rcases hkv with rfl | rfl | rfl | rfl | rfl <;> simp_all
    · simp [Advancement.fieldList]
    · exact fun hn => (Json.eq_null_of_isNull hn).symm
    · intro kv hkv hk
      simp only [Advancement.fieldList, List.mem_cons, List.not_mem_nil,
        or_false] at hkv
      rcases hkv with rfl | rfl | rfl | rfl | rfl <;> simp_all
    · simp [Advancement.fieldList]
    · exact fun hn => (Json.eq_null_of_isNull hn).symm

/-- A `LootTable` whose required fields are set survives encode → decode. -/
theorem LootTable.decode_encode_loot (l : LootTable) (hpools : l.pools.isNull = false) (htype : l.type.isNull = false) :
    LootTable.decode (LootTable.encode l) = some l := by
  cases l with
  | mk f1 f2 f3 =>
    simp only [LootTable.pools] at hpools
    simp only [LootTable.type] at htype
    rw [LootTable.encode, LootTable.decode,
        jsonItemFields_dump _ _ (by
          intro kv hkv
          simp only [LootTable.fieldList, List.mem_cons, List.not_mem_nil,
            or_false] at hkv
          rcases hkv with rfl | rfl | rfl <;> rfl)]
    simp only [Option.map_some']
    refine congrArg some ?_
    simp only [LootTable.mk.injEq]
    refine ⟨?_, ?_, ?_⟩ <;>
      refine jLookup_filterNull _ _ _ _ ?_ ?_ ?_
    · intro kv hkv hk
      simp only [LootTable.fieldList, List.mem_cons, List.not_mem_nil,
        or_false] at hkv
      rcases hkv with rfl | rfl | rfl <;> simp_all
    · simp [LootTable.fieldList]
    · exact fun hn => absurd hn (by simp [hpools])
    · intro kv hkv hk
      simp only [LootTable.fieldList, List.mem_cons, List.not_mem_nil,
        or_false] at hkv
      rcases hkv with rfl | rfl | rfl <;> simp_all
    · simp [LootTable.fieldList]
    · exact fun hn => absurd hn (by simp [htype])
    · intro kv hkv hk
      simp only [LootTable.fieldList, List.mem_cons, List.not_mem_nil,
        or_false] at hkv
      rcases hkv with rfl | rfl | rfl <;> simp_all
    · simp [LootTable.fieldList]
    · exact fun hn => (Json.eq_null_of_isNull hn).symm

/-- A `Recipe` whose required fields are set survives encode → decode. -/
theorem Recipe.decode_encode_recipe (r : Recipe) (htype : r.type.isNull = false) (hpattern : r.pattern.isNull = false) (hkey : r.key.isNull = false) (hresult : r.result.isNull = false) :
    Recipe.decode (Recipe.encode r) = some r := by
  cases r with
  | mk f1 f2 f3 f4 f5 f6 f7 f8 f9 f10 =>
    simp only [Recipe.type] at htype
    simp only [Recipe.pattern] at hpattern
    simp only [Recipe.key] at hkey
    simp only [Recipe.result] at hresult
    rw [Recipe.encode, Recipe.decode,
        jsonItemFields_dump _ _ (by
          intro kv hkv
          simp only [Recipe.fieldList, List.mem_cons, List.not_mem_nil,
            or_false] at hkv
          rcases hkv with rfl | rfl | rfl | rfl | rfl | rfl | rfl | rfl | rfl | rfl <;> rfl)]
    simp only [Option.map_some']
    refine congrArg some ?_
    simp only [Recipe.mk.injEq]
    refine ⟨?_, ?_, ?_, ?_, ?_, ?_, ?_, ?_, ?_, ?_⟩ <;>
      refine jLookup_filterNull _ _ _ _ ?_ ?_ ?_
    · intro kv hkv hk
      simp only [Recipe.fieldList, List.mem_cons, List.not_mem_nil,
        or_false] at hkv
      rcases hkv with rfl | rfl | rfl | rfl | rfl | rfl | rfl | rfl | rfl | rfl <;> simp_all
    · simp [Recipe.fieldList]
    · exact fun hn => absurd hn (by simp [htype])
    · intro kv hkv hk
      simp only [Recipe.fieldList, List.mem_cons, List.not_mem_nil,
        or_false] at hkv
      rcases hkv with rfl | rfl | rfl | rfl | rfl | rfl | rfl | rfl | rfl | rfl <;> simp_all
    · simp [Recipe.fieldList]
    · exact fun hn => (Json.eq_null_of_isNull hn).symm
    · intro kv hkv hk
      simp only [Recipe.fieldList, List.mem_cons, List.not_mem_nil,
        or_false] at hkv
      rcases hkv with rfl | rfl | rfl | rfl | rfl | rfl | rfl | rfl | rfl | rfl <;> simp_all
    · simp [Recipe.fieldList]
    · exact fun hn => absurd hn (by simp [hpattern])
    · intro kv hkv hk
      simp only [Recipe.fieldList, List.mem_cons, List.not_mem_nil,
        or_false] at hkv
      rcases hkv with rfl | rfl | rfl | rfl | rfl | rfl | rfl | rfl | rfl | rfl <;> simp_all
    · simp [Recipe.fieldList]
    · exact fun hn => absurd hn (by simp [hkey])
    · intro kv hkv hk
      simp only [Recipe.fieldList, List.mem_cons, List.not_mem_nil,
        or_false] at hkv
      rcases hkv with rfl | rfl | rfl | rfl | rfl | rfl | rfl | rfl | rfl | rfl <;> simp_all
    · simp [Recipe.fieldList]
    · exact fun hn => (Json.eq_null_of_isNull hn).symm
    · intro kv hkv hk
      simp only [Recipe.fieldList, List.mem_cons, List.not_mem_nil,
        or_false] at hkv
      rcases hkv with rfl | rfl | rfl | rfl | rfl | rfl | rfl | rfl | rfl | rfl <;> simp_all
    · simp [Recipe.fieldList]
    · exact fun hn => (Json.eq_null_of_isNull hn).symm
    · intro kv hkv hk
      simp only [Recipe.fieldList, List.mem_cons, List.not_mem_nil,
        or_false] at hkv
      rcases hkv with rfl | rfl | rfl | rfl | rfl | rfl | rfl | rfl | rfl | rfl <;> simp_all
    · simp [Recipe.fieldList]
    · exact fun hn => absurd hn (by simp [hresult])
    · intro kv hkv hk
      simp only [Recipe.fieldList, List.mem_cons, List.not_mem_nil,
        or_false] at hkv
      rcases hkv with rfl | rfl | rfl | rfl | rfl | rfl | rfl | rfl | rfl | rfl <;> simp_all
    · simp [Recipe.fieldList]
    · exact fun hn => (Json.eq_null_of_isNull hn).symm
    · intro kv hkv hk
      simp only [Recipe.fieldList, List.mem_cons, List.not_mem_nil,
        or_false] at hkv
      rcases hkv with rfl | rfl | rfl | rfl | rfl | rfl | rfl | rfl | rfl | rfl <;> simp_all
    · simp [Recipe.fieldList]
    · exact fun hn => (Json.eq_null_of_isNull hn).symm
    · intro kv hkv hk
      simp only [Recipe.fieldList, List.mem_cons, List.not_mem_nil,
        or_false] at hkv
      rcases hkv with rfl | rfl | rfl | rfl | rfl | rfl | rfl | rfl | rfl | rfl <;> simp_all
    · simp [Recipe.fieldList]
    · exact fun hn => (Json.eq_null_of_isNull hn).symm

/-- A `TagItem` whose required fields are set survives encode → decode. -/
theorem TagItem.decode_encode_tag (t : TagItem) (hvalues : t.values.isNull = false) (hreplace : t.replace.isNull = false) :
    TagItem.decode (TagItem.encode t) = some t := by
  cases t with
  | mk f1 f2 =>
    simp only [TagItem.values] at hvalues
    simp only [TagItem.replace] at hreplace
    rw [TagItem.encode, TagItem.decode,
        jsonItemFields_dump _ _ (by
          intro kv hkv
          simp only [TagItem.fieldList, List.mem_cons, List.not_mem_nil,
            or_false] at hkv
          rcases hkv with rfl | rfl <;> rfl)]
    simp only [Option.map_some']
    refine congrArg some ?_
    simp only [TagItem.mk.injEq]
    refine ⟨?_, ?_⟩ <;>
      refine jLookup_filterNull _ _ _ _ ?_ ?_ ?_
    · intro kv hkv hk
      simp only [TagItem.fieldList, List.mem_cons, List.not_mem_nil,
        or_false] at hkv
      rcases hkv with rfl | rfl <;> simp_all
    · simp [TagItem.fieldList]
    · exact fun hn => absurd hn (by simp [hvalues])
    · intro kv hkv hk
      simp only [TagItem.fieldList, List.mem_cons, List.not_mem_nil,
        or_false] at hkv
      rcases hkv with rfl | rfl <;> simp_all
    · simp [TagItem.fieldList]
    · exact fun hn => absurd hn (by simp [hreplace])

/-- A `Function` always survives encode → decode: the body text is written
and read back verbatim. -/
theorem Function.decode_encode_fn (f : Function) :
    Function.decode (Function.encode f) = some f := rfl

/-- Decoding an encoded `Structure` restores every field except
`DataVersion`, which `Structure.load` resets to the default. -/
theorem Structure.decode_encode_struct (s : Structure) :
    Structure.decode (Structure.encode s) = some { s with dataVersion := DATA_VERSION } := rfl

/-- For structures carrying the default `DataVersion` the round trip is the
identity. -/
theorem Structure.decode_encode_default (s : Structure) (h : s.dataVersion = DATA_VERSION) :
    Structure.decode (Structure.encode s) = some s := by
  rw [Structure.decode_encode_struct]
  cases s
  simp_all

/-! ## Item validity: the fields the dataclass declares as non-`Optional`
hold an actual value (not Python `None`).  Optional fields are
unconstrained. -/

def Advancement.valid (a : Advancement) : Prop := a.criteria.isNull = false

def LootTable.valid (l : LootTable) : Prop :=
  l.pools.isNull = false ∧ l.type.isNull = false

def Recipe.valid (r : Recipe) : Prop :=
  r.type.isNull = false ∧ r.pattern.isNull = false ∧
  r.key.isNull = false ∧ r.result.isNull = false

def TagItem.valid (t : TagItem) : Prop :=
  t.values.isNull = false ∧ t.replace.isNull = false

instance (a : Advancement) : Decidable a.valid := by unfold Advancement.valid; infer_instance
instance (l : LootTable) : Decidable l.valid := by unfold LootTable.valid; infer_instance
instance (r : Recipe) : Decidable r.valid := by unfold Recipe.valid; infer_instance
instance (t : TagItem) : Decidable t.valid := by unfold TagItem.valid; infer_instance

/-- **C2** (corrected).  For every item kind and every valid item (its
declared non-`Optional` fields hold a value), decoding the encoding gives
the item back — except for the binary `Structure` kind, where
`Structure.load` unconditionally resets `DataVersion` to the default
`DATA_VERSION`; there the round trip restores every other field, and is
the identity exactly on structures whose `DataVersion` is the default,
contrary to the claim's "for every value of its DataVersion field". -/
theorem claim_C2_item_roundtrip :
    (∀ a : Advancement, a.valid → Advancement.decode (Advancement.encode a) = some a) ∧
    (∀ f : Function, Function.decode (Function.encode f) = some f) ∧
    (∀ l : LootTable, l.valid → LootTable.decode (LootTable.encode l) = some l) ∧
    (∀ r : Recipe, r.valid → Recipe.decode (Recipe.encode r) = some r) ∧
    (∀ t : TagItem, t.valid → TagItem.decode (TagItem.encode t) = some t) ∧
    (∀ s : Structure,
      Structure.decode (Structure.encode s) = some { s with dataVersion := DATA_VERSION } ∧
      (Structure.decode (Structure.encode s) = some s ↔ s.dataVersion = DATA_VERSION)) := by
  refine ⟨fun a ha => Advancement.decode_encode_adv a ha,
          Function.decode_encode_fn,
          fun l hl => LootTable.decode_encode_loot l hl.1 hl.2,
          fun r hr => Recipe.decode_encode_recipe r hr.1 hr.2.1 hr.2.2.1 hr.2.2.2,
          fun t ht => TagItem.decode_encode_tag t ht.1 ht.2,
          fun s => ⟨Structure.decode_encode_struct s, ?_, Structure.decode_encode_default s⟩⟩
  intro h
  rw [Structure.decode_encode_struct] at h
  have := Option.some.inj h
  cases s
  simpa using congrArg Structure.dataVersion this.symm

/-- Witness for C2 at concrete inputs: the default instance of each kind
(whose required fields are set) round trips. -/
theorem claim_C2_item_roundtrip_witness :
    Advancement.decode (Advancement.encode {}) = some {} ∧
    LootTable.decode (LootTable.encode {}) = some {} ∧
    Recipe.decode (Recipe.encode {}) = some {} ∧
    TagItem.decode (TagItem.encode {}) = some {} ∧
    Structure.decode (Structure.encode {}) = some {} :=
  ⟨claim_C2_item_roundtrip.1 {} (by decide),
   claim_C2_item_roundtrip.2.2.1 {} (by decide),
   claim_C2_item_roundtrip.2.2.2.1 {} (by decide),
   claim_C2_item_roundtrip.2.2.2.2.1 {} (by decide),
   (claim_C2_item_roundtrip.2.2.2.2.2 {}).2.mpr (by decide)⟩

/-- **C2 counterexample**: a structure with `DataVersion = 0` does not
survive decode ∘ encode — the decoded structure carries `DataVersion =
1519`. -/
theorem claim_C2_counterexample :
    Structure.decode (Structure.encode { dataVersion := 0 }) ≠
      some { dataVersion := 0 } := by decide

/-! ## Lemmas about Python dict operations -/

theorem find?_eq_none_of_not_any {κ α : Type _} [DecidableEq κ]
    (d : List (κ × α)) (k : κ) (h : d.any (fun kv => kv.1 = k) = false) :
    d.find? (fun kv => decide (kv.1 = k)) = none := by
  rw [List.find?_eq_none]
  intro kv hkv
  simp only [List.any_eq_false] at h
  simpa using h kv hkv

theorem pyInsert_fresh {κ α : Type _} [DecidableEq κ]
    (d : List (κ × α)) (k : κ) (v : α) (h : ∀ kv ∈ d, kv.1 ≠ k) :
    pyInsert d k v = d ++ [(k, v)] := by
  have hany : d.any (fun kv => kv.1 = k) = false := by
    rw [List.any_eq_false]
    intro kv hkv
    simpa using h kv hkv
  simp [pyInsert, hany]

theorem alookup_pyInsert_self {κ α : Type _} [DecidableEq κ]
    (d : List (κ × α)) (k : κ) (v : α) :
    alookup (pyInsert d k v) k = some v := by
  rw [pyInsert]
  by_cases h : d.any (fun kv => kv.1 = k) = true
  · rw [if_pos h]
    induction d with
    | nil => simp at h
    | cons hd tl ih =>
      by_cases hk : hd.1 = k
      · simp [alookup, List.find?_cons_of_pos, hk]
      · simp only [List.any_cons] at h
        have htl : tl.any (fun kv => kv.1 = k) = true := by
          rcases Bool.or_eq_true_iff.mp h with h1 | h1
          · exact absurd (by simpa using h1) hk
          · exact h1
        simp only [List.map_cons, if_neg hk]
        simp only [alookup] at ih ⊢
        rw [List.find?_cons_of_neg _ (by simpa using hk)]
        exact ih htl
  · rw [if_neg h]
    have hnone := find?_eq_none_of_not_any d k (by rwa [Bool.not_eq_true] at h)
    simp only [alookup, List.find?_append, hnone, Option.none_or]
    rw [List.find?_cons_of_pos _ (by simp)]
    rfl

theorem alookup_map_update {κ α : Type _} [DecidableEq κ]
    (d : List (κ × α)) (k m : κ) (v : α) (hm : m ≠ k) :
    alookup (d.map (fun kv => if kv.1 = k then (k, v) else kv)) m = alookup d m := by
  induction d with
  | nil => rfl
  | cons hd tl ih =>
    by_cases hk : hd.1 = k
    · simp only [List.map_cons, if_pos hk]
      simp only [alookup] at ih ⊢
      rw [List.find?_cons_of_neg _ (by
            simp only [decide_eq_true_eq]
            exact fun hf => hm hf.symm),
          List.find?_cons_of_neg _ (by
            simp only [decide_eq_true_eq]
            exact fun hf => hm (hf.symm.trans hk))]
      exact ih
    · simp only [List.map_cons, if_neg hk]
      by_cases hdm : hd.1 = m
      · simp [alookup, List.find?_cons_of_pos, hdm]
      · simp only [alookup] at ih ⊢
        rw [List.find?_cons_of_neg _ (by simpa using hdm),
            List.find?_cons_of_neg _ (by simpa using hdm)]
        exact ih

theorem alookup_pyInsert_other {κ α : Type _} [DecidableEq κ]
    (d : List (κ × α)) (k m : κ) (v : α) (hm : m ≠ k) :
    alookup (pyInsert d k v) m = alookup d m := by
  rw [pyInsert]
  by_cases h : d.any (fun kv => kv.1 = k) = true
  · rw [if_pos h]
    exact alookup_map_update d k m v hm
  · rw [if_neg h]
    simp only [alookup, List.find?_append]
    rw [List.find?_cons_of_neg _ (by
      simp only [decide_eq_true_eq]
      exact fun hf => hm hf.symm)]
    simp

theorem partitionColon_no_colon (l : List Char) (h : ':' ∉ l) :
    partitionColon l = (l, []) := by
  induction l with
  | nil => rfl
  | cons c rest ih =>
    rw [partitionColon, if_neg (by rintro rfl; exact h (List.mem_cons_self _ _))]
    simp [ih (fun hm => h (List.mem_cons_of_mem _ hm))]

/-- Looking up `path` among the items of the same kind as the given item. -/
def Namespace.lookupOfKind (ns : Namespace) (path : List String) : Item → Option Item
  | .advancement _ => (alookup ns.advancements path).map .advancement
  | .function _ => (alookup ns.functions path).map .function
  | .lootTable _ => (alookup ns.loot_tables path).map .lootTable
  | .recipe _ => (alookup ns.recipes path).map .recipe
  | .structureItem _ => (alookup ns.structures path).map .structureItem
  | .blockTag _ => (alookup ns.block_tags path).map .blockTag
  | .itemTag _ => (alookup ns.item_tags path).map .itemTag
  | .fluidTag _ => (alookup ns.fluid_tags path).map .fluidTag
  | .functionTag _ => (alookup ns.function_tags path).map .functionTag
  | .entityTypeTag _ => (alookup ns.entity_type_tags path).map .entityTypeTag

/-- **C7** (confirmed). `DataPack.__setitem__` splits its key on the first
colon: with a nonempty remainder the item is routed into the named
namespace (auto-created via `defaultdict` when absent) at the remainder
path, under which the item is found in its own kind's mapping, while other
namespaces are untouched; with no colon in the key, the assigned value
replaces the whole namespace stored under the key. -/
theorem claim_C7_setitem_split (p : DataPack) (key : String) :
    ((partitionColon key.data).2 ≠ [] →
      ∀ v : Item, ∃ p',
        p.setItem key (.item v) = some p' ∧
        p'.name = p.name ∧ p'.description = p.description ∧
        p'.pack_format = p.pack_format ∧
        alookup p'.namespaces (⟨(partitionColon key.data).1⟩ : String) =
          some (((alookup p.namespaces ⟨(partitionColon key.data).1⟩).getD {}).setItem
                  (splitSlash ⟨(partitionColon key.data).2⟩) v) ∧
        (∀ m, m ≠ (⟨(partitionColon key.data).1⟩ : String) →
          alookup p'.namespaces m = alookup p.namespaces m)) ∧
    (∀ (ns : Namespace) (path : List String) (v : Item),
      (ns.setItem path v).lookupOfKind path v = some v) ∧
    (':' ∉ key.data →
      ∀ n : Namespace, ∃ p',
        p.setItem key (.ns n) = some p' ∧
        p'.name = p.name ∧ p'.description = p.description ∧
        p'.pack_format = p.pack_format ∧
        alookup p'.namespaces key = some n ∧
        (∀ m, m ≠ key → alookup p'.namespaces m = alookup p.namespaces m)) := by
  refine ⟨?_, ?_, ?_⟩
  · intro hrest v
    refine ⟨DataPack.mk p.name p.description
        (pyInsert p.namespaces (⟨(partitionColon key.data).1⟩ : String)
          (((alookup p.namespaces ⟨(partitionColon key.data).1⟩).getD {}).setItem
            (splitSlash ⟨(partitionColon key.data).2⟩) v))
        p.pack_format,
      ?_, rfl, rfl, rfl, ?_, ?_⟩
    · rw [DataPack.setItem]
      rw [if_neg (by simpa [List.isEmpty_iff] using hrest)]
    · exact alookup_pyInsert_self _ _ _
    · intro m hm
      exact alookup_pyInsert_other _ _ _ _ hm
  · intro ns path v
    cases v <;>
      simp [Namespace.setItem, Namespace.lookupOfKind, alookup_pyInsert_self]
  · intro hcolon n
    have hpart := partitionColon_no_colon key.data hcolon
    refine ⟨DataPack.mk p.name p.description (pyInsert p.namespaces key n)
        p.pack_format,
      ?_, rfl, rfl, rfl, ?_, ?_⟩
    · rw [DataPack.setItem, hpart]
      rfl
    · exact alookup_pyInsert_self _ _ _
    · intro m hm
      exact alookup_pyInsert_other _ _ _ _ hm

/-- Witness for C7: routing `demo:hello` and replacing namespace
`minecraft` on a concrete pack. -/
theorem claim_C7_setitem_split_witness :
    (∃ p', DataPack.setItem { name := "Demo", description := "" } "demo:hello"
        (.item (.function ⟨"say Hello, world!"⟩)) = some p' ∧
      p'.name = "Demo" ∧ p'.description = "" ∧ p'.pack_format = 1 ∧
      alookup p'.namespaces
          (⟨(partitionColon "demo:hello".data).1⟩ : String) =
        some (((alookup ({ name := "Demo", description := "" } :
                  DataPack).namespaces ⟨(partitionColon "demo:hello".data).1⟩).getD {}).setItem
                (splitSlash ⟨(partitionColon "demo:hello".data).2⟩)
                (.function ⟨"say Hello, world!"⟩)) ∧
      (∀ m, m ≠ (⟨(partitionColon "demo:hello".data).1⟩ : String) →
        alookup p'.namespaces m =
          alookup ({ name := "Demo", description := "" } : DataPack).namespaces m)) ∧
    (∃ p', DataPack.setItem { name := "Demo", description := "" } "minecraft"
        (.ns {}) = some p' ∧
      p'.name = "Demo" ∧ p'.description = "" ∧ p'.pack_format = 1 ∧
      alookup p'.namespaces "minecraft" = some {} ∧
      (∀ m, m ≠ "minecraft" → alookup p'.namespaces m =
        alookup ({ name := "Demo", description := "" } : DataPack).namespaces m)) := by
  constructor
  · have h := (claim_C7_setitem_split { name := "Demo", description := "" } "demo:hello").1
      (by decide) (.function ⟨"say Hello, world!"⟩)
    exact h
  · have h := (claim_C7_setitem_split { name := "Demo", description := "" } "minecraft").2.2
      (by decide) {}
    exact h

theorem dump_fields_spec (L : List (String × Json)) :
    (L.filter (fun kv => !kv.2.isNull)).Sublist L ∧
    ∀ kv ∈ L, (kv ∈ L.filter (fun kv => !kv.2.isNull) ↔ kv.2.isNull = false) := by
  refine ⟨List.filter_sublist _, fun kv hkv => ?_⟩
  rw [List.mem_filter]
  simp [hkv]

/-- **C8** (confirmed).  Every JSON item kind encodes to a JSON object
holding exactly those of the item's fields whose value is not the `None`
sentinel, with key order a subsequence of the kind's field declaration
order (hence equal to declaration order on the retained fields). -/
theorem claim_C8_json_field_omission :
    (∀ a : Advancement, ∃ kvs, Advancement.encode a = .json (objOfFields kvs) ∧
      kvs.Sublist a.fieldList ∧
      ∀ kv ∈ a.fieldList, (kv ∈ kvs ↔ kv.2.isNull = false)) ∧
    (∀ l : LootTable, ∃ kvs, LootTable.encode l = .json (objOfFields kvs) ∧
      kvs.Sublist l.fieldList ∧
      ∀ kv ∈ l.fieldList, (kv ∈ kvs ↔ kv.2.isNull = false)) ∧
    (∀ r : Recipe, ∃ kvs, Recipe.encode r = .json (objOfFields kvs) ∧
      kvs.Sublist r.fieldList ∧
      ∀ kv ∈ r.fieldList, (kv ∈ kvs ↔ kv.2.isNull = false)) ∧
    (∀ t : TagItem, ∃ kvs, TagItem.encode t = .json (objOfFields kvs) ∧
      kvs.Sublist t.fieldList ∧
      ∀ kv ∈ t.fieldList, (kv ∈ kvs ↔ kv.2.isNull = false)) :=
  ⟨fun a => ⟨_, rfl, (dump_fields_spec a.fieldList).1, (dump_fields_spec a.fieldList).2⟩,
   fun l => ⟨_, rfl, (dump_fields_spec l.fieldList).1, (dump_fields_spec l.fieldList).2⟩,
   fun r => ⟨_, rfl, (dump_fields_spec r.fieldList).1, (dump_fields_spec r.fieldList).2⟩,
   fun t => ⟨_, rfl, (dump_fields_spec t.fieldList).1, (dump_fields_spec t.fieldList).2⟩⟩

/-- Witness for C8 at a concrete item: the default `Advancement` (whose
optional fields are all `None`). -/
theorem claim_C8_json_field_omission_witness :
    ∃ kvs, Advancement.encode {} = .json (objOfFields kvs) ∧
      kvs.Sublist (Advancement.fieldList {}) ∧
      ∀ kv ∈ Advancement.fieldList {}, (kv ∈ kvs ↔ kv.2.isNull = false) :=
  claim_C8_json_field_omission.1 {}

/-! ## Filesystem lemmas -/

theorem writeF_eq_pyInsert (fs : FS) (p : FilePath') (d : FileData) :
    fs.writeF p d = pyInsert fs p d := rfl

theorem lookup_eq_alookup (fs : FS) (p : FilePath') :
    fs.lookup p = alookup fs p := rfl

theorem FS.lookup_writeF_self (fs : FS) (p : FilePath') (d : FileData) :
    (fs.writeF p d).lookup p = some d := by
  rw [writeF_eq_pyInsert, lookup_eq_alookup]
  exact alookup_pyInsert_self fs p d

theorem FS.lookup_writeF_other (fs : FS) (p q : FilePath') (d : FileData)
    (h : q ≠ p) :
    (fs.writeF p d).lookup q = fs.lookup q := by
  rw [writeF_eq_pyInsert, lookup_eq_alookup, lookup_eq_alookup]
  exact alookup_pyInsert_other fs p q d h

/-- `find?` is unaffected by filtering out elements the predicate rejects. -/
theorem find?_filter_of_imp {α : Type _} (l : List α) (p keep : α → Bool)
    (h : ∀ a, p a = true → keep a = true) :
    (l.filter keep).find? p = l.find? p := by
  induction l with
  | nil => rfl
  | cons a tl ih =>
    by_cases hp : p a = true
    · rw [List.filter_cons, if_pos (h a hp), List.find?_cons_of_pos _ hp,
          List.find?_cons_of_pos _ hp]
    · rw [List.find?_cons_of_neg _ hp, List.filter_cons]
      by_cases hk : keep a = true
      · rw [if_pos hk, List.find?_cons_of_neg _ hp]
        exact ih
      · rw [if_neg hk]
        exact ih

theorem filterMap_filter_of_imp {α β : Type _} (l : List α) (keep : α → Bool)
    (f : α → Option β) (h : ∀ a, keep a = false → f a = none) :
    (l.filter keep).filterMap f = l.filterMap f := by
  induction l with
  | nil => rfl
  | cons a tl ih =>
    by_cases hk : keep a = true
    · rw [List.filter_cons, if_pos hk, List.filterMap_cons, List.filterMap_cons]
      cases f a <;> simp [ih]
    · rw [List.filter_cons, if_neg hk, List.filterMap_cons,
          h a (by rwa [Bool.not_eq_true] at hk)]
      exact ih

theorem filter_filter_of_imp {α : Type _} (l : List α) (cond keep : α → Bool)
    (h : ∀ a, cond a = true → keep a = true) :
    (l.filter keep).filter cond = l.filter cond := by
  induction l with
  | nil => rfl
  | cons a tl ih =>
    by_cases hc : cond a = true
    · rw [List.filter_cons, if_pos (h a hc), List.filter_cons, if_pos hc,
          List.filter_cons, if_pos hc, ih]
    · rw [List.filter_cons]
      by_cases hk : keep a = true
      · rw [if_pos hk, List.filter_cons, if_neg hc, List.filter_cons, if_neg hc]
        exact ih
      · rw [if_neg hk, List.filter_cons, if_neg hc]
        exact ih

theorem isPrefixOf_append {α : Type _} [DecidableEq α] (l e : List α) :
    l.isPrefixOf (l ++ e) = true := by
  rw [List.isPrefixOf_iff_prefix]
  exact List.prefix_append l e

theorem not_isPrefixOf_of_trans (out base q : FilePath')
    (hob : out.isPrefixOf base = true) (h : out.isPrefixOf q = false) :
    base.isPrefixOf q = false := by
  rw [Bool.eq_false_iff]
  intro hb
  rw [Bool.eq_false_iff] at h
  exact h (by
    rw [List.isPrefixOf_iff_prefix] at hob hb ⊢
    exact hob.trans hb)

/-- Files outside a `dumpKind` target keep their contents. -/
theorem lookup_dumpKind_outside {α : Type _} (fs : FS) (base folder : FilePath')
    (ext : String) (enc : α → FileData) (items : List (List String × α))
    (q : FilePath') (h : base.isPrefixOf q = false) :
    (dumpKind fs base folder ext enc items).lookup q = fs.lookup q := by
  induction items generalizing fs with
  | nil => rfl
  | cons kv tl ih =>
    rw [dumpKind, List.foldl_cons]
    rw [show List.foldl _ _ tl = dumpKind (fs.writeF
          (base ++ folder ++ itemFileSegs kv.1 ext) (enc kv.2)) base folder ext enc tl
        from rfl]
    rw [ih]
    refine FS.lookup_writeF_other _ _ _ _ ?_
    intro hq
    rw [hq, List.append_assoc, isPrefixOf_append] at h
    cases h

/-- Files outside a namespace's dump target keep their contents. -/
theorem lookup_nsDump_outside (ns : Namespace) (base : FilePath') (fs : FS)
    (q : FilePath') (h : base.isPrefixOf q = false) :
    (ns.dump base fs).lookup q = fs.lookup q := by
  rw [Namespace.dump]
  simp only [lookup_dumpKind_outside _ _ _ _ _ _ _ h]

/-- Files outside the output root keep their contents across the write
phase of `DataPack.dump`. -/
theorem lookup_dumpFresh_outside (p : DataPack) (out : FilePath') (fs : FS)
    (q : FilePath') (h : out.isPrefixOf q = false) :
    (dumpFresh p out fs).lookup q = fs.lookup q := by
  rw [dumpFresh]
  have hmc : q ≠ out ++ ["pack.mcmeta"] := by
    intro hq
    rw [hq, isPrefixOf_append] at h
    cases h
  have hfold : ∀ (l : List (String × Namespace)) (fs0 : FS),
      (List.foldl (fun acc kv => Namespace.dump kv.2 (out ++ ["data", kv.1]) acc)
        fs0 l).lookup q = fs0.lookup q := by
    intro l
    induction l with
    | nil => intro fs0; rfl
    | cons kv tl ih =>
      intro fs0
      rw [List.foldl_cons, ih]
      refine lookup_nsDump_outside _ _ _ _ ?_
      exact not_isPrefixOf_of_trans out _ q (isPrefixOf_append _ _) h
  exact (hfold _ _).trans (FS.lookup_writeF_other _ _ _ _ hmc)

theorem lookup_rmtree_outside (fs : FS) (out q : FilePath')
    (h : out.isPrefixOf q = false) :
    (fs.rmtree out).lookup q = fs.lookup q := by
  rw [FS.rmtree, lookup_eq_alookup, lookup_eq_alookup, alookup, alookup]
  rw [find?_filter_of_imp]
  intro e he
  simp only [decide_eq_true_eq] at he
  rw [he, h]
  rfl

theorem isPrefixOf_trans {α : Type _} [DecidableEq α] (a b c : List α)
    (h1 : a.isPrefixOf b = true) (h2 : b.isPrefixOf c = true) :
    a.isPrefixOf c = true := by
  rw [List.isPrefixOf_iff_prefix] at h1 h2 ⊢
  exact h1.trans h2

theorem lookup_filter_src (fs : FS) (src p : FilePath')
    (hp : src.isPrefixOf p = true) :
    FS.lookup (fs.filter (fun e => src.isPrefixOf e.1)) p = FS.lookup fs p := by
  rw [lookup_eq_alookup, lookup_eq_alookup, alookup, alookup, find?_filter_of_imp]
  intro e he
  simp only [decide_eq_true_eq] at he
  rw [he]
  exact hp

theorem matchedFiles_filter_src (fs : FS) (src dir : FilePath') (ext : String)
    (hsd : src.isPrefixOf dir = true) :
    matchedFiles (fs.filter (fun e => src.isPrefixOf e.1)) dir ext =
      matchedFiles fs dir ext := by
  rw [matchedFiles, matchedFiles, filter_filter_of_imp]
  intro e he
  rw [Bool.and_eq_true, Bool.and_eq_true] at he
  exact isPrefixOf_trans _ _ _ hsd he.1.1

theorem loadKind_filter_src {α : Type _} (fs : FS) (src dir : FilePath')
    (ext : String) (dec : FileData → Option α)
    (hsd : src.isPrefixOf dir = true) :
    loadKind (fs.filter (fun e => src.isPrefixOf e.1)) dir ext dec =
      loadKind fs dir ext dec := by
  rw [loadKind, loadKind, matchedFiles_filter_src fs src dir ext hsd]

theorem nsLoad_filter_src (fs : FS) (src base : FilePath')
    (hsb : src.isPrefixOf base = true) :
    Namespace.load (fs.filter (fun e => src.isPrefixOf e.1)) base =
      Namespace.load fs base := by
  have hk : ∀ (folder : FilePath'), src.isPrefixOf (base ++ folder) = true :=
    fun folder => isPrefixOf_trans _ _ _ hsb (isPrefixOf_append _ _)
  rw [Namespace.load, Namespace.load,
      loadKind_filter_src fs src _ _ _ (hk ["advancements"]),
      loadKind_filter_src fs src _ _ _ (hk ["functions"]),
      loadKind_filter_src fs src _ _ _ (hk ["loot_tables"]),
      loadKind_filter_src fs src _ _ _ (hk ["recipes"]),
      loadKind_filter_src fs src _ _ _ (hk ["structures"]),
      loadKind_filter_src fs src _ _ _ (hk ["tags", "blocks"]),
      loadKind_filter_src fs src _ _ _ (hk ["tags", "items"]),
      loadKind_filter_src fs src _ _ _ (hk ["tags", "fluids"]),
      loadKind_filter_src fs src _ _ _ (hk ["tags", "functions"]),
      loadKind_filter_src fs src _ _ _ (hk ["tags", "entity_types"])]

theorem nsNamesUnder_filter_src (fs : FS) (src dataDir : FilePath')
    (hsd : src.isPrefixOf dataDir = true) :
    nsNamesUnder (fs.filter (fun e => src.isPrefixOf e.1)) dataDir =
      nsNamesUnder fs dataDir := by
  rw [nsNamesUnder, nsNamesUnder, filterMap_filter_of_imp]
  intro e he
  rw [if_neg]
  intro hd
  have := isPrefixOf_trans _ _ _ hsd hd
  rw [this] at he
  cases he

theorem foldlM_option_congr {σ α : Type _} (l : List α) (f g : σ → α → Option σ)
    (h : ∀ s a, a ∈ l → f s a = g s a) (init : σ) :
    l.foldlM f init = l.foldlM g init := by
  induction l generalizing init with
  | nil => rfl
  | cons a tl ih =>
    rw [List.foldlM_cons, List.foldlM_cons, h init a (List.mem_cons_self _ _)]
    cases g init a with
    | none => rfl
    | some s => exact ih (fun s' a' ha' => h s' a' (List.mem_cons_of_mem _ ha')) s

/-- `DataPack.load` reads only files below the source directory: loading
from the tree restricted to that subtree gives the same result. -/
theorem load_reads_only_subtree (fs : FS) (src : FilePath') :
    DataPack.load (fs.filter (fun e => src.isPrefixOf e.1)) src =
      DataPack.load fs src := by
  rw [DataPack.load, DataPack.load]
  simp only [lookup_filter_src fs src _ (isPrefixOf_append _ _),
    nsNamesUnder_filter_src fs src _ (isPrefixOf_append _ _)]
  simp only [nsLoad_filter_src fs src, isPrefixOf_append]

/-- **C9** (confirmed).  In the explicit-state embedding (the Python
methods mutate neither their receiver nor any loaded objects, so packs are
plain values here), the frame content of the claim is: `dump` changes no
file outside its output root `targetPath / name` — in either overwrite
mode — and `load` performs no writes and reads only the source subtree, so
any directory tree it is given is left unchanged. -/
theorem claim_C9_dump_load_frame (p : DataPack) (dir : FilePath') (ow : Bool)
    (fs fs' : FS) (h : p.dump dir ow fs = .ok fs') :
    (∀ q, (dir ++ [p.name]).isPrefixOf q = false →
      fs'.lookup q = fs.lookup q) ∧
    (∀ (gs : FS) (src : FilePath'),
      DataPack.load (gs.filter (fun e => src.isPrefixOf e.1)) src =
        DataPack.load gs src) := by
  refine ⟨?_, fun gs src => load_reads_only_subtree gs src⟩
  intro q hq
  rw [DataPack.dump] at h
  by_cases hd : fs.isDir (dir ++ [p.name]) = true
  · rw [if_pos hd] at h
    cases ow with
    | true =>
      rw [if_pos rfl] at h
      injection h with h
      rw [← h, lookup_dumpFresh_outside _ _ _ _ hq,
          lookup_rmtree_outside _ _ _ hq]
    | false => simp at h
  · rw [if_neg hd] at h
    by_cases hf : fs.isFile (dir ++ [p.name]) = true
    · rw [if_pos hf] at h
      simp at h
    · rw [if_neg hf] at h
      injection h with h
      rw [← h, lookup_dumpFresh_outside _ _ _ _ hq]

/-- Witness for C9: dumping a fresh pack into an empty tree writes only
below `["p"]`. -/
theorem claim_C9_dump_load_frame_witness :
    (∀ q, (([] : FilePath') ++ ["p"]).isPrefixOf q = false →
      FS.lookup [(["p", "pack.mcmeta"],
        FileData.json (DataPack.mcmeta { name := "p", description := "d" }))] q =
        FS.lookup [] q) ∧
    (∀ (gs : FS) (src : FilePath'),
      DataPack.load (gs.filter (fun e => src.isPrefixOf e.1)) src =
        DataPack.load gs src) :=
  claim_C9_dump_load_frame { name := "p", description := "d" } [] false []
    [(["p", "pack.mcmeta"],
      FileData.json (DataPack.mcmeta { name := "p", description := "d" }))]
    (by rfl)

/-- **C3** (confirmed).  Dumping onto an existing output root without
`overwrite` fails with the already-exists error (the filesystem argument is
returned unchanged by the `Except`-style embedding, so the existing tree is
untouched); with `overwrite` the root's subtree is first removed in full —
exactly the entries below the root disappear, everything else keeps its
contents — and the pack is dumped fresh into the cleaned tree. -/
theorem claim_C3_overwrite_guard (p : DataPack) (dir : FilePath') (fs : FS)
    (h : fs.isDir (dir ++ [p.name]) = true) :
    p.dump dir false fs = .error "already exists" ∧
    p.dump dir true fs =
      .ok (dumpFresh p (dir ++ [p.name]) (fs.rmtree (dir ++ [p.name]))) ∧
    (∀ e, e ∈ fs.rmtree (dir ++ [p.name]) ↔
      e ∈ fs ∧ (dir ++ [p.name]).isPrefixOf e.1 = false) ∧
    (∀ q, (dir ++ [p.name]).isPrefixOf q = false →
      (dumpFresh p (dir ++ [p.name]) (fs.rmtree (dir ++ [p.name]))).lookup q =
        fs.lookup q) := by
  refine ⟨?_, ?_, ?_, ?_⟩
  · rw [DataPack.dump]
    rw [if_pos h]
    rfl
  · rw [DataPack.dump]
    rw [if_pos h]
    rfl
  · intro e
    simp [FS.rmtree, List.mem_filter]
  · intro q hq
    rw [lookup_dumpFresh_outside _ _ _ _ hq, lookup_rmtree_outside _ _ _ hq]

/-- Witness for C3: a tree already holding a file below `["p"]`. -/
theorem claim_C3_overwrite_guard_witness :
    DataPack.dump { name := "p", description := "d" } [] false
        [(["p", "stale"], FileData.text "old")] = .error "already exists" ∧
    DataPack.dump { name := "p", description := "d" } [] true
        [(["p", "stale"], FileData.text "old")] =
      .ok (dumpFresh { name := "p", description := "d" } ([] ++ ["p"])
        (FS.rmtree [(["p", "stale"], FileData.text "old")] ([] ++ ["p"]))) :=
  ⟨(claim_C3_overwrite_guard { name := "p", description := "d" } []
      [(["p", "stale"], FileData.text "old")] (by decide)).1,
   (claim_C3_overwrite_guard { name := "p", description := "d" } []
      [(["p", "stale"], FileData.text "old")] (by decide)).2.1⟩

/-- The registered kind folders (`_type_items` order). -/
def kindFolderList : List FilePath' :=
  [["advancements"], ["functions"], ["loot_tables"], ["recipes"], ["structures"],
   ["tags", "blocks"], ["tags", "items"], ["tags", "fluids"], ["tags", "functions"],
   ["tags", "entity_types"]]

theorem matched_nil_of_not_isDir (fs : FS) (dir : FilePath') (ext : String)
    (h : fs.isDir dir = false) :
    matchedFiles fs dir ext = [] := by
  rw [matchedFiles, List.filter_eq_nil_iff]
  intro e he
  rw [FS.isDir, List.any_eq_false] at h
  have := h e he
  intro hc
  rw [Bool.and_eq_true, Bool.and_eq_true] at hc
  exact this (by rw [hc.1.1, hc.1.2]; rfl)

theorem loadKind_of_not_isDir {α : Type _} (fs : FS) (dir : FilePath')
    (ext : String) (dec : FileData → Option α) (h : fs.isDir dir = false) :
    loadKind fs dir ext dec = some [] := by
  rw [loadKind, matched_nil_of_not_isDir fs dir ext h]
  rfl

/-- **C6** (confirmed).  `Namespace.load` tolerates absent kind folders:
if every registered folder is missing the load succeeds with the all-empty
namespace; whenever the load succeeds, each kind whose folder is missing
has the empty mapping, and each kind's mapping is exactly what scanning its
own folder produced. -/
theorem claim_C6_missing_folder_tolerance (fs : FS) (base : FilePath') :
    ((∀ folder ∈ kindFolderList, fs.isDir (base ++ folder) = false) →
      Namespace.load fs base = some {}) ∧
    (∀ ns, Namespace.load fs base = some ns →
      ((fs.isDir (base ++ ["advancements"]) = false → ns.advancements = []) ∧
       (fs.isDir (base ++ ["functions"]) = false → ns.functions = []) ∧
       (fs.isDir (base ++ ["loot_tables"]) = false → ns.loot_tables = []) ∧
       (fs.isDir (base ++ ["recipes"]) = false → ns.recipes = []) ∧
       (fs.isDir (base ++ ["structures"]) = false → ns.structures = []) ∧
       (fs.isDir (base ++ ["tags", "blocks"]) = false → ns.block_tags = []) ∧
       (fs.isDir (base ++ ["tags", "items"]) = false → ns.item_tags = []) ∧
       (fs.isDir (base ++ ["tags", "fluids"]) = false → ns.fluid_tags = []) ∧
       (fs.isDir (base ++ ["tags", "functions"]) = false → ns.function_tags = []) ∧
       (fs.isDir (base ++ ["tags", "entity_types"]) = false → ns.entity_type_tags = [])) ∧
      (loadKind fs (base ++ ["advancements"]) ".json" Advancement.decode = some ns.advancements ∧
       loadKind fs (base ++ ["functions"]) ".mcfunction" Function.decode = some ns.functions ∧
       loadKind fs (base ++ ["loot_tables"]) ".json" LootTable.decode = some ns.loot_tables ∧
       loadKind fs (base ++ ["recipes"]) ".json" Recipe.decode = some ns.recipes ∧
       loadKind fs (base ++ ["structures"]) ".nbt" Structure.decode = some ns.structures ∧
       loadKind fs (base ++ ["tags", "blocks"]) ".json" TagItem.decode = some ns.block_tags ∧
       loadKind fs (base ++ ["tags", "items"]) ".json" TagItem.decode = some ns.item_tags ∧
       loadKind fs (base ++ ["tags", "fluids"]) ".json" TagItem.decode = some ns.fluid_tags ∧
       loadKind fs (base ++ ["tags", "functions"]) ".json" TagItem.decode = some ns.function_tags ∧
       loadKind fs (base ++ ["tags", "entity_types"]) ".json" TagItem.decode = some ns.entity_type_tags)) := by
  constructor
  · intro h
    rw [Namespace.load,
        loadKind_of_not_isDir fs _ _ _ (h _ (by simp [kindFolderList])),
        loadKind_of_not_isDir fs _ _ _ (h ["functions"] (by simp [kindFolderList])),
        loadKind_of_not_isDir fs _ _ _ (h ["loot_tables"] (by simp [kindFolderList])),
        loadKind_of_not_isDir fs _ _ _ (h ["recipes"] (by simp [kindFolderList])),
        loadKind_of_not_isDir fs _ _ _ (h ["structures"] (by simp [kindFolderList])),
        loadKind_of_not_isDir fs _ _ _ (h ["tags", "blocks"] (by simp [kindFolderList])),
        loadKind_of_not_isDir fs _ _ _ (h ["tags", "items"] (by simp [kindFolderList])),
        loadKind_of_not_isDir fs _ _ _ (h ["tags", "fluids"] (by simp [kindFolderList])),
        loadKind_of_not_isDir fs _ _ _ (h ["tags", "functions"] (by simp [kindFolderList])),
        loadKind_of_not_isDir fs _ _ _ (h ["tags", "entity_types"] (by simp [kindFolderList]))]
    rfl
  · intro ns hld
    rw [Namespace.load] at hld
    simp only [bind, Option.bind_eq_some, Option.some.injEq] at hld
    obtain ⟨a1, h1, a2, h2, a3, h3, a4, h4, a5, h5, a6, h6, a7, h7, a8, h8, a9, h9,
            a10, h10, heq⟩ := hld
    rw [Option.pure_def, Option.some.injEq] at heq
    subst heq
    refine ⟨⟨?_, ?_, ?_, ?_, ?_, ?_, ?_, ?_, ?_, ?_⟩,
            h1, h2, h3, h4, h5, h6, h7, h8, h9, h10⟩ <;>
      intro habs
    · have := loadKind_of_not_isDir fs _ ".json" Advancement.decode habs
      rw [h1] at this
      exact Option.some.inj this
    · have := loadKind_of_not_isDir fs _ ".mcfunction" Function.decode habs
      rw [h2] at this
      exact Option.some.inj this
    · have := loadKind_of_not_isDir fs _ ".json" LootTable.decode habs
      rw [h3] at this
      exact Option.some.inj this
    · have := loadKind_of_not_isDir fs _ ".json" Recipe.decode habs
      rw [h4] at this
      exact Option.some.inj this
    · have := loadKind_of_not_isDir fs _ ".nbt" Structure.decode habs
      rw [h5] at this
      exact Option.some.inj this
    · have := loadKind_of_not_isDir fs _ ".json" TagItem.decode habs
      rw [h6] at this
      exact Option.some.inj this
    · have := loadKind_of_not_isDir fs _ ".json" TagItem.decode habs
      rw [h7] at this
      exact Option.some.inj this
    · have := loadKind_of_not_isDir fs _ ".json" TagItem.decode habs
      rw [h8] at this
      exact Option.some.inj this
    · have := loadKind_of_not_isDir fs _ ".json" TagItem.decode habs
      rw [h9] at this
      exact Option.some.inj this
    · have := loadKind_of_not_isDir fs _ ".json" TagItem.decode habs
      rw [h10] at this
      exact Option.some.inj this

/-- Witness for C6: the empty tree loads as the all-empty namespace, and a
tree holding only one function leaves the other kinds' mappings empty. -/
theorem claim_C6_missing_folder_tolerance_witness :
    Namespace.load ([] : FS) ["b"] = some {} ∧
    ({ functions := [(["x"], ⟨"say hi"⟩)] } : Namespace).advancements = [] :=
  ⟨(claim_C6_missing_folder_tolerance [] ["b"]).1 (by decide),
   (((claim_C6_missing_folder_tolerance
        [(["b", "functions", "x.mcfunction"], .text "say hi")] ["b"]).2
      { functions := [(["x"], ⟨"say hi"⟩)] } (by decide)).1).1 (by decide)⟩

theorem setItem_ns_inv (p p' : DataPack) (key : String) (n : Namespace)
    (h : p.setItem key (.ns n) = some p') :
    p' = { p with namespaces := pyInsert p.namespaces (⟨(partitionColon key.data).1⟩ : String) n } := by
  rw [DataPack.setItem] at h
  by_cases hc : (partitionColon key.data).2.isEmpty = true
  · rw [if_pos hc] at h
    exact (Option.some.inj h).symm
  · rw [if_neg hc] at h
    cases h

/-- For a colon-free key, the whole-namespace branch stores under the key
itself (the pre-colon prefix of a colon-free string is the string). -/
theorem setItem_ns_inv_nocolon (p p' : DataPack) (key : String) (n : Namespace)
    (hkey : ':' ∉ key.data)
    (h : p.setItem key (.ns n) = some p') :
    p' = { p with namespaces := pyInsert p.namespaces key n } := by
  have h2 := setItem_ns_inv p p' key n h
  rw [partitionColon_no_colon key.data hkey] at h2
  exact h2

/-- The namespace-installation fold of `DataPack.load` never touches the
name, description or pack format of the accumulator. -/
theorem foldlM_setItem_fields (fs : FS) (src : FilePath') :
    ∀ (names : List String) (acc q : DataPack),
      List.foldlM (fun acc n => (Namespace.load fs (src ++ ["data", n])).bind
        (fun ns => acc.setItem n (.ns ns))) acc names = some q →
      q.name = acc.name ∧ q.description = acc.description ∧
      q.pack_format = acc.pack_format := by
  intro names
  induction names with
  | nil =>
    intro acc q h
    cases h
    exact ⟨rfl, rfl, rfl⟩
  | cons n rest ih =>
    intro acc q h
    rw [List.foldlM_cons] at h
    rcases hstep : (Namespace.load fs (src ++ ["data", n])).bind
        (fun ns => acc.setItem n (.ns ns)) with _ | p'
    · rw [hstep] at h
      cases h
    · rw [hstep] at h
      rcases Option.bind_eq_some.mp hstep with ⟨ns, hns, hset⟩
      have hp' := setItem_ns_inv acc p' n ns hset
      have hres := ih p' q h
      rw [hp'] at hres
      exact hres

theorem dedupF_nodup (l : List String) : (dedupF l).Nodup := by
  suffices h : ∀ acc : List String, acc.Nodup →
      (l.foldl (fun acc x => if x ∈ acc then acc else acc ++ [x]) acc).Nodup from
    h [] List.nodup_nil
  induction l with
  | nil => intro acc hacc; exact hacc
  | cons x tl ih =>
    intro acc hacc
    rw [List.foldl_cons]
    by_cases hx : x ∈ acc
    · rw [if_pos hx]
      exact ih acc hacc
    · rw [if_neg hx]
      refine ih _ ?_
      rw [List.nodup_append]
      exact ⟨hacc, List.nodup_singleton x, by simpa using fun hmem => hx hmem⟩

/-- Inversion of the namespace-loading fold of `DataPack.load`, for
colon-free names (a name with a colon is stored under its pre-colon
prefix, or fails the load outright). -/
theorem foldlM_setItem_ns_spec (fs : FS) (src : FilePath') :
    ∀ (names : List String) (acc q : DataPack),
      names.Nodup →
      (∀ m ∈ names, ':' ∉ m.data) →
      (∀ m ∈ names, ∀ kv ∈ acc.namespaces, kv.1 ≠ m) →
      List.foldlM (fun acc n => (Namespace.load fs (src ++ ["data", n])).bind
        (fun ns => acc.setItem n (.ns ns))) acc names = some q →
      q.name = acc.name ∧ q.description = acc.description ∧
      q.pack_format = acc.pack_format ∧
      q.namespaces.map Prod.fst = acc.namespaces.map Prod.fst ++ names ∧
      (∀ kv ∈ q.namespaces, kv ∈ acc.namespaces ∨
        Namespace.load fs (src ++ ["data", kv.1]) = some kv.2) := by
  intro names
  induction names with
  | nil =>
    intro acc q hnd hnc hfresh hfold
    cases hfold
    exact ⟨rfl, rfl, rfl, by simp, fun kv hkv => Or.inl hkv⟩
  | cons n rest ih =>
    intro acc q hnd hnc hfresh hfold
    rw [List.foldlM_cons] at hfold
    rcases hstep : (Namespace.load fs (src ++ ["data", n])).bind
        (fun ns => acc.setItem n (.ns ns)) with _ | p'
    · rw [hstep] at hfold
      cases hfold
    · rw [hstep] at hfold
      rcases Option.bind_eq_some.mp hstep with ⟨ns, hns, hset⟩
      have hp' := setItem_ns_inv_nocolon acc p' n ns
        (hnc n (List.mem_cons_self _ _)) hset
      have hfreshn : ∀ kv ∈ acc.namespaces, kv.1 ≠ n :=
        hfresh n (List.mem_cons_self _ _)
      have hins : pyInsert acc.namespaces n ns = acc.namespaces ++ [(n, ns)] :=
        pyInsert_fresh _ _ _ hfreshn
      have ihres := ih p' q (List.Nodup.of_cons hnd)
        (fun m hm => hnc m (List.mem_cons_of_mem _ hm)) ?_ hfold
      · refine ⟨ihres.1.trans (by rw [hp']),
               ihres.2.1.trans (by rw [hp']),
               ihres.2.2.1.trans (by rw [hp']), ?_, ?_⟩
        · rw [ihres.2.2.2.1, hp']
          simp [hins]
        · intro kv hkv
          rcases ihres.2.2.2.2 kv hkv with hin | hload
          · rw [hp', hins] at hin
            simp only [List.mem_append, List.mem_singleton] at hin
            rcases hin with hin | hin
            · exact Or.inl (hin)
            · subst hin
              exact Or.inr hns
          · exact Or.inr hload
      · intro m hm kv hkv
        rw [hp', hins] at hkv
        simp only [List.mem_append, List.mem_singleton] at hkv
        rcases hkv with hkv | hkv
        · exact hfresh m (List.mem_cons_of_mem _ hm) kv hkv
        · subst hkv
          intro hc
          have hnm : n = m := hc
          subst hnm
          exact (List.nodup_cons.mp hnd).1 hm

/-- **C4 counterexample**: a `data/` child directory named `foo:` is stored
under the key `foo` — `str.partition(':')` keeps only the text before the
first colon when the remainder is empty — so the loaded pack's namespace
keys are not the `data/` child names: here the single child is `foo:` while
the single loaded key is `foo`. -/
theorem claim_C4_counterexample :
    DataPack.load
      [(["p", "pack.mcmeta"], FileData.json (Json.objCons "pack"
         (Json.objCons "pack_format" (Json.num 1)
           (Json.objCons "description" (Json.str "d") Json.objNil)) Json.objNil)),
       (["p", "data", "foo:", "functions", "x.mcfunction"], FileData.text "say hi")]
      ["p"] =
      some { name := "p", description := "d",
             namespaces := [("foo", { functions := [(["x"], ⟨"say hi"⟩)] })],
             pack_format := 1 } ∧
    nsNamesUnder
      [(["p", "pack.mcmeta"], FileData.json (Json.objCons "pack"
         (Json.objCons "pack_format" (Json.num 1)
           (Json.objCons "description" (Json.str "d") Json.objNil)) Json.objNil)),
       (["p", "data", "foo:", "functions", "x.mcfunction"], FileData.text "say hi")]
      ["p", "data"] = ["foo:"] ∧
    (["foo"] : List String) ≠ ["foo:"] :=
  ⟨rfl, rfl, by decide⟩

/-- **C4** (corrected).  `DataPack.load` fails when the metadata file is
absent or unreadable as JSON; on success the description and pack format
come from the `pack` entry of `pack.mcmeta` and the pack name is the source
directory's own last segment.  The namespace dict holds exactly one entry
per immediate child of `data/`, each loaded by `Namespace.load` from its
subdirectory, **provided every child name is colon-free**: a child name
with a colon is assigned under its pre-colon prefix instead (see the
counterexample), because loading routes each child through
`DataPack.__setitem__`, which splits on the first colon. -/
theorem claim_C4_load_metadata_spec (fs : FS) (src : FilePath') :
    (FS.lookup fs (src ++ ["pack.mcmeta"]) = none → DataPack.load fs src = none) ∧
    (∀ s, FS.lookup fs (src ++ ["pack.mcmeta"]) = some (.text s) →
      DataPack.load fs src = none) ∧
    (∀ st, FS.lookup fs (src ++ ["pack.mcmeta"]) = some (.nbt st) →
      DataPack.load fs src = none) ∧
    (∀ q, DataPack.load fs src = some q →
      q.name = src.getLastD "" ∧
      (∃ j kvs packVal pkvs,
        FS.lookup fs (src ++ ["pack.mcmeta"]) = some (.json j) ∧
        jFields j = some kvs ∧
        jLookup kvs "pack" = some packVal ∧
        jFields packVal = some pkvs ∧
        jLookup pkvs "description" = some (.str q.description) ∧
        jLookup pkvs "pack_format" = some (.num q.pack_format)) ∧
      ((∀ m ∈ nsNamesUnder fs (src ++ ["data"]), ':' ∉ m.data) →
        q.namespaces.map Prod.fst = nsNamesUnder fs (src ++ ["data"]) ∧
        (∀ kv ∈ q.namespaces,
          Namespace.load fs (src ++ ["data", kv.1]) = some kv.2))) := by
  refine ⟨?_, ?_, ?_, ?_⟩
  · intro h
    rw [DataPack.load, h]
  · intro s h
    rw [DataPack.load, h]
  · intro st h
    rw [DataPack.load, h]
  · intro q hq
    rw [DataPack.load] at hq
    split at hq
    case _ j =>
      split at hq
      case _ kvs hkvs =>
        split at hq
        case _ packVal hpack =>
          split at hq
          case _ pkvs hpkvs =>
            split at hq
            case _ desc fmt hdesc hfmt =>
              have hflds := foldlM_setItem_fields fs src
                (nsNamesUnder fs (src ++ ["data"]))
                { name := src.getLastD "", description := desc,
                  namespaces := [], pack_format := fmt } q hq
              refine ⟨hflds.1, ?_, ?_⟩
              · refine ⟨_, kvs, packVal, pkvs, ?_, hkvs, hpack, hpkvs, ?_, ?_⟩
                · assumption
                · rw [hflds.2.1]
                  exact hdesc
                · rw [hflds.2.2]
                  exact hfmt
              · intro hnc
                have hspec := foldlM_setItem_ns_spec fs src
                  (nsNamesUnder fs (src ++ ["data"]))
                  { name := src.getLastD "", description := desc,
                    namespaces := [], pack_format := fmt } q
                  (by rw [nsNamesUnder]; exact dedupF_nodup _)
                  hnc
                  (by intro m hm kv hkv; cases hkv)
                  hq
                refine ⟨?_, ?_⟩
                · rw [hspec.2.2.2.1]
                  rfl
                · intro kv hkv
                  rcases hspec.2.2.2.2 kv hkv with hin | hload
                  · cases hin
                  · exact hload
            case _ => exact Option.noConfusion hq
          case _ => exact Option.noConfusion hq
        case _ => exact Option.noConfusion hq
      case _ => exact Option.noConfusion hq
    case _ => exact Option.noConfusion hq

/-- Witness for C4: the empty tree has no metadata file, so loading fails;
a tree with a `pack.mcmeta` and one colon-free namespace directory loads
with the directory's name as the pack name and that namespace under its
own child name. -/
theorem claim_C4_load_metadata_spec_witness :
    DataPack.load ([] : FS) ["p"] = none ∧
    ({ name := "p", description := "d", pack_format := 1,
       namespaces := [("ns", { functions := [(["x"], ⟨"say hi"⟩)] })] } :
        DataPack).name = (["p"] : FilePath').getLastD "" ∧
    ([("ns", { functions := [(["x"], ⟨"say hi"⟩)] })] :
        List (String × Namespace)).map Prod.fst =
      nsNamesUnder
        [(["p", "pack.mcmeta"],
          FileData.json (DataPack.mcmeta { name := "p", description := "d" })),
         (["p", "data", "ns", "functions", "x.mcfunction"],
          FileData.text "say hi")]
        (["p"] ++ ["data"]) :=
  ⟨(claim_C4_load_metadata_spec [] ["p"]).1 (by decide),
   ((claim_C4_load_metadata_spec
      [(["p", "pack.mcmeta"],
        FileData.json (DataPack.mcmeta { name := "p", description := "d" })),
       (["p", "data", "ns", "functions", "x.mcfunction"],
        FileData.text "say hi")]
      ["p"]).2.2.2
      { name := "p", description := "d", pack_format := 1,
        namespaces := [("ns", { functions := [(["x"], ⟨"say hi"⟩)] })] }
      (by decide)).1,
   (((claim_C4_load_metadata_spec
      [(["p", "pack.mcmeta"],
        FileData.json (DataPack.mcmeta { name := "p", description := "d" })),
       (["p", "data", "ns", "functions", "x.mcfunction"],
        FileData.text "say hi")]
      ["p"]).2.2.2
      { name := "p", description := "d", pack_format := 1,
        namespaces := [("ns", { functions := [(["x"], ⟨"say hi"⟩)] })] }
      (by decide)).2.2 (by decide)).1⟩

/-! ## The write set of a dump

`kindWrites`/`nsWrites`/`packWrites` describe, as plain lists, the files a
dump produces, in write order.  Dumping into a location where the output
root does not yet exist is proved below to append exactly these files. -/

def pathsOf (l : FS) : List FilePath' := l.map Prod.fst

/-- The files one kind's dump loop writes, in dict order. -/
def kindWrites {α : Type _} (dir : FilePath') (ext : String) (enc : α → FileData)
    (items : List (List String × α)) : FS :=
  items.map (fun kv => (dir ++ itemFileSegs kv.1 ext, enc kv.2))

/-- The files `Namespace.dump` writes below `base`, in kind order. -/
def nsWrites (base : FilePath') (ns : Namespace) : FS :=
  kindWrites (base ++ ["advancements"]) ".json" Advancement.encode ns.advancements ++
  kindWrites (base ++ ["functions"]) ".mcfunction" Function.encode ns.functions ++
  kindWrites (base ++ ["loot_tables"]) ".json" LootTable.encode ns.loot_tables ++
  kindWrites (base ++ ["recipes"]) ".json" Recipe.encode ns.recipes ++
  kindWrites (base ++ ["structures"]) ".nbt" Structure.encode ns.structures ++
  kindWrites (base ++ ["tags", "blocks"]) ".json" TagItem.encode ns.block_tags ++
  kindWrites (base ++ ["tags", "items"]) ".json" TagItem.encode ns.item_tags ++
  kindWrites (base ++ ["tags", "fluids"]) ".json" TagItem.encode ns.fluid_tags ++
  kindWrites (base ++ ["tags", "functions"]) ".json" TagItem.encode ns.function_tags ++
  kindWrites (base ++ ["tags", "entity_types"]) ".json" TagItem.encode ns.entity_type_tags

/-- The files `DataPack.dump` writes below the output root `out`. -/
def packWrites (p : DataPack) (out : FilePath') : FS :=
  (out ++ ["pack.mcmeta"], .json p.mcmeta) ::
    (p.namespaces.map (fun kv => nsWrites (out ++ ["data", kv.1]) kv.2)).flatten

/-! ## Well-formedness

The round trip holds for the packs Python can faithfully represent and
reconstruct: names that survive `pathlib` path splitting and `rglob`
extension matching, dictionaries (which Python guarantees to have unique
keys), valid items, and structures carrying the default `DataVersion`. -/

/-- A string usable as a single path segment (pack and namespace names). -/
def segOk (s : String) : Prop :=
  s ≠ "" ∧ ¬ '/' ∈ s.data ∧ ¬ ':' ∈ s.data ∧ s ≠ "." ∧ s ≠ ".."

/-- A well-formed relative item path for a kind with extension `ext`:
nonempty segments (no empty pieces, no `.`/`..`), and no intermediate
directory name ending in the extension (such a directory would be yielded
by `rglob` and crash the loader). -/
def wfName (ext : String) (nm : List String) : Prop :=
  nm ≠ [] ∧ (∀ s ∈ nm, s ≠ "" ∧ ¬ '/' ∈ s.data ∧ s ≠ "." ∧ s ≠ "..") ∧
  (∀ s ∈ nm.dropLast, strEndsWith s ext = false)

/-- A well-formed per-kind dict. -/
def wfDict {α : Type _} (ext : String) (validI : α → Prop)
    (d : List (List String × α)) : Prop :=
  (d.map Prod.fst).Nodup ∧ ∀ kv ∈ d, wfName ext kv.1 ∧ validI kv.2

def Namespace.wf (ns : Namespace) : Prop :=
  wfDict ".json" Advancement.valid ns.advancements ∧
  wfDict ".mcfunction" (fun _ => True) ns.functions ∧
  wfDict ".json" LootTable.valid ns.loot_tables ∧
  wfDict ".json" Recipe.valid ns.recipes ∧
  wfDict ".nbt" (fun s => s.dataVersion = DATA_VERSION) ns.structures ∧
  wfDict ".json" TagItem.valid ns.block_tags ∧
  wfDict ".json" TagItem.valid ns.item_tags ∧
  wfDict ".json" TagItem.valid ns.fluid_tags ∧
  wfDict ".json" TagItem.valid ns.function_tags ∧
  wfDict ".json" TagItem.valid ns.entity_type_tags

def DataPack.wf (p : DataPack) : Prop :=
  segOk p.name ∧ (p.namespaces.map Prod.fst).Nodup ∧
  ∀ kv ∈ p.namespaces, segOk kv.1 ∧ kv.2.wf

/-- No entry of `fs` lies at or below `out`: the dump target is fresh. -/
def freshFor (fs : FS) (out : FilePath') : Prop :=
  ∀ e ∈ fs, out.isPrefixOf e.1 = false

instance (s : String) : Decidable (segOk s) := by unfold segOk; infer_instance
instance (ext : String) (nm : List String) : Decidable (wfName ext nm) := by
  unfold wfName; infer_instance
instance {α : Type _} (ext : String) (validI : α → Prop) [DecidablePred validI]
    (d : List (List String × α)) : Decidable (wfDict ext validI d) := by
  unfold wfDict; infer_instance
instance (ns : Namespace) : Decidable ns.wf := by unfold Namespace.wf; infer_instance
instance (p : DataPack) : Decidable p.wf := by unfold DataPack.wf; infer_instance
instance (fs : FS) (out : FilePath') : Decidable (freshFor fs out) := by
  unfold freshFor; infer_instance

/-! ## Path-shape lemmas -/

theorem itemFileSegs_ne_nil (nm : List String) (ext : String) :
    itemFileSegs nm ext ≠ [] := by
  cases nm <;> simp [itemFileSegs]

theorem dropLast_append_getLastD {α : Type _} :
    ∀ (l : List α) (d : α), l ≠ [] → l.dropLast ++ [l.getLastD d] = l := by
  intro l
  induction l with
  | nil => intro d h; exact absurd rfl h
  | cons a tl ih =>
    intro d h
    cases tl with
    | nil => rfl
    | cons b tl2 =>
      rw [List.dropLast_cons₂, List.getLastD_cons, List.cons_append, ih a (by simp)]

theorem itemFileSegs_wf (nm : List String) (ext : String) (h : wfName ext nm) :
    itemFileSegs nm ext = nm.dropLast ++ [nm.getLastD "" ++ ext] := by
  obtain ⟨hne, hseg, -⟩ := h
  cases nm with
  | nil => exact absurd rfl hne
  | cons a tl =>
    rw [itemFileSegs]
    congr 1
    rw [List.filter_eq_self]
    intro s hs
    have := (hseg s (List.dropLast_sublist _ |>.mem hs)).1
    simpa using this

theorem string_append_right_cancel (a b ext : String) (h : a ++ ext = b ++ ext) :
    a = b := by
  have hd : a.data ++ ext.data = b.data ++ ext.data := by
    rw [← String.data_append, ← String.data_append, h]
  exact String.ext (List.append_cancel_right hd)

theorem itemFileSegs_inj (nm1 nm2 : List String) (ext : String)
    (h1 : wfName ext nm1) (h2 : wfName ext nm2)
    (heq : itemFileSegs nm1 ext = itemFileSegs nm2 ext) : nm1 = nm2 := by
  rw [itemFileSegs_wf _ _ h1, itemFileSegs_wf _ _ h2] at heq
  have hlen : ([nm1.getLastD "" ++ ext] : List String).length =
      ([nm2.getLastD "" ++ ext] : List String).length := rfl
  obtain ⟨hdl, hlast⟩ := List.append_inj' heq hlen
  have hl : nm1.getLastD "" = nm2.getLastD "" :=
    string_append_right_cancel _ _ _ (by simpa using hlast)
  rw [← dropLast_append_getLastD nm1 "" h1.1, ← dropLast_append_getLastD nm2 "" h2.1,
      hdl, hl]

theorem strEndsWith_append (s ext : String) : strEndsWith (s ++ ext) ext = true := by
  rw [strEndsWith, List.isSuffixOf_iff_suffix, String.data_append]
  exact List.suffix_append _ _

/-- The three registered extensions: a dot followed by a nonempty dot-free
suffix. -/
def extOk (ext : String) : Prop :=
  ∃ t : List Char, ext.data = '.' :: t ∧ t ≠ [] ∧ ¬ '.' ∈ t

theorem pyStemChars_append (u t : List Char) (hu : u ≠ []) (ht : t ≠ [])
    (hdot : ¬ '.' ∈ t) :
    pyStemChars (u ++ '.' :: t) = u := by
  have hr : (u ++ '.' :: t).reverse = t.reverse ++ '.' :: u.reverse := by
    rw [List.reverse_append, List.reverse_cons, List.append_assoc]
    rfl
  have hsuf : (t.reverse ++ '.' :: u.reverse).takeWhile (fun c => c ≠ '.') =
      t.reverse := by
    rw [List.takeWhile_append_of_pos, List.takeWhile_cons_of_neg, List.append_nil]
    · simp
    · intro a ha
      simp only [ne_eq, decide_eq_true_eq]
      exact fun hf => hdot (List.mem_reverse.mp (hf ▸ ha))
  have hulen : 0 < u.length := List.length_pos.mpr hu
  have htlen : 0 < t.length := List.length_pos.mpr ht
  have hrlen : (t.reverse ++ '.' :: u.reverse).length = t.length + 1 + u.length := by
    simp [List.length_append]
    omega
  rw [pyStemChars]
  simp only [hr, hsuf, List.length_reverse, hrlen]
  rw [if_neg (by omega), if_neg (by omega), if_neg (by omega)]
  rw [show t.reverse ++ '.' :: u.reverse = (t.reverse ++ ['.']) ++ u.reverse by simp]
  rw [show t.length + 1 = (t.reverse ++ ['.']).length by simp]
  rw [List.drop_left, List.reverse_reverse]

theorem pyStem_append_ext (s ext : String) (hext : extOk ext) (hs : s ≠ "") :
    pyStem (s ++ ext) = s := by
  obtain ⟨t, hdata, ht, hdot⟩ := hext
  refine String.ext ?_
  show pyStemChars (s ++ ext).data = s.data
  rw [String.data_append, hdata]
  exact pyStemChars_append s.data t
    (fun hf => hs (String.ext (by simp [hf]))) ht hdot

theorem reconstructName_roundtrip (dir : FilePath') (nm : List String)
    (ext : String) (hwf : wfName ext nm) (hext : extOk ext) :
    reconstructName dir (dir ++ itemFileSegs nm ext) = nm := by
  rw [reconstructName, List.drop_left, itemFileSegs_wf _ _ hwf]
  rw [List.dropLast_concat]
  rw [show dir ++ (nm.dropLast ++ [nm.getLastD "" ++ ext]) =
      (dir ++ nm.dropLast) ++ [nm.getLastD "" ++ ext] by rw [List.append_assoc]]
  rw [List.getLastD_concat]
  have hmem : nm.getLastD "" ∈ nm := by
    have hx : nm.getLastD "" ∈ nm.dropLast ++ [nm.getLastD ""] :=
      List.mem_append_right _ (List.mem_singleton_self _)
    rwa [dropLast_append_getLastD nm "" hwf.1] at hx
  rw [pyStem_append_ext _ _ hext (hwf.2.1 _ hmem).1]
  exact dropLast_append_getLastD nm "" hwf.1

/-! ## Prefix-clash lemmas: files of one kind/namespace never fall under
another kind's or namespace's folder, and never under a shorter metadata
path. -/

theorem prefix_split {α : Type _} (A B C : List α) (h : A <+: B ++ C) :
    A <+: B ∨ B <+: A := by
  by_cases hl : A.length ≤ B.length
  · exact Or.inl ((List.prefix_of_prefix_length_le h (List.prefix_append B C) hl))
  · exact Or.inr
      (List.prefix_of_prefix_length_le (List.prefix_append B C) h (le_of_not_le hl))

theorem folder_clash (base f1 f2 segs : FilePath')
    (h1 : ¬ f1 <+: f2) (h2 : ¬ f2 <+: f1) :
    (base ++ f1).isPrefixOf (base ++ f2 ++ segs) = false := by
  rw [Bool.eq_false_iff]
  intro hc
  rw [List.isPrefixOf_iff_prefix, List.append_assoc, List.prefix_append_right_inj] at hc
  rcases prefix_split _ _ _ hc with h | h
  exacts [h1 h, h2 h]

theorem ns_dir_clash (out : FilePath') (n n' : String) (f f' segs : FilePath')
    (hne : n ≠ n') :
    ((out ++ ["data", n]) ++ f).isPrefixOf (((out ++ ["data", n']) ++ f') ++ segs) =
      false := by
  rw [Bool.eq_false_iff]
  intro hc
  rw [List.isPrefixOf_iff_prefix,
      show (out ++ ["data", n]) ++ f = out ++ ("data" :: n :: f) by simp,
      show ((out ++ ["data", n']) ++ f') ++ segs =
        out ++ ("data" :: n' :: (f' ++ segs)) by simp,
      List.prefix_append_right_inj, List.cons_prefix_cons, List.cons_prefix_cons] at hc
  exact hne hc.2.1

theorem mcmeta_clash (out : FilePath') (n : String) (f : FilePath') :
    ((out ++ ["data", n]) ++ f).isPrefixOf (out ++ ["pack.mcmeta"]) = false := by
  rw [Bool.eq_false_iff]
  intro hc
  rw [List.isPrefixOf_iff_prefix,
      show (out ++ ["data", n]) ++ f = out ++ ("data" :: n :: f) by simp,
      List.prefix_append_right_inj, List.cons_prefix_cons] at hc
  exact absurd hc.1 (by decide)

/-! ## `matchedFiles` decomposition -/

theorem matched_append (A B : FS) (dir : FilePath') (ext : String) :
    matchedFiles (A ++ B) dir ext = matchedFiles A dir ext ++ matchedFiles B dir ext :=
  List.filter_append _ _

theorem matched_nil_outside_dir (ws : FS) (dir : FilePath') (ext : String)
    (h : ∀ w ∈ ws, dir.isPrefixOf w.1 = false) :
    matchedFiles ws dir ext = [] := by
  rw [matchedFiles, List.filter_eq_nil_iff]
  intro w hw
  rw [h w hw]
  simp

theorem kindWrites_mem {α : Type _} {dir : FilePath'} {ext : String}
    {enc : α → FileData} {items : List (List String × α)} {w : FilePath' × FileData}
    (hw : w ∈ kindWrites dir ext enc items) :
    ∃ kv ∈ items, w = (dir ++ itemFileSegs kv.1 ext, enc kv.2) := by
  rw [kindWrites, List.mem_map] at hw
  obtain ⟨kv, hkv, rfl⟩ := hw
  exact ⟨kv, hkv, rfl⟩

theorem matched_kindWrites_nil {α : Type _} (dirT dirW : FilePath')
    (extT extW : String) (enc : α → FileData) (items : List (List String × α))
    (h : ∀ segs, dirT.isPrefixOf (dirW ++ segs) = false) :
    matchedFiles (kindWrites dirW extW enc items) dirT extT = [] := by
  refine matched_nil_outside_dir _ _ _ ?_
  intro w hw
  obtain ⟨kv, hkv, rfl⟩ := kindWrites_mem hw
  exact h _

theorem matched_kindWrites_own {α : Type _} (dir : FilePath') (ext : String)
    (enc : α → FileData) (items : List (List String × α))
    (hwf : ∀ kv ∈ items, wfName ext kv.1) :
    matchedFiles (kindWrites dir ext enc items) dir ext =
      kindWrites dir ext enc items := by
  rw [matchedFiles, List.filter_eq_self]
  intro w hw
  obtain ⟨kv, hkv, rfl⟩ := kindWrites_mem hw
  rw [Bool.and_eq_true, Bool.and_eq_true]
  refine ⟨⟨isPrefixOf_append _ _, ?_⟩, ?_⟩
  · simp only [decide_eq_true_eq, List.length_append]
    have := List.length_pos.mpr (itemFileSegs_ne_nil kv.1 ext)
    omega
  · rw [itemFileSegs_wf _ _ (hwf kv hkv),
        show dir ++ (kv.1.dropLast ++ [kv.1.getLastD "" ++ ext]) =
          (dir ++ kv.1.dropLast) ++ [kv.1.getLastD "" ++ ext] by rw [List.append_assoc],
        List.getLastD_concat]
    exact strEndsWith_append _ _

theorem matched_fresh_nil (fs0 : FS) (out dir : FilePath') (ext : String)
    (hf : freshFor fs0 out) (hod : out.isPrefixOf dir = true) :
    matchedFiles fs0 dir ext = [] := by
  refine matched_nil_outside_dir _ _ _ ?_
  intro w hw
  exact not_isPrefixOf_of_trans out dir w.1 hod (hf w hw)

/-! ## Per-kind extraction of the matched files from a namespace's writes -/

theorem matched_nsWrites_advancements (base : FilePath') (ns : Namespace) (hwf : ns.wf) :
    matchedFiles (nsWrites base ns) (base ++ ["advancements"]) ".json" =
      kindWrites (base ++ ["advancements"]) ".json" Advancement.encode ns.advancements := by
  rw [nsWrites]
  simp only [matched_append]
  rw [      matched_kindWrites_own (base ++ ["advancements"]) ".json" Advancement.encode ns.advancements
        (fun kv hkv => (hwf.1.2 kv hkv).1),
      matched_kindWrites_nil (base ++ ["advancements"]) (base ++ ["functions"]) ".json" ".mcfunction" Function.encode ns.functions
        (fun segs => folder_clash base ["advancements"] ["functions"] segs (by decide) (by decide)),
      matched_kindWrites_nil (base ++ ["advancements"]) (base ++ ["loot_tables"]) ".json" ".json" LootTable.encode ns.loot_tables
        (fun segs => folder_clash base ["advancements"] ["loot_tables"] segs (by decide) (by decide)),
      matched_kindWrites_nil (base ++ ["advancements"]) (base ++ ["recipes"]) ".json" ".json" Recipe.encode ns.recipes
        (fun segs => folder_clash base ["advancements"] ["recipes"] segs (by decide) (by decide)),
      matched_kindWrites_nil (base ++ ["advancements"]) (base ++ ["structures"]) ".json" ".nbt" Structure.encode ns.structures
        (fun segs => folder_clash base ["advancements"] ["structures"] segs (by decide) (by decide)),
      matched_kindWrites_nil (base ++ ["advancements"]) (base ++ ["tags", "blocks"]) ".json" ".json" TagItem.encode ns.block_tags
        (fun segs => folder_clash base ["advancements"] ["tags", "blocks"] segs (by decide) (by decide)),
      matched_kindWrites_nil (base ++ ["advancements"]) (base ++ ["tags", "items"]) ".json" ".json" TagItem.encode ns.item_tags
        (fun segs => folder_clash base ["advancements"] ["tags", "items"] segs (by decide) (by decide)),
      matched_kindWrites_nil (base ++ ["advancements"]) (base ++ ["tags", "fluids"]) ".json" ".json" TagItem.encode ns.fluid_tags
        (fun segs => folder_clash base ["advancements"] ["tags", "fluids"] segs (by decide) (by decide)),
      matched_kindWrites_nil (base ++ ["advancements"]) (base ++ ["tags", "functions"]) ".json" ".json" TagItem.encode ns.function_tags
        (fun segs => folder_clash base ["advancements"] ["tags", "functions"] segs (by decide) (by decide)),
      matched_kindWrites_nil (base ++ ["advancements"]) (base ++ ["tags", "entity_types"]) ".json" ".json" TagItem.encode ns.entity_type_tags
        (fun segs => folder_clash base ["advancements"] ["tags", "entity_types"] segs (by decide) (by decide))]
  simp

theorem matched_nsWrites_functions (base : FilePath') (ns : Namespace) (hwf : ns.wf) :
    matchedFiles (nsWrites base ns) (base ++ ["functions"]) ".mcfunction" =
      kindWrites (base ++ ["functions"]) ".mcfunction" Function.encode ns.functions := by
  rw [nsWrites]
  simp only [matched_append]
  rw [      matched_kindWrites_nil (base ++ ["functions"]) (base ++ ["advancements"]) ".mcfunction" ".json" Advancement.encode ns.advancements
        (fun segs => folder_clash base ["functions"] ["advancements"] segs (by decide) (by decide)),
      matched_kindWrites_own (base ++ ["functions"]) ".mcfunction" Function.encode ns.functions
        (fun kv hkv => (hwf.2.1.2 kv hkv).1),
      matched_kindWrites_nil (base ++ ["functions"]) (base ++ ["loot_tables"]) ".mcfunction" ".json" LootTable.encode ns.loot_tables
        (fun segs => folder_clash base ["functions"] ["loot_tables"] segs (by decide) (by decide)),
      matched_kindWrites_nil (base ++ ["functions"]) (base ++ ["recipes"]) ".mcfunction" ".json" Recipe.encode ns.recipes
        (fun segs => folder_clash base ["functions"] ["recipes"] segs (by decide) (by decide)),
      matched_kindWrites_nil (base ++ ["functions"]) (base ++ ["structures"]) ".mcfunction" ".nbt" Structure.encode ns.structures
        (fun segs => folder_clash base ["functions"] ["structures"] segs (by decide) (by decide)),
      matched_kindWrites_nil (base ++ ["functions"]) (base ++ ["tags", "blocks"]) ".mcfunction" ".json" TagItem.encode ns.block_tags
        (fun segs => folder_clash base ["functions"] ["tags", "blocks"] segs (by decide) (by decide)),
      matched_kindWrites_nil (base ++ ["functions"]) (base ++ ["tags", "items"]) ".mcfunction" ".json" TagItem.encode ns.item_tags
        (fun segs => folder_clash base ["functions"] ["tags", "items"] segs (by decide) (by decide)),
      matched_kindWrites_nil (base ++ ["functions"]) (base ++ ["tags", "fluids"]) ".mcfunction" ".json" TagItem.encode ns.fluid_tags
        (fun segs => folder_clash base ["functions"] ["tags", "fluids"] segs (by decide) (by decide)),
      matched_kindWrites_nil (base ++ ["functions"]) (base ++ ["tags", "functions"]) ".mcfunction" ".json" TagItem.encode ns.function_tags
        (fun segs => folder_clash base ["functions"] ["tags", "functions"] segs (by decide) (by decide)),
      matched_kindWrites_nil (base ++ ["functions"]) (base ++ ["tags", "entity_types"]) ".mcfunction" ".json" TagItem.encode ns.entity_type_tags
        (fun segs => folder_clash base ["functions"] ["tags", "entity_types"] segs (by decide) (by decide))]
  simp

theorem matched_nsWrites_loot_tables (base : FilePath') (ns : Namespace) (hwf : ns.wf) :
    matchedFiles (nsWrites base ns) (base ++ ["loot_tables"]) ".json" =
      kindWrites (base ++ ["loot_tables"]) ".json" LootTable.encode ns.loot_tables := by
  rw [nsWrites]
  simp only [matched_append]
  rw [      matched_kindWrites_nil (base ++ ["loot_tables"]) (base ++ ["advancements"]) ".json" ".json" Advancement.encode ns.advancements
        (fun segs => folder_clash base ["loot_tables"] ["advancements"] segs (by decide) (by decide)),
      matched_kindWrites_nil (base ++ ["loot_tables"]) (base ++ ["functions"]) ".json" ".mcfunction" Function.encode ns.functions
        (fun segs => folder_clash base ["loot_tables"] ["functions"] segs (by decide) (by decide)),
      matched_kindWrites_own (base ++ ["loot_tables"]) ".json" LootTable.encode ns.loot_tables
        (fun kv hkv => (hwf.2.2.1.2 kv hkv).1),
      matched_kindWrites_nil (base ++ ["loot_tables"]) (base ++ ["recipes"]) ".json" ".json" Recipe.encode ns.recipes
        (fun segs => folder_clash base ["loot_tables"] ["recipes"] segs (by decide) (by decide)),
      matched_kindWrites_nil (base ++ ["loot_tables"]) (base ++ ["structures"]) ".json" ".nbt" Structure.encode ns.structures
        (fun segs => folder_clash base ["loot_tables"] ["structures"] segs (by decide) (by decide)),
      matched_kindWrites_nil (base ++ ["loot_tables"]) (base ++ ["tags", "blocks"]) ".json" ".json" TagItem.encode ns.block_tags
        (fun segs => folder_clash base ["loot_tables"] ["tags", "blocks"] segs (by decide) (by decide)),
      matched_kindWrites_nil (base ++ ["loot_tables"]) (base ++ ["tags", "items"]) ".json" ".json" TagItem.encode ns.item_tags
        (fun segs => folder_clash base ["loot_tables"] ["tags", "items"] segs (by decide) (by decide)),
      matched_kindWrites_nil (base ++ ["loot_tables"]) (base ++ ["tags", "fluids"]) ".json" ".json" TagItem.encode ns.fluid_tags
        (fun segs => folder_clash base ["loot_tables"] ["tags", "fluids"] segs (by decide) (by decide)),
      matched_kindWrites_nil (base ++ ["loot_tables"]) (base ++ ["tags", "functions"]) ".json" ".json" TagItem.encode ns.function_tags
        (fun segs => folder_clash base ["loot_tables"] ["tags", "functions"] segs (by decide) (by decide)),
      matched_kindWrites_nil (base ++ ["loot_tables"]) (base ++ ["tags", "entity_types"]) ".json" ".json" TagItem.encode ns.entity_type_tags
        (fun segs => folder_clash base ["loot_tables"] ["tags", "entity_types"] segs (by decide) (by decide))]
  simp

theorem matched_nsWrites_recipes (base : FilePath') (ns : Namespace) (hwf : ns.wf) :
    matchedFiles (nsWrites base ns) (base ++ ["recipes"]) ".json" =
      kindWrites (base ++ ["recipes"]) ".json" Recipe.encode ns.recipes := by
  rw [nsWrites]
  simp only [matched_append]
  rw [      matched_kindWrites_nil (base ++ ["recipes"]) (base ++ ["advancements"]) ".json" ".json" Advancement.encode ns.advancements
        (fun segs => folder_clash base ["recipes"] ["advancements"] segs (by decide) (by decide)),
      matched_kindWrites_nil (base ++ ["recipes"]) (base ++ ["functions"]) ".json" ".mcfunction" Function.encode ns.functions
        (fun segs => folder_clash base ["recipes"] ["functions"] segs (by decide) (by decide)),
      matched_kindWrites_nil (base ++ ["recipes"]) (base ++ ["loot_tables"]) ".json" ".json" LootTable.encode ns.loot_tables
        (fun segs => folder_clash base ["recipes"] ["loot_tables"] segs (by decide) (by decide)),
      matched_kindWrites_own (base ++ ["recipes"]) ".json" Recipe.encode ns.recipes
        (fun kv hkv => (hwf.2.2.2.1.2 kv hkv).1),
      matched_kindWrites_nil (base ++ ["recipes"]) (base ++ ["structures"]) ".json" ".nbt" Structure.encode ns.structures
        (fun segs => folder_clash base ["recipes"] ["structures"] segs (by decide) (by decide)),
      matched_kindWrites_nil (base ++ ["recipes"]) (base ++ ["tags", "blocks"]) ".json" ".json" TagItem.encode ns.block_tags
        (fun segs => folder_clash base ["recipes"] ["tags", "blocks"] segs (by decide) (by decide)),
      matched_kindWrites_nil (base ++ ["recipes"]) (base ++ ["tags", "items"]) ".json" ".json" TagItem.encode ns.item_tags
        (fun segs => folder_clash base ["recipes"] ["tags", "items"] segs (by decide) (by decide)),
      matched_kindWrites_nil (base ++ ["recipes"]) (base ++ ["tags", "fluids"]) ".json" ".json" TagItem.encode ns.fluid_tags
        (fun segs => folder_clash base ["recipes"] ["tags", "fluids"] segs (by decide) (by decide)),
      matched_kindWrites_nil (base ++ ["recipes"]) (base ++ ["tags", "functions"]) ".json" ".json" TagItem.encode ns.function_tags
        (fun segs => folder_clash base ["recipes"] ["tags", "functions"] segs (by decide) (by decide)),
      matched_kindWrites_nil (base ++ ["recipes"]) (base ++ ["tags", "entity_types"]) ".json" ".json" TagItem.encode ns.entity_type_tags
        (fun segs => folder_clash base ["recipes"] ["tags", "entity_types"] segs (by decide) (by decide))]
  simp

theorem matched_nsWrites_structures (base : FilePath') (ns : Namespace) (hwf : ns.wf) :
    matchedFiles (nsWrites base ns) (base ++ ["structures"]) ".nbt" =
      kindWrites (base ++ ["structures"]) ".nbt" Structure.encode ns.structures := by
  rw [nsWrites]
  simp only [matched_append]
  rw [      matched_kindWrites_nil (base ++ ["structures"]) (base ++ ["advancements"]) ".nbt" ".json" Advancement.encode ns.advancements
        (fun segs => folder_clash base ["structures"] ["advancements"] segs (by decide) (by decide)),
      matched_kindWrites_nil (base ++ ["structures"]) (base ++ ["functions"]) ".nbt" ".mcfunction" Function.encode ns.functions
        (fun segs => folder_clash base ["structures"] ["functions"] segs (by decide) (by decide)),
      matched_kindWrites_nil (base ++ ["structures"]) (base ++ ["loot_tables"]) ".nbt" ".json" LootTable.encode ns.loot_tables
        (fun segs => folder_clash base ["structures"] ["loot_tables"] segs (by decide) (by decide)),
      matched_kindWrites_nil (base ++ ["structures"]) (base ++ ["recipes"]) ".nbt" ".json" Recipe.encode ns.recipes
        (fun segs => folder_clash base ["structures"] ["recipes"] segs (by decide) (by decide)),
      matched_kindWrites_own (base ++ ["structures"]) ".nbt" Structure.encode ns.structures
        (fun kv hkv => (hwf.2.2.2.2.1.2 kv hkv).1),
      matched_kindWrites_nil (base ++ ["structures"]) (base ++ ["tags", "blocks"]) ".nbt" ".json" TagItem.encode ns.block_tags
        (fun segs => folder_clash base ["structures"] ["tags", "blocks"] segs (by decide) (by decide)),
      matched_kindWrites_nil (base ++ ["structures"]) (base ++ ["tags", "items"]) ".nbt" ".json" TagItem.encode ns.item_tags
        (fun segs => folder_clash base ["structures"] ["tags", "items"] segs (by decide) (by decide)),
      matched_kindWrites_nil (base ++ ["structures"]) (base ++ ["tags", "fluids"]) ".nbt" ".json" TagItem.encode ns.fluid_tags
        (fun segs => folder_clash base ["structures"] ["tags", "fluids"] segs (by decide) (by decide)),
      matched_kindWrites_nil (base ++ ["structures"]) (base ++ ["tags", "functions"]) ".nbt" ".json" TagItem.encode ns.function_tags
        (fun segs => folder_clash base ["structures"] ["tags", "functions"] segs (by decide) (by decide)),
      matched_kindWrites_nil (base ++ ["structures"]) (base ++ ["tags", "entity_types"]) ".nbt" ".json" TagItem.encode ns.entity_type_tags
        (fun segs => folder_clash base ["structures"] ["tags", "entity_types"] segs (by decide) (by decide))]
  simp

theorem matched_nsWrites_block_tags (base : FilePath') (ns : Namespace) (hwf : ns.wf) :
    matchedFiles (nsWrites base ns) (base ++ ["tags", "blocks"]) ".json" =
      kindWrites (base ++ ["tags", "blocks"]) ".json" TagItem.encode ns.block_tags := by
  rw [nsWrites]
  simp only [matched_append]
  rw [      matched_kindWrites_nil (base ++ ["tags", "blocks"]) (base ++ ["advancements"]) ".json" ".json" Advancement.encode ns.advancements
        (fun segs => folder_clash base ["tags", "blocks"] ["advancements"] segs (by decide) (by decide)),
      matched_kindWrites_nil (base ++ ["tags", "blocks"]) (base ++ ["functions"]) ".json" ".mcfunction" Function.encode ns.functions
        (fun segs => folder_clash base ["tags", "blocks"] ["functions"] segs (by decide) (by decide)),
      matched_kindWrites_nil (base ++ ["tags", "blocks"]) (base ++ ["loot_tables"]) ".json" ".json" LootTable.encode ns.loot_tables
        (fun segs => folder_clash base ["tags", "blocks"] ["loot_tables"] segs (by decide) (by decide)),
      matched_kindWrites_nil (base ++ ["tags", "blocks"]) (base ++ ["recipes"]) ".json" ".json" Recipe.encode ns.recipes
        (fun segs => folder_clash base ["tags", "blocks"] ["recipes"] segs (by decide) (by decide)),
      matched_kindWrites_nil (base ++ ["tags", "blocks"]) (base ++ ["structures"]) ".json" ".nbt" Structure.encode ns.structures
        (fun segs => folder_clash base ["tags", "blocks"] ["structures"] segs (by decide) (by decide)),
      matched_kindWrites_own (base ++ ["tags", "blocks"]) ".json" TagItem.encode ns.block_tags
        (fun kv hkv => (hwf.2.2.2.2.2.1.2 kv hkv).1),
      matched_kindWrites_nil (base ++ ["tags", "blocks"]) (base ++ ["tags", "items"]) ".json" ".json" TagItem.encode ns.item_tags
        (fun segs => folder_clash base ["tags", "blocks"] ["tags", "items"] segs (by decide) (by decide)),
      matched_kindWrites_nil (base ++ ["tags", "blocks"]) (base ++ ["tags", "fluids"]) ".json" ".json" TagItem.encode ns.fluid_tags
        (fun segs => folder_clash base ["tags", "blocks"] ["tags", "fluids"] segs (by decide) (by decide)),
      matched_kindWrites_nil (base ++ ["tags", "blocks"]) (base ++ ["tags", "functions"]) ".json" ".json" TagItem.encode ns.function_tags
        (fun segs => folder_clash base ["tags", "blocks"] ["tags", "functions"] segs (by decide) (by decide)),
      matched_kindWrites_nil (base ++ ["tags", "blocks"]) (base ++ ["tags", "entity_types"]) ".json" ".json" TagItem.encode ns.entity_type_tags
        (fun segs => folder_clash base ["tags", "blocks"] ["tags", "entity_types"] segs (by decide) (by decide))]
  simp

theorem matched_nsWrites_item_tags (base : FilePath') (ns : Namespace) (hwf : ns.wf) :
    matchedFiles (nsWrites base ns) (base ++ ["tags", "items"]) ".json" =
      kindWrites (base ++ ["tags", "items"]) ".json" TagItem.encode ns.item_tags := by
  rw [nsWrites]
  simp only [matched_append]
  rw [      matched_kindWrites_nil (base ++ ["tags", "items"]) (base ++ ["advancements"]) ".json" ".json" Advancement.encode ns.advancements
        (fun segs => folder_clash base ["tags", "items"] ["advancements"] segs (by decide) (by decide)),
      matched_kindWrites_nil (base ++ ["tags", "items"]) (base ++ ["functions"]) ".json" ".mcfunction" Function.encode ns.functions
        (fun segs => folder_clash base ["tags", "items"] ["functions"] segs (by decide) (by decide)),
      matched_kindWrites_nil (base ++ ["tags", "items"]) (base ++ ["loot_tables"]) ".json" ".json" LootTable.encode ns.loot_tables
        (fun segs => folder_clash base ["tags", "items"] ["loot_tables"] segs (by decide) (by decide)),
      matched_kindWrites_nil (base ++ ["tags", "items"]) (base ++ ["recipes"]) ".json" ".json" Recipe.encode ns.recipes
        (fun segs => folder_clash base ["tags", "items"] ["recipes"] segs (by decide) (by decide)),
      matched_kindWrites_nil (base ++ ["tags", "items"]) (base ++ ["structures"]) ".json" ".nbt" Structure.encode ns.structures
        (fun segs => folder_clash base ["tags", "items"] ["structures"] segs (by decide) (by decide)),
      matched_kindWrites_nil (base ++ ["tags", "items"]) (base ++ ["tags", "blocks"]) ".json" ".json" TagItem.encode ns.block_tags
        (fun segs => folder_clash base ["tags", "items"] ["tags", "blocks"] segs (by decide) (by decide)),
      matched_kindWrites_own (base ++ ["tags", "items"]) ".json" TagItem.encode ns.item_tags
        (fun kv hkv => (hwf.2.2.2.2.2.2.1.2 kv hkv).1),
      matched_kindWrites_nil (base ++ ["tags", "items"]) (base ++ ["tags", "fluids"]) ".json" ".json" TagItem.encode ns.fluid_tags
        (fun segs => folder_clash base ["tags", "items"] ["tags", "fluids"] segs (by decide) (by decide)),
      matched_kindWrites_nil (base ++ ["tags", "items"]) (base ++ ["tags", "functions"]) ".json" ".json" TagItem.encode ns.function_tags
        (fun segs => folder_clash base ["tags", "items"] ["tags", "functions"] segs (by decide) (by decide)),
      matched_kindWrites_nil (base ++ ["tags", "items"]) (base ++ ["tags", "entity_types"]) ".json" ".json" TagItem.encode ns.entity_type_tags
        (fun segs => folder_clash base ["tags", "items"] ["tags", "entity_types"] segs (by decide) (by decide))]
  simp

theorem matched_nsWrites_fluid_tags (base : FilePath') (ns : Namespace) (hwf : ns.wf) :
    matchedFiles (nsWrites base ns) (base ++ ["tags", "fluids"]) ".json" =
      kindWrites (base ++ ["tags", "fluids"]) ".json" TagItem.encode ns.fluid_tags := by
  rw [nsWrites]
  simp only [matched_append]
  rw [      matched_kindWrites_nil (base ++ ["tags", "fluids"]) (base ++ ["advancements"]) ".json" ".json" Advancement.encode ns.advancements
        (fun segs => folder_clash base ["tags", "fluids"] ["advancements"] segs (by decide) (by decide)),
      matched_kindWrites_nil (base ++ ["tags", "fluids"]) (base ++ ["functions"]) ".json" ".mcfunction" Function.encode ns.functions
        (fun segs => folder_clash base ["tags", "fluids"] ["functions"] segs (by decide) (by decide)),
      matched_kindWrites_nil (base ++ ["tags", "fluids"]) (base ++ ["loot_tables"]) ".json" ".json" LootTable.encode ns.loot_tables
        (fun segs => folder_clash base ["tags", "fluids"] ["loot_tables"] segs (by decide) (by decide)),
      matched_kindWrites_nil (base ++ ["tags", "fluids"]) (base ++ ["recipes"]) ".json" ".json" Recipe.encode ns.recipes
        (fun segs => folder_clash base ["tags", "fluids"] ["recipes"] segs (by decide) (by decide)),
      matched_kindWrites_nil (base ++ ["tags", "fluids"]) (base ++ ["structures"]) ".json" ".nbt" Structure.encode ns.structures
        (fun segs => folder_clash base ["tags", "fluids"] ["structures"] segs (by decide) (by decide)),
      matched_kindWrites_nil (base ++ ["tags", "fluids"]) (base ++ ["tags", "blocks"]) ".json" ".json" TagItem.encode ns.block_tags
        (fun segs => folder_clash base ["tags", "fluids"] ["tags", "blocks"] segs (by decide) (by decide)),
      matched_kindWrites_nil (base ++ ["tags", "fluids"]) (base ++ ["tags", "items"]) ".json" ".json" TagItem.encode ns.item_tags
        (fun segs => folder_clash base ["tags", "fluids"] ["tags", "items"] segs (by decide) (by decide)),
      matched_kindWrites_own (base ++ ["tags", "fluids"]) ".json" TagItem.encode ns.fluid_tags
        (fun kv hkv => (hwf.2.2.2.2.2.2.2.1.2 kv hkv).1),
      matched_kindWrites_nil (base ++ ["tags", "fluids"]) (base ++ ["tags", "functions"]) ".json" ".json" TagItem.encode ns.function_tags
        (fun segs => folder_clash base ["tags", "fluids"] ["tags", "functions"] segs (by decide) (by decide)),
      matched_kindWrites_nil (base ++ ["tags", "fluids"]) (base ++ ["tags", "entity_types"]) ".json" ".json" TagItem.encode ns.entity_type_tags
        (fun segs => folder_clash base ["tags", "fluids"] ["tags", "entity_types"] segs (by decide) (by decide))]
  simp

theorem matched_nsWrites_function_tags (base : FilePath') (ns : Namespace) (hwf : ns.wf) :
    matchedFiles (nsWrites base ns) (base ++ ["tags", "functions"]) ".json" =
      kindWrites (base ++ ["tags", "functions"]) ".json" TagItem.encode ns.function_tags := by
  rw [nsWrites]
  simp only [matched_append]
  rw [      matched_kindWrites_nil (base ++ ["tags", "functions"]) (base ++ ["advancements"]) ".json" ".json" Advancement.encode ns.advancements
        (fun segs => folder_clash base ["tags", "functions"] ["advancements"] segs (by decide) (by decide)),
      matched_kindWrites_nil (base ++ ["tags", "functions"]) (base ++ ["functions"]) ".json" ".mcfunction" Function.encode ns.functions
        (fun segs => folder_clash base ["tags", "functions"] ["functions"] segs (by decide) (by decide)),
      matched_kindWrites_nil (base ++ ["tags", "functions"]) (base ++ ["loot_tables"]) ".json" ".json" LootTable.encode ns.loot_tables
        (fun segs => folder_clash base ["tags", "functions"] ["loot_tables"] segs (by decide) (by decide)),
      matched_kindWrites_nil (base ++ ["tags", "functions"]) (base ++ ["recipes"]) ".json" ".json" Recipe.encode ns.recipes
        (fun segs => folder_clash base ["tags", "functions"] ["recipes"] segs (by decide) (by decide)),
      matched_kindWrites_nil (base ++ ["tags", "functions"]) (base ++ ["structures"]) ".json" ".nbt" Structure.encode ns.structures
        (fun segs => folder_clash base ["tags", "functions"] ["structures"] segs (by decide) (by decide)),
      matched_kindWrites_nil (base ++ ["tags", "functions"]) (base ++ ["tags", "blocks"]) ".json" ".json" TagItem.encode ns.block_tags
        (fun segs => folder_clash base ["tags", "functions"] ["tags", "blocks"] segs (by decide) (by decide)),
      matched_kindWrites_nil (base ++ ["tags", "functions"]) (base ++ ["tags", "items"]) ".json" ".json" TagItem.encode ns.item_tags
        (fun segs => folder_clash base ["tags", "functions"] ["tags", "items"] segs (by decide) (by decide)),
      matched_kindWrites_nil (base ++ ["tags", "functions"]) (base ++ ["tags", "fluids"]) ".json" ".json" TagItem.encode ns.fluid_tags
        (fun segs => folder_clash base ["tags", "functions"] ["tags", "fluids"] segs (by decide) (by decide)),
      matched_kindWrites_own (base ++ ["tags", "functions"]) ".json" TagItem.encode ns.function_tags
        (fun kv hkv => (hwf.2.2.2.2.2.2.2.2.1.2 kv hkv).1),
      matched_kindWrites_nil (base ++ ["tags", "functions"]) (base ++ ["tags", "entity_types"]) ".json" ".json" TagItem.encode ns.entity_type_tags
        (fun segs => folder_clash base ["tags", "functions"] ["tags", "entity_types"] segs (by decide) (by decide))]
  simp

theorem matched_nsWrites_entity_type_tags (base : FilePath') (ns : Namespace) (hwf : ns.wf) :
    matchedFiles (nsWrites base ns) (base ++ ["tags", "entity_types"]) ".json" =
      kindWrites (base ++ ["tags", "entity_types"]) ".json" TagItem.encode ns.entity_type_tags := by
  rw [nsWrites]
  simp only [matched_append]
  rw [      matched_kindWrites_nil (base ++ ["tags", "entity_types"]) (base ++ ["advancements"]) ".json" ".json" Advancement.encode ns.advancements
        (fun segs => folder_clash base ["tags", "entity_types"] ["advancements"] segs (by decide) (by decide)),
      matched_kindWrites_nil (base ++ ["tags", "entity_types"]) (base ++ ["functions"]) ".json" ".mcfunction" Function.encode ns.functions
        (fun segs => folder_clash base ["tags", "entity_types"] ["functions"] segs (by decide) (by decide)),
      matched_kindWrites_nil (base ++ ["tags", "entity_types"]) (base ++ ["loot_tables"]) ".json" ".json" LootTable.encode ns.loot_tables
        (fun segs => folder_clash base ["tags", "entity_types"] ["loot_tables"] segs (by decide) (by decide)),
      matched_kindWrites_nil (base ++ ["tags", "entity_types"]) (base ++ ["recipes"]) ".json" ".json" Recipe.encode ns.recipes
        (fun segs => folder_clash base ["tags", "entity_types"] ["recipes"] segs (by decide) (by decide)),
      matched_kindWrites_nil (base ++ ["tags", "entity_types"]) (base ++ ["structures"]) ".json" ".nbt" Structure.encode ns.structures
        (fun segs => folder_clash base ["tags", "entity_types"] ["structures"] segs (by decide) (by decide)),
      matched_kindWrites_nil (base ++ ["tags", "entity_types"]) (base ++ ["tags", "blocks"]) ".json" ".json" TagItem.encode ns.block_tags
        (fun segs => folder_clash base ["tags", "entity_types"] ["tags", "blocks"] segs (by decide) (by decide)),
      matched_kindWrites_nil (base ++ ["tags", "entity_types"]) (base ++ ["tags", "items"]) ".json" ".json" TagItem.encode ns.item_tags
        (fun segs => folder_clash base ["tags", "entity_types"] ["tags", "items"] segs (by decide) (by decide)),
      matched_kindWrites_nil (base ++ ["tags", "entity_types"]) (base ++ ["tags", "fluids"]) ".json" ".json" TagItem.encode ns.fluid_tags
        (fun segs => folder_clash base ["tags", "entity_types"] ["tags", "fluids"] segs (by decide) (by decide)),
      matched_kindWrites_nil (base ++ ["tags", "entity_types"]) (base ++ ["tags", "functions"]) ".json" ".json" TagItem.encode ns.function_tags
        (fun segs => folder_clash base ["tags", "entity_types"] ["tags", "functions"] segs (by decide) (by decide)),
      matched_kindWrites_own (base ++ ["tags", "entity_types"]) ".json" TagItem.encode ns.entity_type_tags
        (fun kv hkv => (hwf.2.2.2.2.2.2.2.2.2.2 kv hkv).1)]
  simp

theorem nsWrites_mem_shape {base : FilePath'} {ns : Namespace}
    {w : FilePath' × FileData} (hw : w ∈ nsWrites base ns) :
    ∃ f segs, f ∈ kindFolderList ∧ w.1 = (base ++ f) ++ segs := by
  rw [nsWrites] at hw
  simp only [List.mem_append] at hw
  rcases hw with ((((((((h | h) | h) | h) | h) | h) | h) | h) | h) | h <;>
    · obtain ⟨kv, hkv, rfl⟩ := kindWrites_mem h
      exact ⟨_, _, by simp [kindFolderList], rfl⟩

theorem matched_chunks_nil (out : FilePath') (n : String) (f : FilePath')
    (ext : String) (nss : List (String × Namespace))
    (h : ∀ kv ∈ nss, kv.1 ≠ n) :
    matchedFiles ((nss.map (fun kv => nsWrites (out ++ ["data", kv.1]) kv.2)).flatten)
      ((out ++ ["data", n]) ++ f) ext = [] := by
  induction nss with
  | nil => rfl
  | cons kv tl ih =>
    rw [List.map_cons, List.flatten_cons, matched_append,
        ih (fun kv' hkv' => h kv' (List.mem_cons_of_mem _ hkv')), List.append_nil]
    refine matched_nil_outside_dir _ _ _ ?_
    intro w hw
    obtain ⟨f', segs, -, hshape⟩ := nsWrites_mem_shape hw
    rw [hshape]
    exact ns_dir_clash out n kv.1 f f' segs
      (fun hc => h kv (List.mem_cons_self _ _) hc.symm)

theorem matched_chunks_own (out : FilePath') (n : String) (NS : Namespace)
    (f : FilePath') (ext : String) (nss : List (String × Namespace))
    (hnd : (nss.map Prod.fst).Nodup) (hmem : (n, NS) ∈ nss) :
    matchedFiles ((nss.map (fun kv => nsWrites (out ++ ["data", kv.1]) kv.2)).flatten)
      ((out ++ ["data", n]) ++ f) ext =
      matchedFiles (nsWrites (out ++ ["data", n]) NS)
        ((out ++ ["data", n]) ++ f) ext := by
  induction nss with
  | nil => cases hmem
  | cons kv tl ih =>
    rw [List.map_cons, List.flatten_cons, matched_append]
    rw [List.map_cons, List.nodup_cons] at hnd
    rcases List.mem_cons.mp hmem with heq | hmemtl
    · have hk1 : kv.1 = n := by rw [← heq]
      have hkeys : ∀ kv' ∈ tl, kv'.1 ≠ n := by
        intro kv' hkv' hc
        have hmm : kv'.1 ∈ List.map Prod.fst tl := List.mem_map_of_mem Prod.fst hkv'
        rw [hc, ← hk1] at hmm
        exact hnd.1 hmm
      rw [matched_chunks_nil out n f ext tl hkeys, List.append_nil, ← heq]
    · have hne : kv.1 ≠ n := by
        intro hc
        exact hnd.1 (hc ▸ List.mem_map_of_mem Prod.fst hmemtl)
      rw [matched_nil_outside_dir _ _ _ (by
          intro w hw
          obtain ⟨f', segs, -, hshape⟩ := nsWrites_mem_shape hw
          rw [hshape]
          exact ns_dir_clash out n kv.1 f f' segs (fun hc => hne hc.symm)),
        List.nil_append]
      exact ih hnd.2 hmemtl

theorem matched_packWrites (p : DataPack) (out : FilePath') (n : String)
    (NS : Namespace) (f : FilePath') (ext : String)
    (hnd : (p.namespaces.map Prod.fst).Nodup)
    (hmem : (n, NS) ∈ p.namespaces) :
    matchedFiles (packWrites p out) ((out ++ ["data", n]) ++ f) ext =
      matchedFiles (nsWrites (out ++ ["data", n]) NS)
        ((out ++ ["data", n]) ++ f) ext := by
  rw [packWrites, show ((out ++ ["pack.mcmeta"], FileData.json p.mcmeta) ::
      (p.namespaces.map (fun kv => nsWrites (out ++ ["data", kv.1]) kv.2)).flatten) =
      [(out ++ ["pack.mcmeta"], FileData.json p.mcmeta)] ++
      (p.namespaces.map (fun kv => nsWrites (out ++ ["data", kv.1]) kv.2)).flatten
      from rfl,
      matched_append,
      matched_nil_outside_dir _ _ _ (by
        intro w hw
        rw [List.mem_singleton] at hw
        rw [hw]
        exact mcmeta_clash out n f),
      List.nil_append]
  exact matched_chunks_own out n NS f ext p.namespaces hnd hmem

theorem extOk_json : extOk ".json" :=
  ⟨['j', 's', 'o', 'n'], by decide, by decide, by decide⟩

theorem extOk_mcfunction : extOk ".mcfunction" :=
  ⟨['m', 'c', 'f', 'u', 'n', 'c', 't', 'i', 'o', 'n'], by decide, by decide, by decide⟩

theorem extOk_nbt : extOk ".nbt" :=
  ⟨['n', 'b', 't'], by decide, by decide, by decide⟩

/-- Scanning exactly one kind's freshly written files decodes them all back
into the original dict. -/
theorem loadKind_roundtrip {α : Type _} (fs : FS) (dir : FilePath') (ext : String)
    (dec : FileData → Option α) (enc : α → FileData)
    (items : List (List String × α))
    (hm : matchedFiles fs dir ext = kindWrites dir ext enc items)
    (hdec : ∀ kv ∈ items, dec (enc kv.2) = some kv.2)
    (hwf : ∀ kv ∈ items, wfName ext kv.1)
    (hnd : (items.map Prod.fst).Nodup)
    (hext : extOk ext) :
    loadKind fs dir ext dec = some items := by
  rw [loadKind, hm]
  suffices h : ∀ (its acc : List (List String × α)),
      (∀ kv ∈ its, dec (enc kv.2) = some kv.2) →
      (∀ kv ∈ its, wfName ext kv.1) →
      (its.map Prod.fst).Nodup →
      (∀ kv ∈ its, ∀ kv' ∈ acc, kv'.1 ≠ kv.1) →
      List.foldlM (fun acc e => (dec e.2).map
        (fun it => pyInsert acc (reconstructName dir e.1) it)) acc
        (kindWrites dir ext enc its) = some (acc ++ its) by
    simpa using h items [] hdec hwf hnd (by intro kv _ kv' h'; cases h')
  intro its
  induction its with
  | nil =>
    intro acc _ _ _ _
    simp [kindWrites]
  | cons kv tl ih =>
    intro acc hdec' hwf' hnd' hfresh'
    rw [kindWrites, List.map_cons, List.foldlM_cons]
    rw [hdec' kv (List.mem_cons_self _ _)]
    rw [show Option.map (fun it => pyInsert acc
          (reconstructName dir (dir ++ itemFileSegs kv.1 ext)) it) (some kv.2) =
        some (pyInsert acc (reconstructName dir (dir ++ itemFileSegs kv.1 ext)) kv.2)
        from rfl]
    rw [reconstructName_roundtrip dir kv.1 ext (hwf' kv (List.mem_cons_self _ _)) hext]
    rw [pyInsert_fresh acc kv.1 kv.2 (fun kv' hkv' =>
      hfresh' kv (List.mem_cons_self _ _) kv' hkv')]
    show List.foldlM (fun acc e => (dec e.2).map
          (fun it => pyInsert acc (reconstructName dir e.1) it))
          (acc ++ [(kv.1, kv.2)]) (kindWrites dir ext enc tl) =
        some (acc ++ kv :: tl)
    rw [ih (acc ++ [(kv.1, kv.2)])
      (fun kv' hkv' => hdec' kv' (List.mem_cons_of_mem _ hkv'))
      (fun kv' hkv' => hwf' kv' (List.mem_cons_of_mem _ hkv'))
      (by rw [List.map_cons, List.nodup_cons] at hnd'; exact hnd'.2)
      (by
        intro kv2 hkv2 kv' hkv'
        rcases List.mem_append.mp hkv' with h' | h'
        · exact hfresh' kv2 (List.mem_cons_of_mem _ hkv2) kv' h'
        · rw [List.mem_singleton] at h'
          subst h'
          intro hc
          rw [List.map_cons, List.nodup_cons] at hnd'
          exact hnd'.1 (hc ▸ List.mem_map_of_mem Prod.fst hkv2))]
    simp

/-- Loading a namespace directory from the dumped tree restores the
namespace exactly. -/
theorem ns_load_packWrites (fs0 : FS) (p : DataPack) (out : FilePath')
    (n : String) (NS : Namespace)
    (hfresh : freshFor fs0 out)
    (hnd : (p.namespaces.map Prod.fst).Nodup)
    (hmem : (n, NS) ∈ p.namespaces)
    (hwfNS : NS.wf) :
    Namespace.load (fs0 ++ packWrites p out) (out ++ ["data", n]) = some NS := by
  have hm0 : matchedFiles (fs0 ++ packWrites p out)
      ((out ++ ["data", n]) ++ ["advancements"]) ".json" =
      kindWrites ((out ++ ["data", n]) ++ ["advancements"]) ".json" Advancement.encode NS.advancements := by
    rw [matched_append,
        matched_fresh_nil fs0 out _ ".json" hfresh (by
          rw [List.append_assoc]
          exact isPrefixOf_append _ _),
        List.nil_append,
        matched_packWrites p out n NS ["advancements"] ".json" hnd hmem,
        matched_nsWrites_advancements _ NS hwfNS]
  have hl0 : loadKind (fs0 ++ packWrites p out)
      ((out ++ ["data", n]) ++ ["advancements"]) ".json" Advancement.decode = some NS.advancements :=
    loadKind_roundtrip _ _ _ _ Advancement.encode _ hm0
      (fun kv hkv => Advancement.decode_encode_adv kv.2 (hwfNS.1.2 kv hkv).2)
      (fun kv hkv => (hwfNS.1.2 kv hkv).1)
      hwfNS.1.1 extOk_json
  have hm1 : matchedFiles (fs0 ++ packWrites p out)
      ((out ++ ["data", n]) ++ ["functions"]) ".mcfunction" =
      kindWrites ((out ++ ["data", n]) ++ ["functions"]) ".mcfunction" Function.encode NS.functions := by
    rw [matched_append,
        matched_fresh_nil fs0 out _ ".mcfunction" hfresh (by
          rw [List.append_assoc]
          exact isPrefixOf_append _ _),
        List.nil_append,
        matched_packWrites p out n NS ["functions"] ".mcfunction" hnd hmem,
        matched_nsWrites_functions _ NS hwfNS]
  have hl1 : loadKind (fs0 ++ packWrites p out)
      ((out ++ ["data", n]) ++ ["functions"]) ".mcfunction" Function.decode = some NS.functions :=
    loadKind_roundtrip _ _ _ _ Function.encode _ hm1
      (fun kv hkv => Function.decode_encode_fn kv.2)
      (fun kv hkv => (hwfNS.2.1.2 kv hkv).1)
      hwfNS.2.1.1 extOk_mcfunction
  have hm2 : matchedFiles (fs0 ++ packWrites p out)
      ((out ++ ["data", n]) ++ ["loot_tables"]) ".json" =
      kindWrites ((out ++ ["data", n]) ++ ["loot_tables"]) ".json" LootTable.encode NS.loot_tables := by
    rw [matched_append,
        matched_fresh_nil fs0 out _ ".json" hfresh (by
          rw [List.append_assoc]
          exact isPrefixOf_append _ _),
        List.nil_append,
        matched_packWrites p out n NS ["loot_tables"] ".json" hnd hmem,
        matched_nsWrites_loot_tables _ NS hwfNS]
  have hl2 : loadKind (fs0 ++ packWrites p out)
      ((out ++ ["data", n]) ++ ["loot_tables"]) ".json" LootTable.decode = some NS.loot_tables :=
    loadKind_roundtrip _ _ _ _ LootTable.encode _ hm2
      (fun kv hkv => LootTable.decode_encode_loot kv.2 (hwfNS.2.2.1.2 kv hkv).2.1 (hwfNS.2.2.1.2 kv hkv).2.2)
      (fun kv hkv => (hwfNS.2.2.1.2 kv hkv).1)
      hwfNS.2.2.1.1 extOk_json
  have hm3 : matchedFiles (fs0 ++ packWrites p out)
      ((out ++ ["data", n]) ++ ["recipes"]) ".json" =
      kindWrites ((out ++ ["data", n]) ++ ["recipes"]) ".json" Recipe.encode NS.recipes := by
    rw [matched_append,
        matched_fresh_nil fs0 out _ ".json" hfresh (by
          rw [List.append_assoc]
          exact isPrefixOf_append _ _),
        List.nil_append,
        matched_packWrites p out n NS ["recipes"] ".json" hnd hmem,
        matched_nsWrites_recipes _ NS hwfNS]
  have hl3 : loadKind (fs0 ++ packWrites p out)
      ((out ++ ["data", n]) ++ ["recipes"]) ".json" Recipe.decode = some NS.recipes :=
    loadKind_roundtrip _ _ _ _ Recipe.encode _ hm3
      (fun kv hkv => Recipe.decode_encode_recipe kv.2 (hwfNS.2.2.2.1.2 kv hkv).2.1 (hwfNS.2.2.2.1.2 kv hkv).2.2.1 (hwfNS.2.2.2.1.2 kv hkv).2.2.2.1 (hwfNS.2.2.2.1.2 kv hkv).2.2.2.2)
      (fun kv hkv => (hwfNS.2.2.2.1.2 kv hkv).1)
      hwfNS.2.2.2.1.1 extOk_json
  have hm4 : matchedFiles (fs0 ++ packWrites p out)
      ((out ++ ["data", n]) ++ ["structures"]) ".nbt" =
      kindWrites ((out ++ ["data", n]) ++ ["structures"]) ".nbt" Structure.encode NS.structures := by
    rw [matched_append,
        matched_fresh_nil fs0 out _ ".nbt" hfresh (by
          rw [List.append_assoc]
          exact isPrefixOf_append _ _),
        List.nil_append,
        matched_packWrites p out n NS ["structures"] ".nbt" hnd hmem,
        matched_nsWrites_structures _ NS hwfNS]
  have hl4 : loadKind (fs0 ++ packWrites p out)
      ((out ++ ["data", n]) ++ ["structures"]) ".nbt" Structure.decode = some NS.structures :=
    loadKind_roundtrip _ _ _ _ Structure.encode _ hm4
      (fun kv hkv => Structure.decode_encode_default kv.2 (hwfNS.2.2.2.2.1.2 kv hkv).2)
      (fun kv hkv => (hwfNS.2.2.2.2.1.2 kv hkv).1)
      hwfNS.2.2.2.2.1.1 extOk_nbt
  have hm5 : matchedFiles (fs0 ++ packWrites p out)
      ((out ++ ["data", n]) ++ ["tags", "blocks"]) ".json" =
      kindWrites ((out ++ ["data", n]) ++ ["tags", "blocks"]) ".json" TagItem.encode NS.block_tags := by
    rw [matched_append,
        matched_fresh_nil fs0 out _ ".json" hfresh (by
          rw [List.append_assoc]
          exact isPrefixOf_append _ _),
        List.nil_append,
        matched_packWrites p out n NS ["tags", "blocks"] ".json" hnd hmem,
        matched_nsWrites_block_tags _ NS hwfNS]
  have hl5 : loadKind (fs0 ++ packWrites p out)
      ((out ++ ["data", n]) ++ ["tags", "blocks"]) ".json" TagItem.decode = some NS.block_tags :=
    loadKind_roundtrip _ _ _ _ TagItem.encode _ hm5
      (fun kv hkv => TagItem.decode_encode_tag kv.2 (hwfNS.2.2.2.2.2.1.2 kv hkv).2.1 (hwfNS.2.2.2.2.2.1.2 kv hkv).2.2)
      (fun kv hkv => (hwfNS.2.2.2.2.2.1.2 kv hkv).1)
      hwfNS.2.2.2.2.2.1.1 extOk_json
  have hm6 : matchedFiles (fs0 ++ packWrites p out)
      ((out ++ ["data", n]) ++ ["tags", "items"]) ".json" =
      kindWrites ((out ++ ["data", n]) ++ ["tags", "items"]) ".json" TagItem.encode NS.item_tags := by
    rw [matched_append,
        matched_fresh_nil fs0 out _ ".json" hfresh (by
          rw [List.append_assoc]
          exact isPrefixOf_append _ _),
        List.nil_append,
        matched_packWrites p out n NS ["tags", "items"] ".json" hnd hmem,
        matched_nsWrites_item_tags _ NS hwfNS]
  have hl6 : loadKind (fs0 ++ packWrites p out)
      ((out ++ ["data", n]) ++ ["tags", "items"]) ".json" TagItem.decode = some NS.item_tags :=
    loadKind_roundtrip _ _ _ _ TagItem.encode _ hm6
      (fun kv hkv => TagItem.decode_encode_tag kv.2 (hwfNS.2.2.2.2.2.2.1.2 kv hkv).2.1 (hwfNS.2.2.2.2.2.2.1.2 kv hkv).2.2)
      (fun kv hkv => (hwfNS.2.2.2.2.2.2.1.2 kv hkv).1)
      hwfNS.2.2.2.2.2.2.1.1 extOk_json
  have hm7 : matchedFiles (fs0 ++ packWrites p out)
      ((out ++ ["data", n]) ++ ["tags", "fluids"]) ".json" =
      kindWrites ((out ++ ["data", n]) ++ ["tags", "fluids"]) ".json" TagItem.encode NS.fluid_tags := by
    rw [matched_append,
        matched_fresh_nil fs0 out _ ".json" hfresh (by
          rw [List.append_assoc]
          exact isPrefixOf_append _ _),
        List.nil_append,
        matched_packWrites p out n NS ["tags", "fluids"] ".json" hnd hmem,
        matched_nsWrites_fluid_tags _ NS hwfNS]
  have hl7 : loadKind (fs0 ++ packWrites p out)
      ((out ++ ["data", n]) ++ ["tags", "fluids"]) ".json" TagItem.decode = some NS.fluid_tags :=
    loadKind_roundtrip _ _ _ _ TagItem.encode _ hm7
      (fun kv hkv => TagItem.decode_encode_tag kv.2 (hwfNS.2.2.2.2.2.2.2.1.2 kv hkv).2.1 (hwfNS.2.2.2.2.2.2.2.1.2 kv hkv).2.2)
      (fun kv hkv => (hwfNS.2.2.2.2.2.2.2.1.2 kv hkv).1)
      hwfNS.2.2.2.2.2.2.2.1.1 extOk_json
  have hm8 : matchedFiles (fs0 ++ packWrites p out)
      ((out ++ ["data", n]) ++ ["tags", "functions"]) ".json" =
      kindWrites ((out ++ ["data", n]) ++ ["tags", "functions"]) ".json" TagItem.encode NS.function_tags := by
    rw [matched_append,
        matched_fresh_nil fs0 out _ ".json" hfresh (by
          rw [List.append_assoc]
          exact isPrefixOf_append _ _),
        List.nil_append,
        matched_packWrites p out n NS ["tags", "functions"] ".json" hnd hmem,
        matched_nsWrites_function_tags _ NS hwfNS]
  have hl8 : loadKind (fs0 ++ packWrites p out)
      ((out ++ ["data", n]) ++ ["tags", "functions"]) ".json" TagItem.decode = some NS.function_tags :=
    loadKind_roundtrip _ _ _ _ TagItem.encode _ hm8
      (fun kv hkv => TagItem.decode_encode_tag kv.2 (hwfNS.2.2.2.2.2.2.2.2.1.2 kv hkv).2.1 (hwfNS.2.2.2.2.2.2.2.2.1.2 kv hkv).2.2)
      (fun kv hkv => (hwfNS.2.2.2.2.2.2.2.2.1.2 kv hkv).1)
      hwfNS.2.2.2.2.2.2.2.2.1.1 extOk_json
  have hm9 : matchedFiles (fs0 ++ packWrites p out)
      ((out ++ ["data", n]) ++ ["tags", "entity_types"]) ".json" =
      kindWrites ((out ++ ["data", n]) ++ ["tags", "entity_types"]) ".json" TagItem.encode NS.entity_type_tags := by
    rw [matched_append,
        matched_fresh_nil fs0 out _ ".json" hfresh (by
          rw [List.append_assoc]
          exact isPrefixOf_append _ _),
        List.nil_append,
        matched_packWrites p out n NS ["tags", "entity_types"] ".json" hnd hmem,
        matched_nsWrites_entity_type_tags _ NS hwfNS]
  have hl9 : loadKind (fs0 ++ packWrites p out)
      ((out ++ ["data", n]) ++ ["tags", "entity_types"]) ".json" TagItem.decode = some NS.entity_type_tags :=
    loadKind_roundtrip _ _ _ _ TagItem.encode _ hm9
      (fun kv hkv => TagItem.decode_encode_tag kv.2 (hwfNS.2.2.2.2.2.2.2.2.2.2 kv hkv).2.1 (hwfNS.2.2.2.2.2.2.2.2.2.2 kv hkv).2.2)
      (fun kv hkv => (hwfNS.2.2.2.2.2.2.2.2.2.2 kv hkv).1)
      hwfNS.2.2.2.2.2.2.2.2.2.1 extOk_json
  rw [Namespace.load]
  rw [show out ++ ["data", n] ++ ["advancements"] = (out ++ ["data", n]) ++ ["advancements"] from rfl]
  rw [hl0, hl1, hl2, hl3, hl4, hl5, hl6, hl7, hl8, hl9]
  rfl

/-! ## Dump writes into a fresh target append exactly the write set -/

theorem writeF_fresh (fs : FS) (p : FilePath') (d : FileData)
    (h : ∀ e ∈ fs, e.1 ≠ p) : fs.writeF p d = fs ++ [(p, d)] := by
  rw [writeF_eq_pyInsert]
  exact pyInsert_fresh fs p d h

theorem dumpKind_fresh {α : Type _} (base folder : FilePath') (ext : String)
    (enc : α → FileData) :
    ∀ (items : List (List String × α)) (fs : FS),
      (pathsOf (kindWrites (base ++ folder) ext enc items)).Nodup →
      (∀ w ∈ kindWrites (base ++ folder) ext enc items, ∀ e ∈ fs, e.1 ≠ w.1) →
      dumpKind fs base folder ext enc items =
        fs ++ kindWrites (base ++ folder) ext enc items := by
  intro items
  induction items with
  | nil => intro fs _ _; simp [dumpKind, kindWrites]
  | cons kv tl ih =>
    intro fs hnd hfr
    rw [dumpKind, List.foldl_cons]
    have hw0 : ((base ++ folder) ++ itemFileSegs kv.1 ext, enc kv.2) ∈
        kindWrites (base ++ folder) ext enc (kv :: tl) := by
      rw [kindWrites, List.map_cons]
      exact List.mem_cons_self _ _
    rw [show List.foldl (fun acc kv => acc.writeF ((base ++ folder) ++
          itemFileSegs kv.1 ext) (enc kv.2))
          (fs.writeF ((base ++ folder) ++ itemFileSegs kv.1 ext) (enc kv.2)) tl =
        dumpKind (fs.writeF ((base ++ folder) ++ itemFileSegs kv.1 ext) (enc kv.2))
          base folder ext enc tl from rfl]
    rw [writeF_fresh fs _ _ (fun e he => hfr _ hw0 e he)]
    rw [kindWrites, List.map_cons, ← kindWrites]
    rw [ih (fs ++ [((base ++ folder) ++ itemFileSegs kv.1 ext, enc kv.2)])
      (by
        rw [kindWrites, List.map_cons, ← kindWrites, pathsOf, List.map_cons,
            List.nodup_cons] at hnd
        exact hnd.2)
      (by
        intro w hw e he
        rcases List.mem_append.mp he with he' | he'
        · refine hfr w ?_ e he'
          rw [kindWrites, List.map_cons]
          exact List.mem_cons_of_mem _ hw
        · rw [List.mem_singleton] at he'
          subst he'
          rw [kindWrites, List.map_cons, ← kindWrites, pathsOf, List.map_cons,
              List.nodup_cons] at hnd
          intro hc
          exact hnd.1 (hc ▸ List.mem_map_of_mem Prod.fst hw))]
    simp

theorem kindWrites_paths_nodup {α : Type _} (dir : FilePath') (ext : String)
    (enc : α → FileData) (items : List (List String × α))
    (hnd : (items.map Prod.fst).Nodup) (hwf : ∀ kv ∈ items, wfName ext kv.1) :
    (pathsOf (kindWrites dir ext enc items)).Nodup := by
  have hshape : pathsOf (kindWrites dir ext enc items) =
      (items.map Prod.fst).map (fun nm => dir ++ itemFileSegs nm ext) := by
    simp [pathsOf, kindWrites, List.map_map]
  rw [hshape]
  refine List.Nodup.map_on ?_ hnd
  intro nm hnm nm' hnm' heq
  have hx := List.append_cancel_left heq
  obtain ⟨kv, hkv, rfl⟩ := List.mem_map.mp hnm
  obtain ⟨kv', hkv', rfl⟩ := List.mem_map.mp hnm'
  exact itemFileSegs_inj _ _ _ (hwf kv hkv) (hwf kv' hkv') hx

theorem kindWrites_path_ne {α β : Type _} (base f1 f2 : FilePath')
    (ext1 ext2 : String) (enc1 : α → FileData) (enc2 : β → FileData)
    (items1 : List (List String × α)) (items2 : List (List String × β))
    (h1 : ¬ f1 <+: f2) (h2 : ¬ f2 <+: f1) :
    ∀ w ∈ kindWrites (base ++ f1) ext1 enc1 items1,
    ∀ e ∈ kindWrites (base ++ f2) ext2 enc2 items2, e.1 ≠ w.1 := by
  intro w hw e he hc
  obtain ⟨kv, -, rfl⟩ := kindWrites_mem hw
  obtain ⟨kv', -, rfl⟩ := kindWrites_mem he
  have hc' : base ++ f2 ++ itemFileSegs kv'.1 ext2 =
      base ++ f1 ++ itemFileSegs kv.1 ext1 := hc
  have hpre : (base ++ f2).isPrefixOf
      ((base ++ f1) ++ itemFileSegs kv.1 ext1) = true := by
    rw [← hc']
    exact isPrefixOf_append _ _
  rw [folder_clash base f2 f1 _ h2 h1] at hpre
  cases hpre

theorem nsDump_fresh (base : FilePath') (ns : Namespace) (fs : FS)
    (hwf : ns.wf)
    (hfr : ∀ w ∈ nsWrites base ns, ∀ e ∈ fs, e.1 ≠ w.1) :
    ns.dump base fs = fs ++ nsWrites base ns := by
  have e0 : dumpKind (fs) base ["advancements"] ".json" Advancement.encode ns.advancements =
      fs ++ kindWrites (base ++ ["advancements"]) ".json" Advancement.encode ns.advancements := by
    refine dumpKind_fresh base ["advancements"] ".json" Advancement.encode ns.advancements _ ?_ ?_
    · exact kindWrites_paths_nodup _ _ _ _ hwf.1.1 (fun kv hkv => (hwf.1.2 kv hkv).1)
    · intro w hw e he
      refine hfr w ?_ e he
      rw [nsWrites]
      simp only [List.mem_append]
      exact Or.inl (Or.inl (Or.inl (Or.inl (Or.inl (Or.inl (Or.inl (Or.inl (Or.inl (hw)))))))))
  have e1 : dumpKind (fs ++ kindWrites (base ++ ["advancements"]) ".json" Advancement.encode ns.advancements) base ["functions"] ".mcfunction" Function.encode ns.functions =
      fs ++ kindWrites (base ++ ["advancements"]) ".json" Advancement.encode ns.advancements ++ kindWrites (base ++ ["functions"]) ".mcfunction" Function.encode ns.functions := by
    refine dumpKind_fresh base ["functions"] ".mcfunction" Function.encode ns.functions _ ?_ ?_
    · exact kindWrites_paths_nodup _ _ _ _ hwf.2.1.1 (fun kv hkv => (hwf.2.1.2 kv hkv).1)
    · intro w hw e he
      simp only [List.mem_append] at he
      rcases he with he0 | he1
      · refine hfr w ?_ e he0
        rw [nsWrites]
        simp only [List.mem_append]
        exact Or.inl (Or.inl (Or.inl (Or.inl (Or.inl (Or.inl (Or.inl (Or.inl ((Or.inr hw)))))))))
      · exact kindWrites_path_ne base ["functions"] ["advancements"] ".mcfunction" ".json" Function.encode Advancement.encode
          ns.functions ns.advancements (by decide) (by decide) w hw e he1
  have e2 : dumpKind (fs ++ kindWrites (base ++ ["advancements"]) ".json" Advancement.encode ns.advancements ++ kindWrites (base ++ ["functions"]) ".mcfunction" Function.encode ns.functions) base ["loot_tables"] ".json" LootTable.encode ns.loot_tables =
      fs ++ kindWrites (base ++ ["advancements"]) ".json" Advancement.encode ns.advancements ++ kindWrites (base ++ ["functions"]) ".mcfunction" Function.encode ns.functions ++ kindWrites (base ++ ["loot_tables"]) ".json" LootTable.encode ns.loot_tables := by
    refine dumpKind_fresh base ["loot_tables"] ".json" LootTable.encode ns.loot_tables _ ?_ ?_
    · exact kindWrites_paths_nodup _ _ _ _ hwf.2.2.1.1 (fun kv hkv => (hwf.2.2.1.2 kv hkv).1)
    · intro w hw e he
      simp only [List.mem_append] at he
      rcases he with (he0 | he1) | he2
      · refine hfr w ?_ e he0
        rw [nsWrites]
        simp only [List.mem_append]
        exact Or.inl (Or.inl (Or.inl (Or.inl (Or.inl (Or.inl (Or.inl ((Or.inr hw))))))))
      · exact kindWrites_path_ne base ["loot_tables"] ["advancements"] ".json" ".json" LootTable.encode Advancement.encode
          ns.loot_tables ns.advancements (by decide) (by decide) w hw e he1
      · exact kindWrites_path_ne base ["loot_tables"] ["functions"] ".json" ".mcfunction" LootTable.encode Function.encode
          ns.loot_tables ns.functions (by decide) (by decide) w hw e he2
  have e3 : dumpKind (fs ++ kindWrites (base ++ ["advancements"]) ".json" Advancement.encode ns.advancements ++ kindWrites (base ++ ["functions"]) ".mcfunction" Function.encode ns.functions ++ kindWrites (base ++ ["loot_tables"]) ".json" LootTable.encode ns.loot_tables) base ["recipes"] ".json" Recipe.encode ns.recipes =
      fs ++ kindWrites (base ++ ["advancements"]) ".json" Advancement.encode ns.advancements ++ kindWrites (base ++ ["functions"]) ".mcfunction" Function.encode ns.functions ++ kindWrites (base ++ ["loot_tables"]) ".json" LootTable.encode ns.loot_tables ++ kindWrites (base ++ ["recipes"]) ".json" Recipe.encode ns.recipes := by
    refine dumpKind_fresh base ["recipes"] ".json" Recipe.encode ns.recipes _ ?_ ?_
    · exact kindWrites_paths_nodup _ _ _ _ hwf.2.2.2.1.1 (fun kv hkv => (hwf.2.2.2.1.2 kv hkv).1)
    · intro w hw e he
      simp only [List.mem_append] at he
      rcases he with ((he0 | he1) | he2) | he3
      · refine hfr w ?_ e he0
        rw [nsWrites]
        simp only [List.mem_append]
        exact Or.inl (Or.inl (Or.inl (Or.inl (Or.inl (Or.inl ((Or.inr hw)))))))
      · exact kindWrites_path_ne base ["recipes"] ["advancements"] ".json" ".json" Recipe.encode Advancement.encode
          ns.recipes ns.advancements (by decide) (by decide) w hw e he1
      · exact kindWrites_path_ne base ["recipes"] ["functions"] ".json" ".mcfunction" Recipe.encode Function.encode
          ns.recipes ns.functions (by decide) (by decide) w hw e he2
      · exact kindWrites_path_ne base ["recipes"] ["loot_tables"] ".json" ".json" Recipe.encode LootTable.encode
          ns.recipes ns.loot_tables (by decide) (by decide) w hw e he3
  have e4 : dumpKind (fs ++ kindWrites (base ++ ["advancements"]) ".json" Advancement.encode ns.advancements ++ kindWrites (base ++ ["functions"]) ".mcfunction" Function.encode ns.functions ++ kindWrites (base ++ ["loot_tables"]) ".json" LootTable.encode ns.loot_tables ++ kindWrites (base ++ ["recipes"]) ".json" Recipe.encode ns.recipes) base ["structures"] ".nbt" Structure.encode ns.structures =
      fs ++ kindWrites (base ++ ["advancements"]) ".json" Advancement.encode ns.advancements ++ kindWrites (base ++ ["functions"]) ".mcfunction" Function.encode ns.functions ++ kindWrites (base ++ ["loot_tables"]) ".json" LootTable.encode ns.loot_tables ++ kindWrites (base ++ ["recipes"]) ".json" Recipe.encode ns.recipes ++ kindWrites (base ++ ["structures"]) ".nbt" Structure.encode ns.structures := by
    refine dumpKind_fresh base ["structures"] ".nbt" Structure.encode ns.structures _ ?_ ?_
    · exact kindWrites_paths_nodup _ _ _ _ hwf.2.2.2.2.1.1 (fun kv hkv => (hwf.2.2.2.2.1.2 kv hkv).1)
    · intro w hw e he
      simp only [List.mem_append] at he
      rcases he with (((he0 | he1) | he2) | he3) | he4
      · refine hfr w ?_ e he0
        rw [nsWrites]
        simp only [List.mem_append]
        exact Or.inl (Or.inl (Or.inl (Or.inl (Or.inl ((Or.inr hw))))))
      · exact kindWrites_path_ne base ["structures"] ["advancements"] ".nbt" ".json" Structure.encode Advancement.encode
          ns.structures ns.advancements (by decide) (by decide) w hw e he1
      · exact kindWrites_path_ne base ["structures"] ["functions"] ".nbt" ".mcfunction" Structure.encode Function.encode
          ns.structures ns.functions (by decide) (by decide) w hw e he2
      · exact kindWrites_path_ne base ["structures"] ["loot_tables"] ".nbt" ".json" Structure.encode LootTable.encode
          ns.structures ns.loot_tables (by decide) (by decide) w hw e he3
      · exact kindWrites_path_ne base ["structures"] ["recipes"] ".nbt" ".json" Structure.encode Recipe.encode
          ns.structures ns.recipes (by decide) (by decide) w hw e he4
  have e5 : dumpKind (fs ++ kindWrites (base ++ ["advancements"]) ".json" Advancement.encode ns.advancements ++ kindWrites (base ++ ["functions"]) ".mcfunction" Function.encode ns.functions ++ kindWrites (base ++ ["loot_tables"]) ".json" LootTable.encode ns.loot_tables ++ kindWrites (base ++ ["recipes"]) ".json" Recipe.encode ns.recipes ++ kindWrites (base ++ ["structures"]) ".nbt" Structure.encode ns.structures) base ["tags", "blocks"] ".json" TagItem.encode ns.block_tags =
      fs ++ kindWrites (base ++ ["advancements"]) ".json" Advancement.encode ns.advancements ++ kindWrites (base ++ ["functions"]) ".mcfunction" Function.encode ns.functions ++ kindWrites (base ++ ["loot_tables"]) ".json" LootTable.encode ns.loot_tables ++ kindWrites (base ++ ["recipes"]) ".json" Recipe.encode ns.recipes ++ kindWrites (base ++ ["structures"]) ".nbt" Structure.encode ns.structures ++ kindWrites (base ++ ["tags", "blocks"]) ".json" TagItem.encode ns.block_tags := by
    refine dumpKind_fresh base ["tags", "blocks"] ".json" TagItem.encode ns.block_tags _ ?_ ?_
    · exact kindWrites_paths_nodup _ _ _ _ hwf.2.2.2.2.2.1.1 (fun kv hkv => (hwf.2.2.2.2.2.1.2 kv hkv).1)
    · intro w hw e he
      simp only [List.mem_append] at he
      rcases he with ((((he0 | he1) | he2) | he3) | he4) | he5
      · refine hfr w ?_ e he0
        rw [nsWrites]
        simp only [List.mem_append]
        exact Or.inl (Or.inl (Or.inl (Or.inl ((Or.inr hw)))))
      · exact kindWrites_path_ne base ["tags", "blocks"] ["advancements"] ".json" ".json" TagItem.encode Advancement.encode
          ns.block_tags ns.advancements (by decide) (by decide) w hw e he1
      · exact kindWrites_path_ne base ["tags", "blocks"] ["functions"] ".json" ".mcfunction" TagItem.encode Function.encode
          ns.block_tags ns.functions (by decide) (by decide) w hw e he2
      · exact kindWrites_path_ne base ["tags", "blocks"] ["loot_tables"] ".json" ".json" TagItem.encode LootTable.encode
          ns.block_tags ns.loot_tables (by decide) (by decide) w hw e he3
      · exact kindWrites_path_ne base ["tags", "blocks"] ["recipes"] ".json" ".json" TagItem.encode Recipe.encode
          ns.block_tags ns.recipes (by decide) (by decide) w hw e he4
      · exact kindWrites_path_ne base ["tags", "blocks"] ["structures"] ".json" ".nbt" TagItem.encode Structure.encode
          ns.block_tags ns.structures (by decide) (by decide) w hw e he5
  have e6 : dumpKind (fs ++ kindWrites (base ++ ["advancements"]) ".json" Advancement.encode ns.advancements ++ kindWrites (base ++ ["functions"]) ".mcfunction" Function.encode ns.functions ++ kindWrites (base ++ ["loot_tables"]) ".json" LootTable.encode ns.loot_tables ++ kindWrites (base ++ ["recipes"]) ".json" Recipe.encode ns.recipes ++ kindWrites (base ++ ["structures"]) ".nbt" Structure.encode ns.structures ++ kindWrites (base ++ ["tags", "blocks"]) ".json" TagItem.encode ns.block_tags) base ["tags", "items"] ".json" TagItem.encode ns.item_tags =
      fs ++ kindWrites (base ++ ["advancements"]) ".json" Advancement.encode ns.advancements ++ kindWrites (base ++ ["functions"]) ".mcfunction" Function.encode ns.functions ++ kindWrites (base ++ ["loot_tables"]) ".json" LootTable.encode ns.loot_tables ++ kindWrites (base ++ ["recipes"]) ".json" Recipe.encode ns.recipes ++ kindWrites (base ++ ["structures"]) ".nbt" Structure.encode ns.structures ++ kindWrites (base ++ ["tags", "blocks"]) ".json" TagItem.encode ns.block_tags ++ kindWrites (base ++ ["tags", "items"]) ".json" TagItem.encode ns.item_tags := by
    refine dumpKind_fresh base ["tags", "items"] ".json" TagItem.encode ns.item_tags _ ?_ ?_
    · exact kindWrites_paths_nodup _ _ _ _ hwf.2.2.2.2.2.2.1.1 (fun kv hkv => (hwf.2.2.2.2.2.2.1.2 kv hkv).1)
    · intro w hw e he
      simp only [List.mem_append] at he
      rcases he with (((((he0 | he1) | he2) | he3) | he4) | he5) | he6
      · refine hfr w ?_ e he0
        rw [nsWrites]
        simp only [List.mem_append]
        exact Or.inl (Or.inl (Or.inl ((Or.inr hw))))
      · exact kindWrites_path_ne base ["tags", "items"] ["advancements"] ".json" ".json" TagItem.encode Advancement.encode
          ns.item_tags ns.advancements (by decide) (by decide) w hw e he1
      · exact kindWrites_path_ne base ["tags", "items"] ["functions"] ".json" ".mcfunction" TagItem.encode Function.encode
          ns.item_tags ns.functions (by decide) (by decide) w hw e he2
      · exact kindWrites_path_ne base ["tags", "items"] ["loot_tables"] ".json" ".json" TagItem.encode LootTable.encode
          ns.item_tags ns.loot_tables (by decide) (by decide) w hw e he3
      · exact kindWrites_path_ne base ["tags", "items"] ["recipes"] ".json" ".json" TagItem.encode Recipe.encode
          ns.item_tags ns.recipes (by decide) (by decide) w hw e he4
      · exact kindWrites_path_ne base ["tags", "items"] ["structures"] ".json" ".nbt" TagItem.encode Structure.encode
          ns.item_tags ns.structures (by decide) (by decide) w hw e he5
      · exact kindWrites_path_ne base ["tags", "items"] ["tags", "blocks"] ".json" ".json" TagItem.encode TagItem.encode
          ns.item_tags ns.block_tags (by decide) (by decide) w hw e he6
  have e7 : dumpKind (fs ++ kindWrites (base ++ ["advancements"]) ".json" Advancement.encode ns.advancements ++ kindWrites (base ++ ["functions"]) ".mcfunction" Function.encode ns.functions ++ kindWrites (base ++ ["loot_tables"]) ".json" LootTable.encode ns.loot_tables ++ kindWrites (base ++ ["recipes"]) ".json" Recipe.encode ns.recipes ++ kindWrites (base ++ ["structures"]) ".nbt" Structure.encode ns.structures ++ kindWrites (base ++ ["tags", "blocks"]) ".json" TagItem.encode ns.block_tags ++ kindWrites (base ++ ["tags", "items"]) ".json" TagItem.encode ns.item_tags) base ["tags", "fluids"] ".json" TagItem.encode ns.fluid_tags =
      fs ++ kindWrites (base ++ ["advancements"]) ".json" Advancement.encode ns.advancements ++ kindWrites (base ++ ["functions"]) ".mcfunction" Function.encode ns.functions ++ kindWrites (base ++ ["loot_tables"]) ".json" LootTable.encode ns.loot_tables ++ kindWrites (base ++ ["recipes"]) ".json" Recipe.encode ns.recipes ++ kindWrites (base ++ ["structures"]) ".nbt" Structure.encode ns.structures ++ kindWrites (base ++ ["tags", "blocks"]) ".json" TagItem.encode ns.block_tags ++ kindWrites (base ++ ["tags", "items"]) ".json" TagItem.encode ns.item_tags ++ kindWrites (base ++ ["tags", "fluids"]) ".json" TagItem.encode ns.fluid_tags := by
    refine dumpKind_fresh base ["tags", "fluids"] ".json" TagItem.encode ns.fluid_tags _ ?_ ?_
    · exact kindWrites_paths_nodup _ _ _ _ hwf.2.2.2.2.2.2.2.1.1 (fun kv hkv => (hwf.2.2.2.2.2.2.2.1.2 kv hkv).1)
    · intro w hw e he
      simp only [List.mem_append] at he
      rcases he with ((((((he0 | he1) | he2) | he3) | he4) | he5) | he6) | he7
      · refine hfr w ?_ e he0
        rw [nsWrites]
        simp only [List.mem_append]
        exact Or.inl (Or.inl ((Or.inr hw)))
      · exact kindWrites_path_ne base ["tags", "fluids"] ["advancements"] ".json" ".json" TagItem.encode Advancement.encode
          ns.fluid_tags ns.advancements (by decide) (by decide) w hw e he1
      · exact kindWrites_path_ne base ["tags", "fluids"] ["functions"] ".json" ".mcfunction" TagItem.encode Function.encode
          ns.fluid_tags ns.functions (by decide) (by decide) w hw e he2
      · exact kindWrites_path_ne base ["tags", "fluids"] ["loot_tables"] ".json" ".json" TagItem.encode LootTable.encode
          ns.fluid_tags ns.loot_tables (by decide) (by decide) w hw e he3
      · exact kindWrites_path_ne base ["tags", "fluids"] ["recipes"] ".json" ".json" TagItem.encode Recipe.encode
          ns.fluid_tags ns.recipes (by decide) (by decide) w hw e he4
      · exact kindWrites_path_ne base ["tags", "fluids"] ["structures"] ".json" ".nbt" TagItem.encode Structure.encode
          ns.fluid_tags ns.structures (by decide) (by decide) w hw e he5
      · exact kindWrites_path_ne base ["tags", "fluids"] ["tags", "blocks"] ".json" ".json" TagItem.encode TagItem.encode
          ns.fluid_tags ns.block_tags (by decide) (by decide) w hw e he6
      · exact kindWrites_path_ne base ["tags", "fluids"] ["tags", "items"] ".json" ".json" TagItem.encode TagItem.encode
          ns.fluid_tags ns.item_tags (by decide) (by decide) w hw e he7
  have e8 : dumpKind (fs ++ kindWrites (base ++ ["advancements"]) ".json" Advancement.encode ns.advancements ++ kindWrites (base ++ ["functions"]) ".mcfunction" Function.encode ns.functions ++ kindWrites (base ++ ["loot_tables"]) ".json" LootTable.encode ns.loot_tables ++ kindWrites (base ++ ["recipes"]) ".json" Recipe.encode ns.recipes ++ kindWrites (base ++ ["structures"]) ".nbt" Structure.encode ns.structures ++ kindWrites (base ++ ["tags", "blocks"]) ".json" TagItem.encode ns.block_tags ++ kindWrites (base ++ ["tags", "items"]) ".json" TagItem.encode ns.item_tags ++ kindWrites (base ++ ["tags", "fluids"]) ".json" TagItem.encode ns.fluid_tags) base ["tags", "functions"] ".json" TagItem.encode ns.function_tags =
      fs ++ kindWrites (base ++ ["advancements"]) ".json" Advancement.encode ns.advancements ++ kindWrites (base ++ ["functions"]) ".mcfunction" Function.encode ns.functions ++ kindWrites (base ++ ["loot_tables"]) ".json" LootTable.encode ns.loot_tables ++ kindWrites (base ++ ["recipes"]) ".json" Recipe.encode ns.recipes ++ kindWrites (base ++ ["structures"]) ".nbt" Structure.encode ns.structures ++ kindWrites (base ++ ["tags", "blocks"]) ".json" TagItem.encode ns.block_tags ++ kindWrites (base ++ ["tags", "items"]) ".json" TagItem.encode ns.item_tags ++ kindWrites (base ++ ["tags", "fluids"]) ".json" TagItem.encode ns.fluid_tags ++ kindWrites (base ++ ["tags", "functions"]) ".json" TagItem.encode ns.function_tags := by
    refine dumpKind_fresh base ["tags", "functions"] ".json" TagItem.encode ns.function_tags _ ?_ ?_
    · exact kindWrites_paths_nodup _ _ _ _ hwf.2.2.2.2.2.2.2.2.1.1 (fun kv hkv => (hwf.2.2.2.2.2.2.2.2.1.2 kv hkv).1)
    · intro w hw e he
      simp only [List.mem_append] at he
      rcases he with (((((((he0 | he1) | he2) | he3) | he4) | he5) | he6) | he7) | he8
      · refine hfr w ?_ e he0
        rw [nsWrites]
        simp only [List.mem_append]
        exact Or.inl ((Or.inr hw))
      · exact kindWrites_path_ne base ["tags", "functions"] ["advancements"] ".json" ".json" TagItem.encode Advancement.encode
          ns.function_tags ns.advancements (by decide) (by decide) w hw e he1
      · exact kindWrites_path_ne base ["tags", "functions"] ["functions"] ".json" ".mcfunction" TagItem.encode Function.encode
          ns.function_tags ns.functions (by decide) (by decide) w hw e he2
      · exact kindWrites_path_ne base ["tags", "functions"] ["loot_tables"] ".json" ".json" TagItem.encode LootTable.encode
          ns.function_tags ns.loot_tables (by decide) (by decide) w hw e he3
      · exact kindWrites_path_ne base ["tags", "functions"] ["recipes"] ".json" ".json" TagItem.encode Recipe.encode
          ns.function_tags ns.recipes (by decide) (by decide) w hw e he4
      · exact kindWrites_path_ne base ["tags", "functions"] ["structures"] ".json" ".nbt" TagItem.encode Structure.encode
          ns.function_tags ns.structures (by decide) (by decide) w hw e he5
      · exact kindWrites_path_ne base ["tags", "functions"] ["tags", "blocks"] ".json" ".json" TagItem.encode TagItem.encode
          ns.function_tags ns.block_tags (by decide) (by decide) w hw e he6
      · exact kindWrites_path_ne base ["tags", "functions"] ["tags", "items"] ".json" ".json" TagItem.encode TagItem.encode
          ns.function_tags ns.item_tags (by decide) (by decide) w hw e he7
      · exact kindWrites_path_ne base ["tags", "functions"] ["tags", "fluids"] ".json" ".json" TagItem.encode TagItem.encode
          ns.function_tags ns.fluid_tags (by decide) (by decide) w hw e he8
  have e9 : dumpKind (fs ++ kindWrites (base ++ ["advancements"]) ".json" Advancement.encode ns.advancements ++ kindWrites (base ++ ["functions"]) ".mcfunction" Function.encode ns.functions ++ kindWrites (base ++ ["loot_tables"]) ".json" LootTable.encode ns.loot_tables ++ kindWrites (base ++ ["recipes"]) ".json" Recipe.encode ns.recipes ++ kindWrites (base ++ ["structures"]) ".nbt" Structure.encode ns.structures ++ kindWrites (base ++ ["tags", "blocks"]) ".json" TagItem.encode ns.block_tags ++ kindWrites (base ++ ["tags", "items"]) ".json" TagItem.encode ns.item_tags ++ kindWrites (base ++ ["tags", "fluids"]) ".json" TagItem.encode ns.fluid_tags ++ kindWrites (base ++ ["tags", "functions"]) ".json" TagItem.encode ns.function_tags) base ["tags", "entity_types"] ".json" TagItem.encode ns.entity_type_tags =
      fs ++ kindWrites (base ++ ["advancements"]) ".json" Advancement.encode ns.advancements ++ kindWrites (base ++ ["functions"]) ".mcfunction" Function.encode ns.functions ++ kindWrites (base ++ ["loot_tables"]) ".json" LootTable.encode ns.loot_tables ++ kindWrites (base ++ ["recipes"]) ".json" Recipe.encode ns.recipes ++ kindWrites (base ++ ["structures"]) ".nbt" Structure.encode ns.structures ++ kindWrites (base ++ ["tags", "blocks"]) ".json" TagItem.encode ns.block_tags ++ kindWrites (base ++ ["tags", "items"]) ".json" TagItem.encode ns.item_tags ++ kindWrites (base ++ ["tags", "fluids"]) ".json" TagItem.encode ns.fluid_tags ++ kindWrites (base ++ ["tags", "functions"]) ".json" TagItem.encode ns.function_tags ++ kindWrites (base ++ ["tags", "entity_types"]) ".json" TagItem.encode ns.entity_type_tags := by
    refine dumpKind_fresh base ["tags", "entity_types"] ".json" TagItem.encode ns.entity_type_tags _ ?_ ?_
    · exact kindWrites_paths_nodup _ _ _ _ hwf.2.2.2.2.2.2.2.2.2.1 (fun kv hkv => (hwf.2.2.2.2.2.2.2.2.2.2 kv hkv).1)
    · intro w hw e he
      simp only [List.mem_append] at he
      rcases he with ((((((((he0 | he1) | he2) | he3) | he4) | he5) | he6) | he7) | he8) | he9
      · refine hfr w ?_ e he0
        rw [nsWrites]
        simp only [List.mem_append]
        exact (Or.inr hw)
      · exact kindWrites_path_ne base ["tags", "entity_types"] ["advancements"] ".json" ".json" TagItem.encode Advancement.encode
          ns.entity_type_tags ns.advancements (by decide) (by decide) w hw e he1
      · exact kindWrites_path_ne base ["tags", "entity_types"] ["functions"] ".json" ".mcfunction" TagItem.encode Function.encode
          ns.entity_type_tags ns.functions (by decide) (by decide) w hw e he2
      · exact kindWrites_path_ne base ["tags", "entity_types"] ["loot_tables"] ".json" ".json" TagItem.encode LootTable.encode
          ns.entity_type_tags ns.loot_tables (by decide) (by decide) w hw e he3
      · exact kindWrites_path_ne base ["tags", "entity_types"] ["recipes"] ".json" ".json" TagItem.encode Recipe.encode
          ns.entity_type_tags ns.recipes (by decide) (by decide) w hw e he4
      · exact kindWrites_path_ne base ["tags", "entity_types"] ["structures"] ".json" ".nbt" TagItem.encode Structure.encode
          ns.entity_type_tags ns.structures (by decide) (by decide) w hw e he5
      · exact kindWrites_path_ne base ["tags", "entity_types"] ["tags", "blocks"] ".json" ".json" TagItem.encode TagItem.encode
          ns.entity_type_tags ns.block_tags (by decide) (by decide) w hw e he6
      · exact kindWrites_path_ne base ["tags", "entity_types"] ["tags", "items"] ".json" ".json" TagItem.encode TagItem.encode
          ns.entity_type_tags ns.item_tags (by decide) (by decide) w hw e he7
      · exact kindWrites_path_ne base ["tags", "entity_types"] ["tags", "fluids"] ".json" ".json" TagItem.encode TagItem.encode
          ns.entity_type_tags ns.fluid_tags (by decide) (by decide) w hw e he8
      · exact kindWrites_path_ne base ["tags", "entity_types"] ["tags", "functions"] ".json" ".json" TagItem.encode TagItem.encode
          ns.entity_type_tags ns.function_tags (by decide) (by decide) w hw e he9
  rw [Namespace.dump, e0, e1, e2, e3, e4, e5, e6, e7, e8, e9, nsWrites]
  simp [List.append_assoc]

theorem nsWrites_path_ne_cross (out : FilePath') (n n' : String)
    (NS NS' : Namespace) (hne : n' ≠ n) :
    ∀ w ∈ nsWrites (out ++ ["data", n]) NS,
    ∀ e ∈ nsWrites (out ++ ["data", n']) NS', e.1 ≠ w.1 := by
  intro w hw e he hc
  obtain ⟨f, segs, -, hshape⟩ := nsWrites_mem_shape hw
  obtain ⟨f', segs', -, hshape'⟩ := nsWrites_mem_shape he
  have hpre : (out ++ ["data", n'] ++ []).isPrefixOf w.1 = true := by
    rw [← hc, hshape', List.append_nil, List.append_assoc]
    exact isPrefixOf_append _ _
  rw [hshape] at hpre
  rw [ns_dir_clash out n' n [] f segs hne] at hpre
  cases hpre

theorem mcmeta_path_ne_nsWrite (out : FilePath') (n : String) (NS : Namespace) :
    ∀ w ∈ nsWrites (out ++ ["data", n]) NS, out ++ ["pack.mcmeta"] ≠ w.1 := by
  intro w hw hc
  obtain ⟨f, segs, -, hshape⟩ := nsWrites_mem_shape hw
  have hpre : ((out ++ ["data", n]) ++ f).isPrefixOf (out ++ ["pack.mcmeta"]) = true := by
    rw [hc, hshape]
    exact isPrefixOf_append _ _
  rw [mcmeta_clash] at hpre
  cases hpre

theorem packWrites_prefix (p : DataPack) (out : FilePath') :
    ∀ w ∈ packWrites p out, out.isPrefixOf w.1 = true := by
  intro w hw
  rw [packWrites] at hw
  rcases List.mem_cons.mp hw with rfl | hw'
  · exact isPrefixOf_append _ _
  · rw [List.mem_flatten] at hw'
    obtain ⟨l, hl, hwl⟩ := hw'
    rw [List.mem_map] at hl
    obtain ⟨kv, hkv, rfl⟩ := hl
    obtain ⟨f, segs, -, hshape⟩ := nsWrites_mem_shape hwl
    rw [hshape,
        show ((out ++ ["data", kv.1]) ++ f) ++ segs =
          out ++ (["data", kv.1] ++ f ++ segs) by simp]
    exact isPrefixOf_append _ _

theorem foldl_nsDump_chunks (out : FilePath') :
    ∀ (nss : List (String × Namespace)) (acc : FS),
      (∀ kv ∈ nss, kv.2.wf) →
      (nss.map Prod.fst).Nodup →
      (∀ kv ∈ nss, ∀ w ∈ nsWrites (out ++ ["data", kv.1]) kv.2,
        ∀ e ∈ acc, e.1 ≠ w.1) →
      List.foldl (fun acc kv => Namespace.dump kv.2 (out ++ ["data", kv.1]) acc)
        acc nss =
        acc ++ (nss.map (fun kv => nsWrites (out ++ ["data", kv.1]) kv.2)).flatten := by
  intro nss
  induction nss with
  | nil => intro acc _ _ _; simp
  | cons kv tl ih =>
    intro acc hwf hnd hfr
    rw [List.foldl_cons,
        nsDump_fresh _ _ _ (hwf kv (List.mem_cons_self _ _))
          (fun w hw e he => hfr kv (List.mem_cons_self _ _) w hw e he)]
    rw [List.map_cons, List.nodup_cons] at hnd
    rw [ih (acc ++ nsWrites (out ++ ["data", kv.1]) kv.2)
      (fun kv' hkv' => hwf kv' (List.mem_cons_of_mem _ hkv'))
      hnd.2
      (by
        intro kv' hkv' w hw e he
        rcases List.mem_append.mp he with he' | he'
        · exact hfr kv' (List.mem_cons_of_mem _ hkv') w hw e he'
        · refine nsWrites_path_ne_cross out kv'.1 kv.1 kv'.2 kv.2 ?_ w hw e he'
          intro hc
          exact hnd.1 (hc ▸ List.mem_map_of_mem Prod.fst hkv'))]
    simp

/-- Dumping into a fresh target appends exactly the pack's write set. -/
theorem dumpFresh_eq (p : DataPack) (out : FilePath') (fs : FS)
    (hwf : p.wf) (hfr : freshFor fs out) :
    dumpFresh p out fs = fs ++ packWrites p out := by
  rw [dumpFresh,
      writeF_fresh fs _ _ (fun e he hc => by
        have hp := hfr e he
        rw [hc, isPrefixOf_append] at hp
        cases hp)]
  rw [foldl_nsDump_chunks out p.namespaces
    (fs ++ [(out ++ ["pack.mcmeta"], FileData.json p.mcmeta)])
    (fun kv hkv => (hwf.2.2 kv hkv).2)
    hwf.2.1
    (by
      intro kv hkv w hw e he
      rcases List.mem_append.mp he with he' | he'
      · intro hc
        have hp := hfr e he'
        obtain ⟨f, segs, -, hshape⟩ := nsWrites_mem_shape hw
        rw [hc, hshape,
            show ((out ++ ["data", kv.1]) ++ f) ++ segs =
              out ++ (["data", kv.1] ++ f ++ segs) by simp,
            isPrefixOf_append] at hp
        cases hp
      · rw [List.mem_singleton] at he'
        subst he'
        exact mcmeta_path_ne_nsWrite out kv.1 kv.2 w hw)]
  rw [packWrites]
  simp

/-- `DataPack.dump` without `overwrite` into a fresh location succeeds and
appends exactly the pack's write set. -/
theorem dump_fresh_ok (p : DataPack) (dir : FilePath') (fs : FS)
    (hwf : p.wf) (hfr : freshFor fs (dir ++ [p.name])) :
    p.dump dir false fs = .ok (fs ++ packWrites p (dir ++ [p.name])) := by
  rw [DataPack.dump]
  rw [if_neg (by
    rw [FS.isDir]
    intro hc
    rw [List.any_eq_true] at hc
    obtain ⟨e, he, hce⟩ := hc
    rw [Bool.and_eq_true] at hce
    rw [hfr e he] at hce
    exact Bool.false_ne_true hce.1)]
  rw [if_neg (by
    rw [FS.isFile]
    intro hc
    rw [List.any_eq_true] at hc
    obtain ⟨e, he, hce⟩ := hc
    have hp := hfr e he
    rw [show e.1 = dir ++ [p.name] by simpa using hce] at hp
    rw [show (dir ++ [p.name]).isPrefixOf (dir ++ [p.name]) = true by
      rw [List.isPrefixOf_iff_prefix]] at hp
    cases hp)]
  rw [dumpFresh_eq p _ fs hwf hfr]

/-! ## Discovering the namespace names of a dumped tree -/

theorem filterMap_const_some {α β : Type _} (f : α → Option β) (c : β) :
    ∀ (l : List α), (∀ a ∈ l, f a = some c) →
      l.filterMap f = List.replicate l.length c := by
  intro l
  induction l with
  | nil => intro _; rfl
  | cons a tl ih =>
    intro h
    rw [List.filterMap_cons, h a (List.mem_cons_self _ _), List.length_cons,
        List.replicate_succ, ih (fun a' ha' => h a' (List.mem_cons_of_mem _ ha'))]

theorem foldl_dedup_mem (n : String) :
    ∀ (c : Nat) (acc : List String), n ∈ acc →
      List.foldl (fun acc x => if x ∈ acc then acc else acc ++ [x]) acc
        (List.replicate c n) = acc := by
  intro c
  induction c with
  | zero => intro acc _; rfl
  | succ k ih =>
    intro acc h
    rw [List.replicate_succ, List.foldl_cons, if_pos h]
    exact ih acc h

theorem foldl_dedup_replicate (n : String) (c : Nat) (acc : List String)
    (hc : c ≠ 0) (h : n ∉ acc) :
    List.foldl (fun acc x => if x ∈ acc then acc else acc ++ [x]) acc
      (List.replicate c n) = acc ++ [n] := by
  cases c with
  | zero => exact absurd rfl hc
  | succ k =>
    rw [List.replicate_succ, List.foldl_cons, if_neg h]
    exact foldl_dedup_mem n k _ (List.mem_append_right _ (List.mem_singleton_self _))

theorem nsWrites_nil_iff (base : FilePath') (ns : Namespace) :
    (nsWrites base ns).length = 0 ↔ ns.isEmptyNS = true := by
  rw [nsWrites, Namespace.isEmptyNS]
  simp [kindWrites, List.length_append, List.length_eq_zero, List.isEmpty_iff,
    List.map_eq_nil_iff]
  tauto

theorem dedupF_ns_chunks (out : FilePath') :
    ∀ (nss : List (String × Namespace)) (acc : List String),
      (nss.map Prod.fst).Nodup →
      (∀ kv ∈ nss, kv.1 ∉ acc) →
      List.foldl (fun acc x => if x ∈ acc then acc else acc ++ [x]) acc
        ((nss.map (fun kv =>
          List.replicate (nsWrites (out ++ ["data", kv.1]) kv.2).length kv.1)).flatten) =
        acc ++ (nss.filter (fun kv => !kv.2.isEmptyNS)).map Prod.fst := by
  intro nss
  induction nss with
  | nil => intro acc _ _; simp
  | cons kv tl ih =>
    intro acc hnd hacc
    rw [List.map_cons, List.flatten_cons, List.foldl_append]
    rw [List.map_cons, List.nodup_cons] at hnd
    by_cases hz : (nsWrites (out ++ ["data", kv.1]) kv.2).length = 0
    · rw [hz, show List.replicate 0 kv.1 = [] from rfl]
      rw [List.filter_cons, if_neg (by
        rw [Bool.not_eq_true', Bool.not_eq_false]
        exact (nsWrites_nil_iff _ _).mp hz)]
      exact ih acc hnd.2 (fun kv' hkv' => hacc kv' (List.mem_cons_of_mem _ hkv'))
    · rw [foldl_dedup_replicate kv.1 _ acc hz (hacc kv (List.mem_cons_self _ _))]
      rw [List.filter_cons, if_pos (by
        rw [Bool.not_eq_true', Bool.eq_false_iff]
        intro hc
        exact hz ((nsWrites_nil_iff _ _).mpr hc))]
      rw [ih (acc ++ [kv.1]) hnd.2 (by
        intro kv' hkv' hc
        rcases List.mem_append.mp hc with h' | h'
        · exact hacc kv' (List.mem_cons_of_mem _ hkv') h'
        · rw [List.mem_singleton] at h'
          exact hnd.1 (h' ▸ List.mem_map_of_mem Prod.fst hkv'))]
      simp

theorem filterMap_nsWrites_names (out : FilePath') (n : String) (NS : Namespace) :
    (nsWrites (out ++ ["data", n]) NS).filterMap (fun e =>
      if (out ++ ["data"]).isPrefixOf e.1 then e.1[(out ++ ["data"]).length]? else none) =
    List.replicate (nsWrites (out ++ ["data", n]) NS).length n := by
  refine filterMap_const_some _ _ _ ?_
  intro w hw
  obtain ⟨f, segs, -, hshape⟩ := nsWrites_mem_shape hw
  have hsh2 : w.1 = (out ++ ["data"]) ++ (n :: (f ++ segs)) := by
    rw [hshape]
    simp
  rw [hsh2, if_pos (isPrefixOf_append _ _), List.getElem?_append_right (le_refl _)]
  simp

theorem nsNamesUnder_packWrites (fs0 : FS) (p : DataPack) (out : FilePath')
    (hfr : freshFor fs0 out) (hnd : (p.namespaces.map Prod.fst).Nodup) :
    nsNamesUnder (fs0 ++ packWrites p out) (out ++ ["data"]) =
      (p.namespaces.filter (fun kv => !kv.2.isEmptyNS)).map Prod.fst := by
  rw [nsNamesUnder, List.filterMap_append]
  rw [show (fs0.filterMap (fun e =>
      if (out ++ ["data"]).isPrefixOf e.1 then e.1[(out ++ ["data"]).length]? else none)) = [] by
    rw [List.filterMap_eq_nil_iff]
    intro e he
    rw [if_neg]
    intro hc
    have hq := not_isPrefixOf_of_trans out (out ++ ["data"]) e.1
      (isPrefixOf_append _ _) (hfr e he)
    rw [hc] at hq
    cases hq]
  rw [List.nil_append, packWrites, List.filterMap_cons]
  rw [show (if (out ++ ["data"]).isPrefixOf (out ++ ["pack.mcmeta"], FileData.json p.mcmeta).1
        then (out ++ ["pack.mcmeta"], FileData.json p.mcmeta).1[(out ++ ["data"]).length]?
        else none) = none by
    rw [if_neg]
    intro hc
    rw [List.isPrefixOf_iff_prefix, List.prefix_append_right_inj,
        List.cons_prefix_cons] at hc
    exact absurd hc.1 (by decide)]
  rw [List.filterMap_flatten, List.map_map]
  rw [show (List.filterMap (fun e =>
        if (out ++ ["data"]).isPrefixOf e.1 then e.1[(out ++ ["data"]).length]? else none) ∘
        fun kv => nsWrites (out ++ ["data", kv.1]) kv.2) =
      (fun kv : String × Namespace =>
        List.replicate (nsWrites (out ++ ["data", kv.1]) kv.2).length kv.1) by
    funext kv
    exact filterMap_nsWrites_names out kv.1 kv.2]
  rw [dedupF]
  have h := dedupF_ns_chunks out p.namespaces [] hnd (by intro kv _ hc; cases hc)
  simpa using h

theorem lookup_packWrites_mcmeta (fs0 : FS) (p : DataPack) (out : FilePath')
    (hfr : freshFor fs0 out) :
    FS.lookup (fs0 ++ packWrites p out) (out ++ ["pack.mcmeta"]) =
      some (.json p.mcmeta) := by
  rw [lookup_eq_alookup, alookup, List.find?_append]
  rw [show List.find? (fun e => decide (e.1 = out ++ ["pack.mcmeta"])) fs0 = none by
    rw [List.find?_eq_none]
    intro e he hc
    rw [decide_eq_true_eq] at hc
    have hq := hfr e he
    rw [hc, isPrefixOf_append] at hq
    cases hq]
  rw [Option.none_or, packWrites, List.find?_cons_of_pos _ (by simp)]
  rfl

/-- The namespace-installation fold of `DataPack.load`, forward direction:
with every name colon-free and every namespace loadable, the fold installs
them in order. -/
theorem foldlM_setItem_ns_eq (fs : FS) (src : FilePath') :
    ∀ (nsls : List (String × Namespace)) (acc : DataPack),
      (nsls.map Prod.fst).Nodup →
      (∀ kv ∈ nsls, ¬ ':' ∈ kv.1.data ∧
        Namespace.load fs (src ++ ["data", kv.1]) = some kv.2) →
      (∀ kv ∈ nsls, ∀ kv' ∈ acc.namespaces, kv'.1 ≠ kv.1) →
      List.foldlM (fun acc n => (Namespace.load fs (src ++ ["data", n])).bind
        (fun ns => acc.setItem n (.ns ns))) acc (nsls.map Prod.fst) =
      some { acc with namespaces := acc.namespaces ++ nsls } := by
  intro nsls
  induction nsls with
  | nil =>
    intro acc _ _ _
    simp
  | cons kv tl ih =>
    intro acc hnd h hfr
    rw [List.map_cons, List.nodup_cons] at hnd
    rw [List.map_cons, List.foldlM_cons, (h kv (List.mem_cons_self _ _)).2]
    have hset : acc.setItem kv.1 (.ns kv.2) =
        some { acc with namespaces := acc.namespaces ++ [kv] } := by
      rw [DataPack.setItem,
          partitionColon_no_colon kv.1.data (h kv (List.mem_cons_self _ _)).1]
      rw [if_pos (show ((kv.1.data, ([] : List Char)) :
            List Char × List Char).2.isEmpty = true from rfl)]
      rw [pyInsert_fresh _ _ _ (fun kv' hkv' => hfr kv (List.mem_cons_self _ _) kv' hkv')]
    rw [show ((some kv.2).bind fun ns => acc.setItem kv.1 (PackValue.ns ns)) =
        acc.setItem kv.1 (.ns kv.2) from rfl, hset]
    have hbind : ∀ (X : DataPack) (g : DataPack → Option DataPack),
        ((some X : Option DataPack) >>= g) = g X := fun X g => rfl
    rw [hbind]
    rw [ih { acc with namespaces := acc.namespaces ++ [kv] } hnd.2
      (fun kv' hkv' => h kv' (List.mem_cons_of_mem _ hkv'))
      (by
        intro kv2 hkv2 kv' hkv'
        rcases List.mem_append.mp hkv' with h' | h'
        · exact hfr kv2 (List.mem_cons_of_mem _ hkv2) kv' h'
        · rw [List.mem_singleton] at h'
          subst h'
          intro hc
          exact hnd.1 (hc ▸ List.mem_map_of_mem Prod.fst hkv2))]
    simp

/-- Master round trip: dumping a well-formed pack into a fresh location and
loading the result back restores the pack, minus namespaces that had no
items (they produce no files and are not rediscovered). -/
theorem dump_load_roundtrip_master (p : DataPack) (dir : FilePath') (fs : FS)
    (hwf : p.wf) (hfr : freshFor fs (dir ++ [p.name])) :
    p.dump dir false fs = .ok (fs ++ packWrites p (dir ++ [p.name])) ∧
    DataPack.load (fs ++ packWrites p (dir ++ [p.name])) (dir ++ [p.name]) =
      some { p with namespaces :=
        p.namespaces.filter (fun kv => !kv.2.isEmptyNS) } := by
  refine ⟨dump_fresh_ok p dir fs hwf hfr, ?_⟩
  rw [DataPack.load, lookup_packWrites_mcmeta fs p (dir ++ [p.name]) hfr]
  dsimp only [DataPack.mcmeta, jFields, jLookup, List.find?, Option.map_some']
  rw [show (decide ("pack" = "pack")) = true from by decide]
  dsimp only [jFields, Option.map_some']
  rw [show (List.find? (fun kv => decide (kv.1 = "description"))
        [("pack_format", Json.num p.pack_format),
         ("description", Json.str p.description)]) =
      some ("description", Json.str p.description) from by
    rw [List.find?_cons_of_neg _ (by simp), List.find?_cons_of_pos _ (by simp)]]
  rw [show (List.find? (fun kv => decide (kv.1 = "pack_format"))
        [("pack_format", Json.num p.pack_format),
         ("description", Json.str p.description)]) =
      some ("pack_format", Json.num p.pack_format) from by
    rw [List.find?_cons_of_pos _ (by simp)]]
  dsimp only [Option.map_some']
  rw [nsNamesUnder_packWrites fs p (dir ++ [p.name]) hfr hwf.2.1]
  rw [foldlM_setItem_ns_eq (fs ++ packWrites p (dir ++ [p.name])) (dir ++ [p.name])
    (p.namespaces.filter (fun kv => !kv.2.isEmptyNS))
    { name := (dir ++ [p.name]).getLastD "", description := p.description,
      namespaces := [], pack_format := p.pack_format }
    ((List.filter_sublist _).map Prod.fst |>.nodup hwf.2.1)
    (by
      intro kv hkv
      have hmem := List.mem_of_mem_filter hkv
      refine ⟨(hwf.2.2 kv hmem).1.2.2.1, ?_⟩
      exact ns_load_packWrites fs p (dir ++ [p.name]) kv.1 kv.2 hfr hwf.2.1
        hmem (hwf.2.2 kv hmem).2)
    (by intro kv _ kv' h'; cases h')]
  rw [List.getLastD_concat]
  rfl

/-- **C1 counterexample**: a constructible pack holding one namespace with
zero items does not survive dump → load — the empty namespace produces no
files and is lost on reload. -/
theorem claim_C1_counterexample :
    DataPack.dump
      { name := "pack", description := "", namespaces := [("ns", {})],
        pack_format := 1 } ["w"] false [] =
      .ok [(["w", "pack", "pack.mcmeta"], FileData.json (Json.objCons "pack"
        (Json.objCons "pack_format" (Json.num 1)
          (Json.objCons "description" (Json.str "") Json.objNil)) Json.objNil))] ∧
    DataPack.load [(["w", "pack", "pack.mcmeta"], FileData.json (Json.objCons "pack"
        (Json.objCons "pack_format" (Json.num 1)
          (Json.objCons "description" (Json.str "") Json.objNil)) Json.objNil))]
      ["w", "pack"] =
      some { name := "pack", description := "", namespaces := [], pack_format := 1 } ∧
    ({ name := "pack", description := "", namespaces := [], pack_format := 1 } : DataPack) ≠
      { name := "pack", description := "", namespaces := [("ns", {})], pack_format := 1 } :=
  ⟨rfl, rfl, by decide⟩

/-- **C1** (corrected).  For every well-formed pack — pack, namespace and
item-path names representable on the filesystem, dictionary keys unique,
items valid, structures carrying the default `DataVersion` — **whose every
namespace holds at least one item**, dumping to a fresh directory and
loading that directory back yields exactly the original pack (name,
description, pack format and all namespace mappings included).  The
original claim's universal form fails for empty namespaces (see the
counterexample); the other well-formedness conditions exclude the
`Structure.load` `DataVersion` reset (claim C2) and names `pathlib`/`rglob`
cannot round trip. -/
theorem claim_C1_dump_load_roundtrip (p : DataPack) (dir : FilePath') (fs : FS)
    (hwf : p.wf) (hfr : freshFor fs (dir ++ [p.name]))
    (hne : ∀ kv ∈ p.namespaces, kv.2.isEmptyNS = false) :
    ∃ fs', p.dump dir false fs = .ok fs' ∧
      DataPack.load fs' (dir ++ [p.name]) = some p := by
  obtain ⟨h1, h2⟩ := dump_load_roundtrip_master p dir fs hwf hfr
  refine ⟨_, h1, ?_⟩
  rw [h2, List.filter_eq_self.mpr (fun kv hkv => by rw [hne kv hkv]; rfl)]

theorem claim_C1_dump_load_roundtrip_witness :
    ∃ fs', DataPack.dump
        { name := "pack", description := "d",
          namespaces := [("test",
            { advancements := [(["thing"], {})],
              functions := [(["thing"], {})],
              loot_tables := [(["thing"], {})],
              recipes := [(["thing"], {})],
              structures := [(["thing"], {})],
              block_tags := [(["thing"], {})],
              item_tags := [(["thing"], {})],
              fluid_tags := [(["thing"], {})],
              function_tags := [(["thing"], {})],
              entity_type_tags := [(["thing"], {})] })],
          pack_format := 1 } ["w"] false [] = .ok fs' ∧
      DataPack.load fs' ["w", "pack"] =
        some ({ name := "pack", description := "d",
                namespaces := [("test",
                  { advancements := [(["thing"], {})],
                    functions := [(["thing"], {})],
                    loot_tables := [(["thing"], {})],
                    recipes := [(["thing"], {})],
                    structures := [(["thing"], {})],
                    block_tags := [(["thing"], {})],
                    item_tags := [(["thing"], {})],
                    fluid_tags := [(["thing"], {})],
                    function_tags := [(["thing"], {})],
                    entity_type_tags := [(["thing"], {})] })],
                pack_format := 1 } : DataPack) :=
  claim_C1_dump_load_roundtrip _ ["w"] [] (by decide) (by decide) (by decide)

/-- With unique keys, every binding whose key matches an `alookup` result
carries the looked-up value. -/
theorem alookup_eq_of_key_eq {κ α : Type _} [DecidableEq κ]
    {l : List (κ × α)} {n : κ} {v : α}
    (hnd : (l.map Prod.fst).Nodup) (hl : alookup l n = some v) :
    ∀ kv ∈ l, kv.1 = n → kv.2 = v := by
  induction l with
  | nil => intro kv hkv; cases hkv
  | cons hd tl ih =>
    rw [List.map_cons, List.nodup_cons] at hnd
    intro kv hkv hk
    rcases List.mem_cons.mp hkv with rfl | htl
    · rw [alookup, List.find?_cons_of_pos _ (by simp [hk])] at hl
      simp only [Option.map_some', Option.some.injEq] at hl
      exact hl
    · by_cases hhd : hd.1 = n
      · exact absurd (show hd.1 ∈ tl.map Prod.fst from by
          rw [hhd, ← hk]; exact List.mem_map_of_mem _ htl) hnd.1
      · rw [alookup, List.find?_cons_of_neg _ (by simp [hhd])] at hl
        exact ih hnd.2 hl kv htl hk

/-- **C10**: if a pack maps the name `n` to a namespace with zero items in
every per-kind mapping, then dumping writes no file at or below
`<out>/data/<n>` (that directory is never created — directories exist in the
model exactly where files lie below them), and any pack reloaded from the
dumped tree no longer contains the name `n` at all. -/
theorem claim_C10_empty_namespace (p : DataPack) (dir : FilePath') (fs : FS)
    (n : String) (NS : Namespace) (hwf : p.wf) (hfr : freshFor fs (dir ++ [p.name]))
    (hn : alookup p.namespaces n = some NS) (hemp : NS.isEmptyNS = true) :
    ∃ fs', p.dump dir false fs = .ok fs' ∧
      (∀ e ∈ fs', ((dir ++ [p.name]) ++ ["data", n]).isPrefixOf e.1 = false) ∧
      ∀ q, DataPack.load fs' (dir ++ [p.name]) = some q →
        alookup q.namespaces n = none := by
  obtain ⟨h1, h2⟩ := dump_load_roundtrip_master p dir fs hwf hfr
  refine ⟨_, h1, ?_, ?_⟩
  · intro e he
    rcases List.mem_append.mp he with hfs | hpw
    · exact not_isPrefixOf_of_trans _ _ _ (isPrefixOf_append _ _) (hfr e hfs)
    · rw [packWrites] at hpw
      rcases List.mem_cons.mp hpw with rfl | hflat
      · have := mcmeta_clash (dir ++ [p.name]) n []
        rwa [List.append_nil] at this
      · rw [List.mem_flatten] at hflat
        obtain ⟨l, hl, hel⟩ := hflat
        rw [List.mem_map] at hl
        obtain ⟨kv, hkv, rfl⟩ := hl
        by_cases hkn : kv.1 = n
        · exfalso
          have hv : kv.2 = NS := alookup_eq_of_key_eq hwf.2.1 hn kv hkv hkn
          have hlen : (nsWrites ((dir ++ [p.name]) ++ ["data", kv.1]) kv.2).length = 0 :=
            (nsWrites_nil_iff _ _).mpr (by rw [hv]; exact hemp)
          rw [List.length_eq_zero] at hlen
          rw [hlen] at hel
          cases hel
        · obtain ⟨f, segs, -, hshape⟩ := nsWrites_mem_shape hel
          rw [hshape]
          have := ns_dir_clash (dir ++ [p.name]) n kv.1 [] f segs (fun hc => hkn hc.symm)
          rwa [List.append_nil] at this
  · intro q hq
    rw [h2, Option.some.injEq] at hq
    subst hq
    show alookup (p.namespaces.filter (fun kv => !kv.2.isEmptyNS)) n = none
    have hfind : (p.namespaces.filter (fun kv => !kv.2.isEmptyNS)).find?
        (fun kv => kv.1 = n) = none := by
      rw [List.find?_eq_none]
      intro kv hkv hdec
      rw [List.mem_filter] at hkv
      have hk : kv.1 = n := of_decide_eq_true hdec
      have hv : kv.2 = NS := alookup_eq_of_key_eq hwf.2.1 hn kv hkv.1 hk
      have h2' := hkv.2
      rw [hv, hemp] at h2'
      exact absurd h2' (by decide)
    rw [alookup, hfind, Option.map_none']

theorem claim_C10_empty_namespace_witness :
    ∃ fs', DataPack.dump
        { name := "pack", description := "", namespaces := [("ns", {})],
          pack_format := 1 } ["w"] false [] = .ok fs' ∧
      (∀ e ∈ fs', (["w", "pack", "data", "ns"] : FilePath').isPrefixOf e.1 = false) ∧
      ∀ q, DataPack.load fs' ["w", "pack"] = some q →
        alookup q.namespaces "ns" = none :=
  claim_C10_empty_namespace _ ["w"] [] "ns" {} (by decide) (by decide) rfl rfl

/-- **C5**: assigning the same relative path to a default instance of every
item kind inside one namespace yields per-kind dicts each holding exactly
that one binding, and dumping then reloading the pack returns it unchanged:
no kind's entry is lost or overwritten by another kind sharing the path,
because every kind writes below its own folder with its own extension. -/
theorem claim_C5_cross_kind_isolation (packName nsName : String)
    (path : List String) (dir : FilePath')
    (hp : segOk packName) (hn : segOk nsName)
    (hj : wfName ".json" path) (hm : wfName ".mcfunction" path)
    (hb : wfName ".nbt" path) :
    ∃ NSall : Namespace,
      ([Item.advancement {}, Item.function {}, Item.lootTable {}, Item.recipe {},
        Item.structureItem {}, Item.blockTag {}, Item.itemTag {}, Item.fluidTag {},
        Item.functionTag {}, Item.entityTypeTag {}].foldl
          (fun ns it => ns.setItem path it) {}) = NSall ∧
      NSall.advancements = [(path, {})] ∧ NSall.functions = [(path, {})] ∧
      NSall.loot_tables = [(path, {})] ∧ NSall.recipes = [(path, {})] ∧
      NSall.structures = [(path, {})] ∧ NSall.block_tags = [(path, {})] ∧
      NSall.item_tags = [(path, {})] ∧ NSall.fluid_tags = [(path, {})] ∧
      NSall.function_tags = [(path, {})] ∧ NSall.entity_type_tags = [(path, {})] ∧
      ∃ fs', DataPack.dump
          { name := packName, description := "", namespaces := [(nsName, NSall)],
            pack_format := 1 } dir false [] = .ok fs' ∧
        DataPack.load fs' (dir ++ [packName]) =
          some ({ name := packName, description := "",
                  namespaces := [(nsName, NSall)],
                  pack_format := 1 } : DataPack) := by
  refine ⟨{ advancements := [(path, {})], functions := [(path, {})],
            loot_tables := [(path, {})], recipes := [(path, {})],
            structures := [(path, {})], block_tags := [(path, {})],
            item_tags := [(path, {})], fluid_tags := [(path, {})],
            function_tags := [(path, {})], entity_type_tags := [(path, {})] },
          rfl, rfl, rfl, rfl, rfl, rfl, rfl, rfl, rfl, rfl, rfl, ?_⟩
  have hwf : DataPack.wf
      { name := packName, description := "",
        namespaces := [(nsName,
          { advancements := [(path, {})], functions := [(path, {})],
            loot_tables := [(path, {})], recipes := [(path, {})],
            structures := [(path, {})], block_tags := [(path, {})],
            item_tags := [(path, {})], fluid_tags := [(path, {})],
            function_tags := [(path, {})],
            entity_type_tags := [(path, {})] })],
        pack_format := 1 } := by
    refine ⟨hp, by simp, ?_⟩
    intro kv hkv
    rw [List.mem_singleton] at hkv
    subst hkv
    refine ⟨hn, ?_⟩
    exact ⟨⟨by simp, fun kv hkv => by
        rw [List.mem_singleton] at hkv; subst hkv
        exact ⟨hj, (by decide : Advancement.valid {})⟩⟩,
      ⟨by simp, fun kv hkv => by
        rw [List.mem_singleton] at hkv; subst hkv
        exact ⟨hm, trivial⟩⟩,
      ⟨by simp, fun kv hkv => by
        rw [List.mem_singleton] at hkv; subst hkv
        exact ⟨hj, (by decide : LootTable.valid {})⟩⟩,
      ⟨by simp, fun kv hkv => by
        rw [List.mem_singleton] at hkv; subst hkv
        exact ⟨hj, (by decide : Recipe.valid {})⟩⟩,
      ⟨by simp, fun kv hkv => by
        rw [List.mem_singleton] at hkv; subst hkv
        exact ⟨hb, rfl⟩⟩,
      ⟨by simp, fun kv hkv => by
        rw [List.mem_singleton] at hkv; subst hkv
        exact ⟨hj, (by decide : TagItem.valid {})⟩⟩,
      ⟨by simp, fun kv hkv => by
        rw [List.mem_singleton] at hkv; subst hkv
        exact ⟨hj, (by decide : TagItem.valid {})⟩⟩,
      ⟨by simp, fun kv hkv => by
        rw [List.mem_singleton] at hkv; subst hkv
        exact ⟨hj, (by decide : TagItem.valid {})⟩⟩,
      ⟨by simp, fun kv hkv => by
        rw [List.mem_singleton] at hkv; subst hkv
        exact ⟨hj, (by decide : TagItem.valid {})⟩⟩,
      ⟨by simp, fun kv hkv => by
        rw [List.mem_singleton] at hkv; subst hkv
        exact ⟨hj, (by decide : TagItem.valid {})⟩⟩⟩
  obtain ⟨hd, hl⟩ := dump_load_roundtrip_master _ dir [] hwf
    (fun e he => absurd he (List.not_mem_nil e))
  exact ⟨_, hd, hl⟩

theorem claim_C5_cross_kind_isolation_witness :
    ∃ NSall : Namespace,
      ([Item.advancement {}, Item.function {}, Item.lootTable {}, Item.recipe {},
        Item.structureItem {}, Item.blockTag {}, Item.itemTag {}, Item.fluidTag {},
        Item.functionTag {}, Item.entityTypeTag {}].foldl
          (fun ns it => ns.setItem ["thing", "subfolder"] it) {}) = NSall ∧
      NSall.advancements = [(["thing", "subfolder"], {})] ∧
      NSall.functions = [(["thing", "subfolder"], {})] ∧
      NSall.loot_tables = [(["thing", "subfolder"], {})] ∧
      NSall.recipes = [(["thing", "subfolder"], {})] ∧
      NSall.structures = [(["thing", "subfolder"], {})] ∧
      NSall.block_tags = [(["thing", "subfolder"], {})] ∧
      NSall.item_tags = [(["thing", "subfolder"], {})] ∧
      NSall.fluid_tags = [(["thing", "subfolder"], {})] ∧
      NSall.function_tags = [(["thing", "subfolder"], {})] ∧
      NSall.entity_type_tags = [(["thing", "subfolder"], {})] ∧
      ∃ fs', DataPack.dump
          { name := "p", description := "", namespaces := [("test", NSall)],
            pack_format := 1 } [] false [] = .ok fs' ∧
        DataPack.load fs' ["p"] =
          some ({ name := "p", description := "",
                  namespaces := [("test", NSall)],
                  pack_format := 1 } : DataPack) :=
  claim_C5_cross_kind_isolation "p" "test" ["thing", "subfolder"] []
    (by decide) (by decide) (by decide) (by decide) (by decide)
